import Mathlib

set_option maxHeartbeats 1000000

/-!
# Verification of the a_lang front end (parser / AST / unparser)

Shallow embedding of the grammar of `a.yy` (precedence table and productions),
the AST node taxonomy of `ast.hpp` (the complete variant set), the canonical
renderer of `unparse.cpp`, and — modelled from the spec, since `tokens.hpp`,
`scanner.*` and the generated `parser.cc` are not part of the sources — the
Position value model and the external scanner.

The parser is written as the recursive-descent equivalent of the declared
LALR(1) grammar (the spec itself allows "an exactly-equivalent hand-written
recursive-descent parser"): the binary-operator levels follow the
`%right ASSIGN / %left OR / %left AND / %nonassoc relational / %left DASH CROSS
/ %left STAR SLASH / %left NOT` declarations of `a.yy` lines 127-133.
Reduction actions that are empty stubs in `a.yy` are modelled from the spec
(§4.3: every production maps to the correspondingly named node variant, with
children in grammar order).
-/

namespace ALang

/-! ## Position model

Modelled from the spec: `tokens.hpp` (the Token/Position classes) is not in
the sources.  Per spec §3 a Position is a source span
`(startLine, startCol, endLine, endCol)`, and the two-argument constructor
used in the reduction actions merges two spans into the span from the start
of the first to the end of the second. -/

structure Position where
  startLine : Nat
  startCol : Nat
  endLine : Nat
  endCol : Nat
deriving Repr, DecidableEq

/-- Modelled from the spec: the merging `Position(p1, p2)` constructor —
the span from the start of `p1` to the end of `p2`. -/
def posMerge (p1 p2 : Position) : Position :=
  ⟨p1.startLine, p1.startCol, p2.endLine, p2.endCol⟩

/-- The Position computed by the `varDecl : name COLON type` reduction of
`a.yy` lines 166-171: `new Position($1->pos(), $2->pos())`, i.e. the merge of
the position of `$1` (the name) and of `$2` (the COLON token).  The type's
position `$3` is not used by the code. -/
def varDeclActionPos (namePos colonPos typePos : Position) : Position :=
  posMerge namePos colonPos

/-- The Position computed by `ProgramNode::ProgramNode` (`ast.cpp`): the
synthetic zero span for an empty globals list, otherwise the merge of the
front and back declaration positions. -/
def programNodePos (globals : List Position) : Position :=
  match globals with
  | [] => ⟨0, 0, 0, 0⟩
  | p :: ps => posMerge p (List.getLast (p :: ps) (by simp))

/-! ## Tokens

The terminal alphabet of `a.yy` lines 61-106.  `ID` carries a name,
`INTLITERAL` an integer value, `STRINGLITERAL` a string value (spec §3). -/

inductive Tok where
  | AND | ASSIGN | ARROW | BOOL | COLON | COMMA | CUSTOM | DASH | ELSE | EH
  | EQUALS | FALSE | FROMCONSOLE | GREATER | GREATEREQ
  | ID (name : String)
  | IF | INT
  | INTLITERAL (value : Nat)
  | IMMUTABLE | LCURLY | LESS | LESSEQ | LPAREN | MAYBE | MEANS | NOT
  | NOTEQUALS | OR | OTHERWISE | CROSS | POSTDEC | POSTINC | RETURN | RCURLY
  | REF | RPAREN | SEMICOL | SLASH | STAR
  | STRINGLITERAL (value : String)
  | TOCONSOLE | TRUE | VOID | WHILE
deriving Repr, DecidableEq

/-! ## AST node taxonomy

The complete variant set of `ast.hpp` (the spec follows this variant per its
§9 design note).  Positions are not stored here: the structural claims are
about node shapes, literal values and child order; the position-computing
reduction actions are modelled separately above. -/

/-- Type nodes: `IntTypeNode`, `BoolTypeNode`, `VoidTypeNode`,
`ClassTypeNode`, `ImmutableTypeNode`, `RefTypeNode`. -/
inductive Ty where
  | IntType
  | BoolType
  | VoidType
  | ClassType (name : String)
  | ImmutableType (sub : Ty)
  | RefType (sub : Ty)
deriving Repr, DecidableEq

/-- Location nodes.  `IDNode` is in `ast.hpp`; the member-access node of the
`loc : loc ARROW name` production is modelled from the spec
(§3: `MemberLoc{baseLoc, fieldName}`, chained via an arrow accessor). -/
inductive Loc where
  | IDNode (name : String)
  | Member (base : Loc) (field : String)
deriving Repr, DecidableEq

/-- Expression nodes of `ast.hpp`: literals, `CallExpNode`, the twelve
binary nodes, `NegNode`/`NotNode`, and any location used as a value
(`LocNode` subclasses `ExpNode`). -/
inductive Exp where
  | LocE (l : Loc)
  | IntLit (value : Nat)
  | StrLit (value : String)
  | TrueLit
  | FalseLit
  | EhLit
  | CallExp (callee : Loc) (args : List Exp)
  | Plus (e1 e2 : Exp)
  | Minus (e1 e2 : Exp)
  | Times (e1 e2 : Exp)
  | Divide (e1 e2 : Exp)
  | And (e1 e2 : Exp)
  | Or (e1 e2 : Exp)
  | Equals (e1 e2 : Exp)
  | NotEquals (e1 e2 : Exp)
  | Less (e1 e2 : Exp)
  | LessEq (e1 e2 : Exp)
  | Greater (e1 e2 : Exp)
  | GreaterEq (e1 e2 : Exp)
  | Neg (e : Exp)
  | Not (e : Exp)
deriving Repr

/-- Statement nodes of `ast.hpp`.  `VarDeclNode` is also a statement
(`DeclNode` subclasses `StmtNode`; grammar `stmt : varDecl`). -/
inductive Stmt where
  | VarDecl (name : String) (ty : Ty) (init : Option Exp)
  | Assign (dst : Loc) (src : Exp)
  | CallStmt (callee : Loc) (args : List Exp)
  | Return (e : Option Exp)
  | Maybe (dst : Loc) (src1 src2 : Exp)
  | FromConsole (dst : Loc)
  | ToConsole (src : Exp)
  | PostDec (l : Loc)
  | PostInc (l : Loc)
  | If (cond : Exp) (body : List Stmt)
  | IfElse (cond : Exp) (bodyTrue bodyFalse : List Stmt)
  | While (cond : Exp) (body : List Stmt)
deriving Repr

/-- A formal parameter (`FormalDeclNode`: a `VarDeclNode` with no
initializer). -/
structure Formal where
  name : String
  ty : Ty
deriving Repr, DecidableEq

/-- Declaration nodes: `VarDeclNode`, `ClassDefnNode`, `FnDeclNode`. -/
inductive Decl where
  | VarDecl (name : String) (ty : Ty) (init : Option Exp)
  | ClassDefn (name : String) (members : List Decl)
  | FnDecl (name : String) (formals : List Formal) (retTy : Ty)
      (body : List Stmt)
deriving Repr

/-- The program root is the ordered list of global declarations
(`ProgramNode::myGlobals`). -/
abbrev Program := List Decl

/-! ## Decimal numerals

`IntLitNode::unparse` prints the stored integer with `operator<<`, i.e. as a
decimal numeral; the scanner reads decimal numerals back. -/

/-- The decimal digit character for `n < 10`. -/
def digitChar (n : Nat) : Char := Char.ofNat (48 + n)

/-- Decimal digits of `n`, most significant first. -/
def natChars (n : Nat) : List Char :=
  if h : n < 10 then [digitChar n]
  else natChars (n / 10) ++ [digitChar (n % 10)]
decreasing_by exact Nat.div_lt_self (by omega) (by omega)

/-- Accumulating digit-run value, as the scanner computes it. -/
def charsToNatAux (acc : Nat) : List Char → Nat
  | [] => acc
  | c :: cs => charsToNatAux (acc * 10 + (c.toNat - 48)) cs

def charsToNat (cs : List Char) : Nat := charsToNatAux 0 cs

/-! ## The unparser (`unparse.cpp`)

Each function below transcribes the unparse method of the correspondingly
named node class.  `doIndent` writes `indent` tabs (none for a negative
argument, matching `for (int k = 0; k < indent; k++)`). -/

/-- `doIndent`: one tab per nesting level. -/
def doIndent (indent : Int) : String :=
  String.mk (List.replicate indent.toNat '\t')

/-- `IntTypeNode::unparse` … `RefTypeNode::unparse`. -/
def unparseTy (t : Ty) (indent : Int) : String :=
  match t with
  | .IntType => "int"
  | .BoolType => "bool"
  | .VoidType => "void"
  | .ClassType n => doIndent indent ++ n
  | .ImmutableType s => doIndent indent ++ "immutable " ++ unparseTy s 0
  | .RefType s => doIndent indent ++ "& " ++ unparseTy s 0

/-- `IDNode::unparse` prints the name; the member-access rendering is
modelled from the spec (the arrow-style accessor of §3/§6). -/
def unparseLoc (l : Loc) : String :=
  match l with
  | .IDNode n => n
  | .Member b f => unparseLoc b ++ "->" ++ f

mutual

/-- The `unparse` methods of the expression node classes (each at the given
indentation; every `doIndent 0` is the empty string). -/
def unparseExp (e : Exp) (indent : Int) : String :=
  match e with
  | .LocE l => unparseLoc l
  | .IntLit n => doIndent indent ++ String.mk (natChars n)
  | .StrLit s => doIndent indent ++ s
  | .TrueLit => doIndent indent ++ "true"
  | .FalseLit => doIndent indent ++ "false"
  | .EhLit => doIndent indent ++ "eh?"
  | .CallExp callee args =>
      doIndent indent ++ unparseLoc callee ++ "(" ++ unparseArgs args ++ ")"
  | .Plus e1 e2 =>
      doIndent indent ++ unparseNested e1 ++ " + " ++ unparseNested e2
  | .Minus e1 e2 =>
      doIndent indent ++ unparseNested e1 ++ " - " ++ unparseNested e2
  | .Times e1 e2 =>
      doIndent indent ++ unparseNested e1 ++ " * " ++ unparseNested e2
  | .Divide e1 e2 =>
      doIndent indent ++ unparseNested e1 ++ " / " ++ unparseNested e2
  | .And e1 e2 =>
      doIndent indent ++ unparseNested e1 ++ " and " ++ unparseNested e2
  | .Or e1 e2 =>
      doIndent indent ++ unparseNested e1 ++ " or " ++ unparseNested e2
  | .Equals e1 e2 =>
      doIndent indent ++ unparseNested e1 ++ " == " ++ unparseNested e2
  | .NotEquals e1 e2 =>
      doIndent indent ++ unparseNested e1 ++ " != " ++ unparseNested e2
  | .Less e1 e2 =>
      doIndent indent ++ unparseNested e1 ++ " < " ++ unparseNested e2
  | .LessEq e1 e2 =>
      doIndent indent ++ unparseNested e1 ++ " <= " ++ unparseNested e2
  | .Greater e1 e2 =>
      doIndent indent ++ unparseNested e1 ++ " > " ++ unparseNested e2
  | .GreaterEq e1 e2 =>
      doIndent indent ++ unparseNested e1 ++ " >= " ++ unparseNested e2
  | .Neg e1 => doIndent indent ++ "-" ++ unparseNested e1
  | .Not e1 => doIndent indent ++ "!" ++ unparseNested e1

/-- `ExpNode::unparseNested` wraps `unparse(out, 0)` in parentheses; the
five literal classes (`IntLitNode`, `StrLitNode`, `TrueNode`, `FalseNode`,
`EhNode`) override it with a bare `unparse(out, 0)`. -/
def unparseNested (e : Exp) : String :=
  match e with
  | .IntLit n => unparseExp (.IntLit n) 0
  | .StrLit s => unparseExp (.StrLit s) 0
  | .TrueLit => unparseExp .TrueLit 0
  | .FalseLit => unparseExp .FalseLit 0
  | .EhLit => unparseExp .EhLit 0
  | e => "(" ++ unparseExp e 0 ++ ")"

/-- The argument loop of `CallExpNode::unparse`: arguments separated by
`", "`, each rendered with `unparse(out, 0)`. -/
def unparseArgs (args : List Exp) : String :=
  match args with
  | [] => ""
  | [e] => unparseExp e 0
  | e :: rest => unparseExp e 0 ++ ", " ++ unparseArgs rest

end

/-- `VarDeclNode::unparse`: indentation, identifier, `": "`, the type, and
`";\n"`.  The stored initializer is not rendered. -/
def unparseVarDecl (name : String) (ty : Ty) (init : Option Exp)
    (indent : Int) : String :=
  doIndent indent ++ name ++ ": " ++ unparseTy ty 0 ++ ";\n"

mutual

/-- The `unparse` methods of the statement node classes.  `CallStmtNode`,
`MaybeStmtNode`, `PostDecStmtNode` and `PostIncStmtNode` guard both their
leading indentation and their trailing `";\n"` with `indent != -1`. -/
def unparseStmt (s : Stmt) (indent : Int) : String :=
  match s with
  | .VarDecl n t i => unparseVarDecl n t i indent
  | .Assign dst src =>
      doIndent indent ++ unparseLoc dst ++ " = " ++ unparseExp src 0 ++ ";\n"
  | .CallStmt callee args =>
      (if indent ≠ -1 then doIndent indent else "") ++
        unparseExp (.CallExp callee args) 0 ++
        (if indent ≠ -1 then ";\n" else "")
  | .Return oe =>
      doIndent indent ++ "return" ++
        (match oe with
         | some e => " " ++ unparseExp e 0
         | none => "") ++ ";\n"
  | .Maybe dst s1 s2 =>
      (if indent ≠ -1 then doIndent indent else "") ++
        "maybe " ++ unparseLoc dst ++ " means " ++ unparseExp s1 0 ++
        " otherwise " ++ unparseExp s2 0 ++
        (if indent ≠ -1 then ";\n" else "")
  | .FromConsole dst =>
      doIndent indent ++ "fromconsole " ++ unparseLoc dst ++ ";\n"
  | .ToConsole src =>
      doIndent indent ++ "toconsole " ++ unparseExp src 0 ++ ";\n"
  | .PostDec l =>
      (if indent ≠ -1 then doIndent indent else "") ++
        unparseLoc l ++ "--" ++
        (if indent ≠ -1 then ";\n" else "")
  | .PostInc l =>
      (if indent ≠ -1 then doIndent indent else "") ++
        unparseLoc l ++ "++" ++
        (if indent ≠ -1 then ";\n" else "")
  | .If cond body =>
      doIndent indent ++ "if (" ++ unparseExp cond 0 ++ ")\x7b\n" ++
        unparseStmtList body (indent + 1) ++ doIndent indent ++ "\x7d\n"
  | .IfElse cond bt bf =>
      doIndent indent ++ "if (" ++ unparseExp cond 0 ++ ")\x7b\n" ++
        unparseStmtList bt (indent + 1) ++ doIndent indent ++ "\x7d else \x7b\n" ++
        unparseStmtList bf (indent + 1) ++ doIndent indent ++ "\x7d\n"
  | .While cond body =>
      doIndent indent ++ "while (" ++ unparseExp cond 0 ++ ")\x7b\n" ++
        unparseStmtList body (indent + 1) ++ doIndent indent ++ "\x7d\n"

/-- The body loops of the block statements: each statement rendered in
order at the given indentation. -/
def unparseStmtList (l : List Stmt) (indent : Int) : String :=
  match l with
  | [] => ""
  | s :: rest => unparseStmt s indent ++ unparseStmtList rest indent

end

/-- `FormalDeclNode::unparse`: name, `" : "`, type (no terminator). -/
def unparseFormal (f : Formal) : String :=
  f.name ++ " : " ++ unparseTy f.ty 0

/-- The formal loop of `FnDeclNode::unparse`: `", "`-separated. -/
def unparseFormals (fs : List Formal) : String :=
  match fs with
  | [] => ""
  | [f] => unparseFormal f
  | f :: rest => unparseFormal f ++ ", " ++ unparseFormals rest

mutual

/-- The `unparse` methods of the declaration node classes. -/
def unparseDecl (d : Decl) (indent : Int) : String :=
  match d with
  | .VarDecl n t i => unparseVarDecl n t i indent
  | .ClassDefn n members =>
      doIndent indent ++ n ++ " : custom \x7b\n" ++
        unparseDeclList members (indent + 1) ++ "\x7d;\n"
  | .FnDecl n formals retTy body =>
      doIndent indent ++ n ++ " : (" ++ unparseFormals formals ++ ") -> " ++
        unparseTy retTy 0 ++ " \x7b\n" ++ unparseStmtList body (indent + 1) ++
        doIndent indent ++ "\x7d\n"

/-- The member loop of `ClassDefnNode::unparse` and the globals loop of
`ProgramNode::unparse`. -/
def unparseDeclList (l : List Decl) (indent : Int) : String :=
  match l with
  | [] => ""
  | d :: rest => unparseDecl d indent ++ unparseDeclList rest indent

end

/-- `ProgramNode::unparse`: every global declaration in order (the driver
renders the root at indentation 0). -/
def unparseProgram (p : Program) : String :=
  unparseDeclList p 0

/-! ## The scanner

Modelled from the spec: `scanner.hpp`/the `.l` file are not in the sources.
Spec §6 fixes the concrete syntax: the keywords, the `eh?` placeholder
literal, the operators and punctuation, `++`/`--`, and `->`.  Where §6's
word-operator list conflicts with the spec's own concrete test inputs and
with the renderer's output (spec §8 uses `!a * b` for logical not, and
`RefTypeNode::unparse` prints `& `), the scanner accepts both spellings:
`!` and `not` for NOT, `&` and `ref` for REF. -/

def isWS (c : Char) : Bool := c = ' ' || c = '\t' || c = '\n' || c = '\r'

/-- An ASCII letter. -/
def isLetter (c : Char) : Bool :=
  (65 ≤ c.toNat && c.toNat ≤ 90) || (97 ≤ c.toNat && c.toNat ≤ 122)

/-- An ASCII decimal digit. -/
def isDigitC (c : Char) : Bool := 48 ≤ c.toNat && c.toNat ≤ 57

def isIdentStart (c : Char) : Bool := isLetter c || c = '_'

def isIdentChar (c : Char) : Bool := isLetter c || isDigitC c || c = '_'

def isStrChar (c : Char) : Bool := c ≠ '"' && c ≠ '\n'

/-- Keyword table of spec §6; everything else is an identifier. -/
def keywordOrId (s : String) : Tok :=
  if s = "int" then .INT
  else if s = "bool" then .BOOL
  else if s = "void" then .VOID
  else if s = "immutable" then .IMMUTABLE
  else if s = "custom" then .CUSTOM
  else if s = "if" then .IF
  else if s = "else" then .ELSE
  else if s = "while" then .WHILE
  else if s = "maybe" then .MAYBE
  else if s = "means" then .MEANS
  else if s = "otherwise" then .OTHERWISE
  else if s = "fromconsole" then .FROMCONSOLE
  else if s = "toconsole" then .TOCONSOLE
  else if s = "return" then .RETURN
  else if s = "true" then .TRUE
  else if s = "false" then .FALSE
  else if s = "ref" then .REF
  else if s = "and" then .AND
  else if s = "or" then .OR
  else if s = "not" then .NOT
  else .ID s

/-- Modelled from the spec: the maximal-munch tokenizer.  Two-character
operators take priority over their one-character prefixes; an identifier
run `eh` immediately followed by `?` is the `eh?` literal; a string literal
keeps its quotes as its stored value. -/
def lexRun (cs : List Char) : Option (List Tok) :=
  match cs with
  | [] => some []
  | c :: rest =>
    if isWS c then lexRun rest
    else if isDigitC c then
      Option.map
        (fun ts =>
          Tok.INTLITERAL (charsToNat (c :: List.takeWhile isDigitC rest)) :: ts)
        (lexRun (List.dropWhile isDigitC rest))
    else if isIdentStart c then
      if String.mk (c :: List.takeWhile isIdentChar rest) = "eh" &&
          (List.dropWhile isIdentChar rest).head? = some '?' then
        Option.map (fun ts => Tok.EH :: ts)
          (lexRun (List.dropWhile isIdentChar rest).tail)
      else
        Option.map
          (fun ts =>
            keywordOrId (String.mk (c :: List.takeWhile isIdentChar rest)) :: ts)
          (lexRun (List.dropWhile isIdentChar rest))
    else if c = '"' then
      if (List.dropWhile isStrChar rest).head? = some '"' then
        Option.map
          (fun ts =>
            Tok.STRINGLITERAL
              (String.mk ('"' :: (List.takeWhile isStrChar rest ++ ['"']))) :: ts)
          (lexRun (List.dropWhile isStrChar rest).tail)
      else none
    else
      match c, rest with
      | '-', '>' :: r => Option.map (fun ts => Tok.ARROW :: ts) (lexRun r)
      | '-', '-' :: r => Option.map (fun ts => Tok.POSTDEC :: ts) (lexRun r)
      | '+', '+' :: r => Option.map (fun ts => Tok.POSTINC :: ts) (lexRun r)
      | '=', '=' :: r => Option.map (fun ts => Tok.EQUALS :: ts) (lexRun r)
      | '!', '=' :: r => Option.map (fun ts => Tok.NOTEQUALS :: ts) (lexRun r)
      | '<', '=' :: r => Option.map (fun ts => Tok.LESSEQ :: ts) (lexRun r)
      | '>', '=' :: r => Option.map (fun ts => Tok.GREATEREQ :: ts) (lexRun r)
      | '-', r => Option.map (fun ts => Tok.DASH :: ts) (lexRun r)
      | '+', r => Option.map (fun ts => Tok.CROSS :: ts) (lexRun r)
      | '*', r => Option.map (fun ts => Tok.STAR :: ts) (lexRun r)
      | '/', r => Option.map (fun ts => Tok.SLASH :: ts) (lexRun r)
      | '<', r => Option.map (fun ts => Tok.LESS :: ts) (lexRun r)
      | '>', r => Option.map (fun ts => Tok.GREATER :: ts) (lexRun r)
      | '=', r => Option.map (fun ts => Tok.ASSIGN :: ts) (lexRun r)
      | '!', r => Option.map (fun ts => Tok.NOT :: ts) (lexRun r)
      | '&', r => Option.map (fun ts => Tok.REF :: ts) (lexRun r)
      | ':', r => Option.map (fun ts => Tok.COLON :: ts) (lexRun r)
      | ',', r => Option.map (fun ts => Tok.COMMA :: ts) (lexRun r)
      | ';', r => Option.map (fun ts => Tok.SEMICOL :: ts) (lexRun r)
      | '(', r => Option.map (fun ts => Tok.LPAREN :: ts) (lexRun r)
      | ')', r => Option.map (fun ts => Tok.RPAREN :: ts) (lexRun r)
      | '{', r => Option.map (fun ts => Tok.LCURLY :: ts) (lexRun r)
      | '}', r => Option.map (fun ts => Tok.RCURLY :: ts) (lexRun r)
      | _, _ => none
termination_by cs.length
decreasing_by
  all_goals simp only [List.length_cons]
  all_goals try omega
  all_goals
    first
    | (have h := (List.dropWhile_suffix (l := cs) isDigitC).length_le
       omega)
    | (have h := (List.dropWhile_suffix (l := cs) isIdentChar).length_le
       have h2 := List.length_tail (List.dropWhile isIdentChar cs)
       omega)
    | (have h := (List.dropWhile_suffix (l := cs) isStrChar).length_le
       have h2 := List.length_tail (List.dropWhile isStrChar cs)
       omega)

/-- The external scanner run over a whole source text. -/
def lex (s : String) : Option (List Tok) :=
  lexRun s.data

/-! ## The parser

The recursive-descent equivalent of the `a.yy` grammar.  Errors model the
single fatal syntax error of the Bison parser (`parse.error verbose`,
`Parser::error`): the first unresolvable token aborts the parse. -/

/-- A syntax error: the offending lookahead (none at end of input) and the
context being parsed, or a malformed token surfaced by the scanner. -/
inductive ParseErr where
  | unexpected (t : Option Tok) (ctx : String)
  | lexical
deriving Repr, DecidableEq

/-- The human-readable message emitted through `Parser::error`; the Bison
skeleton's verbose form always begins with "syntax error". -/
def errMsg (e : ParseErr) : String :=
  match e with
  | .unexpected _ ctx => "syntax error, unexpected token in " ++ ctx
  | .lexical => "syntax error, malformed token"

/-- Does the token start a relational/equality rule (the `%nonassoc`
level)? -/
def relTok (t : Tok) : Bool :=
  match t with
  | .LESS | .LESSEQ | .GREATER | .GREATEREQ | .EQUALS | .NOTEQUALS => true
  | _ => false

/-- The node variant for a relational operator token (spec §4.3: each
production maps to the correspondingly named node). -/
def mkRel (t : Tok) (e1 e2 : Exp) : Exp :=
  match t with
  | .LESS => .Less e1 e2
  | .LESSEQ => .LessEq e1 e2
  | .GREATER => .Greater e1 e2
  | .GREATEREQ => .GreaterEq e1 e2
  | .NOTEQUALS => .NotEquals e1 e2
  | _ => .Equals e1 e2

/-- `loc : loc ARROW name` — left-recursive member-access chaining. -/
def parseLocTail (base : Loc) (ts : List Tok) : Loc × List Tok :=
  match ts with
  | .ARROW :: .ID n :: r => parseLocTail (.Member base n) r
  | r => (base, r)

/-- `primType : INT | BOOL | VOID` together with the `name` alternative of
`datatype` (a class type). -/
def parsePrimOrName (ts : List Tok) : Except ParseErr (Ty × List Tok) :=
  match ts with
  | .INT :: r => .ok (.IntType, r)
  | .BOOL :: r => .ok (.BoolType, r)
  | .VOID :: r => .ok (.VoidType, r)
  | .ID n :: r => .ok (.ClassType n, r)
  | r => .error (.unexpected r.head? "type")

/-- `datatype : REF primType | primType | REF name | name`. -/
def parseData (ts : List Tok) : Except ParseErr (Ty × List Tok) :=
  match ts with
  | .REF :: r =>
    match parsePrimOrName r with
    | .error e => .error e
    | .ok (t, r2) => .ok (.RefType t, r2)
  | r => parsePrimOrName r

/-- `type : IMMUTABLE datatype | datatype`. -/
def parseType (ts : List Tok) : Except ParseErr (Ty × List Tok) :=
  match ts with
  | .IMMUTABLE :: r =>
    match parseData r with
    | .error e => .error e
    | .ok (t, r2) => .ok (.ImmutableType t, r2)
  | r => parseData r

/-- The error produced when the structural recursion budget of the
embedding runs out.  The budget passed by `parseProgram` is large enough
for every parse the grammar admits, so this error is never reached from
the top-level entry point; it exists only to make the recursion
structural. -/
def budgetErr : ParseErr := .unexpected none "recursion budget"

mutual

/-- `term`: literals, `LPAREN exp RPAREN`, a location, or a call
(`callExp : loc LPAREN RPAREN | loc LPAREN actualList RPAREN`). -/
def parseTerm (fuel : Nat) (ts : List Tok) :
    Except ParseErr (Exp × List Tok) :=
  match fuel with
  | 0 => .error budgetErr
  | fuel + 1 =>
    match ts with
    | .INTLITERAL n :: r => .ok (.IntLit n, r)
    | .STRINGLITERAL s :: r => .ok (.StrLit s, r)
    | .TRUE :: r => .ok (.TrueLit, r)
    | .FALSE :: r => .ok (.FalseLit, r)
    | .EH :: r => .ok (.EhLit, r)
    | .LPAREN :: r =>
      match parseOr fuel r with
      | .error e => .error e
      | .ok (e, .RPAREN :: r2) => .ok (e, r2)
      | .ok (_, r1) => .error (.unexpected r1.head? "parenthesized expression")
    | .ID n :: r =>
      match parseLocTail (.IDNode n) r with
      | (l, .LPAREN :: .RPAREN :: r2) => .ok (.CallExp l [], r2)
      | (l, .LPAREN :: r2) =>
        match parseArgs fuel r2 with
        | .error e => .error e
        | .ok (args, .RPAREN :: r3) => .ok (.CallExp l args, r3)
        | .ok (_, r3) => .error (.unexpected r3.head? "call arguments")
      | (l, r1) => .ok (.LocE l, r1)
    | r => .error (.unexpected r.head? "expression")

/-- The unary level: `exp : NOT exp | DASH term` (NOT has the highest
declared precedence; the operand of unary minus is syntactically a
`term`). -/
def parseUnary (fuel : Nat) (ts : List Tok) :
    Except ParseErr (Exp × List Tok) :=
  match fuel with
  | 0 => .error budgetErr
  | fuel + 1 =>
    match ts with
    | .NOT :: r =>
      match parseUnary fuel r with
      | .error e => .error e
      | .ok (e, r1) => .ok (.Not e, r1)
    | .DASH :: r =>
      match parseTerm fuel r with
      | .error e => .error e
      | .ok (e, r1) => .ok (.Neg e, r1)
    | r => parseTerm fuel r

/-- The `%left STAR SLASH` level: left-associative accumulation. -/
def parseMulRest (fuel : Nat) (lhs : Exp) (ts : List Tok) :
    Except ParseErr (Exp × List Tok) :=
  match fuel with
  | 0 => .error budgetErr
  | fuel + 1 =>
    match ts with
    | .STAR :: r =>
      match parseUnary fuel r with
      | .error e => .error e
      | .ok (rhs, r1) => parseMulRest fuel (.Times lhs rhs) r1
    | .SLASH :: r =>
      match parseUnary fuel r with
      | .error e => .error e
      | .ok (rhs, r1) => parseMulRest fuel (.Divide lhs rhs) r1
    | r => .ok (lhs, r)

def parseMul (fuel : Nat) (ts : List Tok) :
    Except ParseErr (Exp × List Tok) :=
  match fuel with
  | 0 => .error budgetErr
  | fuel + 1 =>
    match parseUnary fuel ts with
    | .error e => .error e
    | .ok (lhs, r) => parseMulRest fuel lhs r

/-- The `%left DASH CROSS` level. -/
def parseAddRest (fuel : Nat) (lhs : Exp) (ts : List Tok) :
    Except ParseErr (Exp × List Tok) :=
  match fuel with
  | 0 => .error budgetErr
  | fuel + 1 =>
    match ts with
    | .CROSS :: r =>
      match parseMul fuel r with
      | .error e => .error e
      | .ok (rhs, r1) => parseAddRest fuel (.Plus lhs rhs) r1
    | .DASH :: r =>
      match parseMul fuel r with
      | .error e => .error e
      | .ok (rhs, r1) => parseAddRest fuel (.Minus lhs rhs) r1
    | r => .ok (lhs, r)

def parseAdd (fuel : Nat) (ts : List Tok) :
    Except ParseErr (Exp × List Tok) :=
  match fuel with
  | 0 => .error budgetErr
  | fuel + 1 =>
    match parseMul fuel ts with
    | .error e => .error e
    | .ok (lhs, r) => parseAddRest fuel lhs r

/-- The `%nonassoc` relational/equality level: at most one relational
operator; a second one in sequence is the Bison error action for a
nonassociative conflict. -/
def parseRel (fuel : Nat) (ts : List Tok) :
    Except ParseErr (Exp × List Tok) :=
  match fuel with
  | 0 => .error budgetErr
  | fuel + 1 =>
    match parseAdd fuel ts with
    | .error e => .error e
    | .ok (lhs, r) =>
      match r with
      | t :: r1 =>
        if relTok t then
          match parseAdd fuel r1 with
          | .error e => .error e
          | .ok (rhs, r2) =>
            match r2 with
            | t2 :: _ =>
              if relTok t2 then
                .error (.unexpected (some t2) "nonassociative operator chain")
              else .ok (mkRel t lhs rhs, r2)
            | [] => .ok (mkRel t lhs rhs, [])
        else .ok (lhs, t :: r1)
      | [] => .ok (lhs, [])

/-- The `%left AND` level. -/
def parseAndRest (fuel : Nat) (lhs : Exp) (ts : List Tok) :
    Except ParseErr (Exp × List Tok) :=
  match fuel with
  | 0 => .error budgetErr
  | fuel + 1 =>
    match ts with
    | .AND :: r =>
      match parseRel fuel r with
      | .error e => .error e
      | .ok (rhs, r1) => parseAndRest fuel (.And lhs rhs) r1
    | r => .ok (lhs, r)

def parseAnd (fuel : Nat) (ts : List Tok) :
    Except ParseErr (Exp × List Tok) :=
  match fuel with
  | 0 => .error budgetErr
  | fuel + 1 =>
    match parseRel fuel ts with
    | .error e => .error e
    | .ok (lhs, r) => parseAndRest fuel lhs r

/-- The `%left OR` level. -/
def parseOrRest (fuel : Nat) (lhs : Exp) (ts : List Tok) :
    Except ParseErr (Exp × List Tok) :=
  match fuel with
  | 0 => .error budgetErr
  | fuel + 1 =>
    match ts with
    | .OR :: r =>
      match parseAnd fuel r with
      | .error e => .error e
      | .ok (rhs, r1) => parseOrRest fuel (.Or lhs rhs) r1
    | r => .ok (lhs, r)

/-- The `exp` entry point: the lowest-precedence (OR) level. -/
def parseOr (fuel : Nat) (ts : List Tok) :
    Except ParseErr (Exp × List Tok) :=
  match fuel with
  | 0 => .error budgetErr
  | fuel + 1 =>
    match parseAnd fuel ts with
    | .error e => .error e
    | .ok (lhs, r) => parseOrRest fuel lhs r

/-- `actualList : exp | actualList COMMA exp` — left-to-right argument
accumulation. -/
def parseArgs (fuel : Nat) (ts : List Tok) :
    Except ParseErr (List Exp × List Tok) :=
  match fuel with
  | 0 => .error budgetErr
  | fuel + 1 =>
    match parseOr fuel ts with
    | .error e => .error e
    | .ok (e, .COMMA :: r1) =>
      match parseArgs fuel r1 with
      | .error e => .error e
      | .ok (args, r2) => .ok (e :: args, r2)
    | .ok (e, r) => .ok ([e], r)

end

/-- The statement alternatives of `stmt` (every alternative consumes at
least its first token).  The `MAYBE exp MEANS exp OTHERWISE exp` action is
modelled from the spec (§3: `Maybe{targetLoc, condExp, elseExp}` — the
target must be a location).  The `varDecl` initializer action
(`name COLON type ASSIGN exp`, an empty stub in `a.yy`) is modelled from the
spec (§4.3: the optional initializer field holds the parsed expression). -/
def parseStmt (fuel : Nat) (ts : List Tok) :
    Except ParseErr (Stmt × List Tok) :=
  match ts with
  | .ID n :: r =>
    match parseLocTail (.IDNode n) r with
    | (l, .COLON :: r2) =>
      match l with
      | .IDNode nm =>
        match parseType r2 with
        | .error e => .error e
        | .ok (ty, .ASSIGN :: r4) =>
          match parseOr fuel r4 with
          | .error e => .error e
          | .ok (ex, r5) => .ok (.VarDecl nm ty (some ex), r5)
        | .ok (ty, r3) => .ok (.VarDecl nm ty none, r3)
      | _ => .error (.unexpected (some .COLON) "declared name")
    | (l, .ASSIGN :: r2) =>
      match parseOr fuel r2 with
      | .error e => .error e
      | .ok (ex, r3) => .ok (.Assign l ex, r3)
    | (l, .POSTDEC :: r2) => .ok (.PostDec l, r2)
    | (l, .POSTINC :: r2) => .ok (.PostInc l, r2)
    | (l, .LPAREN :: .RPAREN :: r2) => .ok (.CallStmt l [], r2)
    | (l, .LPAREN :: r2) =>
      match parseArgs fuel r2 with
      | .error e => .error e
      | .ok (args, .RPAREN :: r3) => .ok (.CallStmt l args, r3)
      | .ok (_, r3) => .error (.unexpected r3.head? "call arguments")
    | (_, r1) => .error (.unexpected r1.head? "statement")
  | .TOCONSOLE :: r =>
    match parseOr fuel r with
    | .error e => .error e
    | .ok (ex, r1) => .ok (.ToConsole ex, r1)
  | .FROMCONSOLE :: r =>
    match r with
    | .ID n :: r1 =>
      match parseLocTail (.IDNode n) r1 with
      | (l, r2) => .ok (.FromConsole l, r2)
    | r1 => .error (.unexpected r1.head? "fromconsole target")
  | .MAYBE :: r =>
    match parseOr fuel r with
    | .error e => .error e
    | .ok (e1, r1) =>
      match e1 with
      | .LocE l =>
        match r1 with
        | .MEANS :: r2 =>
          match parseOr fuel r2 with
          | .error e => .error e
          | .ok (e2, .OTHERWISE :: r4) =>
            match parseOr fuel r4 with
            | .error e => .error e
            | .ok (e3, r5) => .ok (.Maybe l e2 e3, r5)
          | .ok (_, r3) => .error (.unexpected r3.head? "maybe statement")
        | r1 => .error (.unexpected r1.head? "maybe statement")
      | _ => .error (.unexpected (some .MAYBE) "maybe target")
  | .RETURN :: r =>
    match r with
    | .SEMICOL :: r1 => .ok (.Return none, .SEMICOL :: r1)
    | r =>
      match parseOr fuel r with
      | .error e => .error e
      | .ok (ex, r1) => .ok (.Return (some ex), r1)
  | r => .error (.unexpected r.head? "statement")

mutual

/-- `blockStmt : WHILE … | IF … | IF … ELSE …`. -/
def parseBlockStmt (fuel : Nat) (ts : List Tok) :
    Except ParseErr (Stmt × List Tok) :=
  match fuel with
  | 0 => .error budgetErr
  | fuel + 1 =>
    match ts with
    | .WHILE :: .LPAREN :: r1 =>
      match parseOr fuel r1 with
      | .error e => .error e
      | .ok (cond, .RPAREN :: .LCURLY :: r4) =>
        match parseStmtList fuel r4 with
        | .error e => .error e
        | .ok (body, .RCURLY :: r6) => .ok (.While cond body, r6)
        | .ok (_, r5) => .error (.unexpected r5.head? "while body")
      | .ok (_, r2) => .error (.unexpected r2.head? "while condition")
    | .IF :: .LPAREN :: r1 =>
      match parseOr fuel r1 with
      | .error e => .error e
      | .ok (cond, .RPAREN :: .LCURLY :: r4) =>
        match parseStmtList fuel r4 with
        | .error e => .error e
        | .ok (bodyT, .RCURLY :: .ELSE :: .LCURLY :: r8) =>
          match parseStmtList fuel r8 with
          | .error e => .error e
          | .ok (bodyF, .RCURLY :: r10) =>
            .ok (.IfElse cond bodyT bodyF, r10)
          | .ok (_, r9) => .error (.unexpected r9.head? "else body")
        | .ok (bodyT, .RCURLY :: .ELSE :: r7) =>
          .error (.unexpected r7.head? "else body")
        | .ok (bodyT, .RCURLY :: r6) => .ok (.If cond bodyT, r6)
        | .ok (_, r5) => .error (.unexpected r5.head? "if body")
      | .ok (_, r2) => .error (.unexpected r2.head? "if condition")
    | r => .error (.unexpected r.head? "block statement")

/-- `stmtList : ε | stmtList stmt SEMICOL | stmtList blockStmt` — the
left-to-right statement accumulator. -/
def parseStmtList (fuel : Nat) (ts : List Tok) :
    Except ParseErr (List Stmt × List Tok) :=
  match fuel with
  | 0 => .error budgetErr
  | fuel + 1 =>
    match ts with
    | [] => .ok ([], [])
    | .RCURLY :: r => .ok ([], .RCURLY :: r)
    | .WHILE :: r =>
      match parseBlockStmt fuel (.WHILE :: r) with
      | .error e => .error e
      | .ok (s, r1) =>
        match parseStmtList fuel r1 with
        | .error e => .error e
        | .ok (ss, r2) => .ok (s :: ss, r2)
    | .IF :: r =>
      match parseBlockStmt fuel (.IF :: r) with
      | .error e => .error e
      | .ok (s, r1) =>
        match parseStmtList fuel r1 with
        | .error e => .error e
        | .ok (ss, r2) => .ok (s :: ss, r2)
    | t :: r =>
      match parseStmt fuel (t :: r) with
      | .error e => .error e
      | .ok (s, .SEMICOL :: r2) =>
        match parseStmtList fuel r2 with
        | .error e => .error e
        | .ok (ss, r3) => .ok (s :: ss, r3)
      | .ok (_, r1) => .error (.unexpected r1.head? "statement terminator")

end

/-- `formalDecl : name COLON type` and
`formalList : formalDecl | formalList COMMA formalDecl`. -/
def parseFormals (fuel : Nat) (ts : List Tok) :
    Except ParseErr (List Formal × List Tok) :=
  match fuel with
  | 0 => .error budgetErr
  | fuel + 1 =>
    match ts with
    | .ID n :: .COLON :: r =>
      match parseType r with
      | .error e => .error e
      | .ok (ty, .COMMA :: r2) =>
        match parseFormals fuel r2 with
        | .error e => .error e
        | .ok (fs, r3) => .ok (⟨n, ty⟩ :: fs, r3)
      | .ok (ty, r1) => .ok ([⟨n, ty⟩], r1)
    | r => .error (.unexpected r.head? "formal declaration")

/-- `maybeFormals : ε | formalList`, terminated by the RPAREN (which is
consumed here). -/
def parseMaybeFormals (fuel : Nat) (ts : List Tok) :
    Except ParseErr (List Formal × List Tok) :=
  match ts with
  | .RPAREN :: r => .ok ([], r)
  | r =>
    match parseFormals fuel r with
    | .error e => .error e
    | .ok (fs, .RPAREN :: r2) => .ok (fs, r2)
    | .ok (_, r1) => .error (.unexpected r1.head? "formals")

/-- The tail of
`fnDecl : name COLON LPAREN maybeFormals RPAREN ARROW type LCURLY stmtList
RCURLY`, entered at the LPAREN. -/
def parseFnTail (fuel : Nat) (n : String) (ts : List Tok) :
    Except ParseErr (Decl × List Tok) :=
  match ts with
  | .LPAREN :: r =>
    match parseMaybeFormals fuel r with
    | .error e => .error e
    | .ok (fs, .ARROW :: r2) =>
      match parseType r2 with
      | .error e => .error e
      | .ok (retTy, .LCURLY :: r4) =>
        match parseStmtList fuel r4 with
        | .error e => .error e
        | .ok (body, .RCURLY :: r6) => .ok (.FnDecl n fs retTy body, r6)
        | .ok (_, r5) => .error (.unexpected r5.head? "function body")
      | .ok (_, r3) => .error (.unexpected r3.head? "function body")
    | .ok (_, r1) => .error (.unexpected r1.head? "return type arrow")
  | r => .error (.unexpected r.head? "function declaration")

/-- A class member: one `varDecl SEMICOL` or one `fnDecl` of `classBody`.
The member actions are stubs in `a.yy`; the node construction is modelled
from the spec (§4.3/§3: members accumulate in declaration order). -/
def parseMember (fuel : Nat) (ts : List Tok) :
    Except ParseErr (Decl × List Tok) :=
  match ts with
  | .ID n :: .COLON :: r =>
    match r with
    | .LPAREN :: r1 => parseFnTail fuel n (.LPAREN :: r1)
    | r =>
      match parseType r with
      | .error e => .error e
      | .ok (ty, .ASSIGN :: r2) =>
        match parseOr fuel r2 with
        | .error e => .error e
        | .ok (ex, .SEMICOL :: r4) => .ok (.VarDecl n ty (some ex), r4)
        | .ok (_, r3) => .error (.unexpected r3.head? "member terminator")
      | .ok (ty, .SEMICOL :: r2) => .ok (.VarDecl n ty none, r2)
      | .ok (_, r1) => .error (.unexpected r1.head? "member terminator")
  | r => .error (.unexpected r.head? "class member")

/-- `classBody : classBody varDecl SEMICOL | classBody fnDecl | ε`. -/
def parseClassBody (fuel : Nat) (ts : List Tok) :
    Except ParseErr (List Decl × List Tok) :=
  match fuel with
  | 0 => .error budgetErr
  | fuel + 1 =>
    match ts with
    | [] => .ok ([], [])
    | .RCURLY :: r => .ok ([], .RCURLY :: r)
    | t :: r =>
      match parseMember fuel (t :: r) with
      | .error e => .error e
      | .ok (d, r1) =>
        match parseClassBody fuel r1 with
        | .error e => .error e
        | .ok (ds, r2) => .ok (d :: ds, r2)

/-- `decl : varDecl SEMICOL | classTypeDecl | fnDecl`, together with
`classTypeDecl : name COLON CUSTOM LCURLY classBody RCURLY SEMICOL` and
`varDecl : name COLON type | name COLON type ASSIGN exp`. -/
def parseDecl (fuel : Nat) (ts : List Tok) :
    Except ParseErr (Decl × List Tok) :=
  match ts with
  | .ID n :: .COLON :: r =>
    match r with
    | .CUSTOM :: .LCURLY :: r1 =>
      match parseClassBody fuel r1 with
      | .error e => .error e
      | .ok (members, .RCURLY :: .SEMICOL :: r3) =>
        .ok (.ClassDefn n members, r3)
      | .ok (_, r2) => .error (.unexpected r2.head? "class terminator")
    | .LPAREN :: r1 => parseFnTail fuel n (.LPAREN :: r1)
    | r =>
      match parseType r with
      | .error e => .error e
      | .ok (ty, .ASSIGN :: r2) =>
        match parseOr fuel r2 with
        | .error e => .error e
        | .ok (ex, .SEMICOL :: r4) => .ok (.VarDecl n ty (some ex), r4)
        | .ok (_, r3) => .error (.unexpected r3.head? "declaration terminator")
      | .ok (ty, .SEMICOL :: r2) => .ok (.VarDecl n ty none, r2)
      | .ok (_, r1) => .error (.unexpected r1.head? "declaration terminator")
  | r => .error (.unexpected r.head? "global declaration")

/-- `globals : globals decl | ε` — the left-to-right global accumulator
(`program : globals`; the parse succeeds exactly when the whole token
stream is consumed by global declarations). -/
def parseGlobals (fuel : Nat) (ts : List Tok) : Except ParseErr (List Decl) :=
  match fuel with
  | 0 => .error budgetErr
  | fuel + 1 =>
    match ts with
    | [] => .ok []
    | t :: r =>
      match parseDecl fuel (t :: r) with
      | .error e => .error e
      | .ok (d, r1) =>
        match parseGlobals fuel r1 with
        | .error e => .error e
        | .ok ds => .ok (d :: ds)

/-- The recursion budget granted for a token stream: amply more than any
parse of the stream can nest (the budget shrinks by at most eight levels
per consumed token). -/
def fuelFor (ts : List Tok) : Nat := 16 * ts.length + 16

/-- The whole front end on a source text: the external scanner, then the
parser (`Parser::parse` plus the `program` reduction that assigns `*root`).
`.ok` is the success signal with the completed root; `.error` is the
failure signal — the root output stays unset and `errMsg` is the diagnostic
printed through `Parser::error`. -/
def parseProgram (s : String) : Except ParseErr Program :=
  match lex s with
  | none => .error .lexical
  | some ts => parseGlobals (fuelFor ts) ts

/-- The `exp` entry point on a token stream, with the canonical budget
(used to state expression-level properties). -/
def parseExpToks (ts : List Tok) : Except ParseErr (Exp × List Tok) :=
  parseOr (fuelFor ts) ts

/-! ## Node-count measures

Used only to discharge the recursion-budget hypotheses of the round-trip
lemmas: every node of a tree accounts for at least one of its rendered
tokens. -/

def sizeTy : Ty → Nat
  | .IntType | .BoolType | .VoidType | .ClassType _ => 1
  | .ImmutableType s => 1 + sizeTy s
  | .RefType s => 1 + sizeTy s

def sizeLoc : Loc → Nat
  | .IDNode _ => 1
  | .Member b _ => sizeLoc b + 1

mutual

def sizeExp : Exp → Nat
  | .LocE l => sizeLoc l
  | .IntLit _ | .StrLit _ | .TrueLit | .FalseLit | .EhLit => 1
  | .CallExp l args => sizeLoc l + sizeArgs args + 1
  | .Plus e1 e2 | .Minus e1 e2 | .Times e1 e2 | .Divide e1 e2
  | .And e1 e2 | .Or e1 e2 | .Equals e1 e2 | .NotEquals e1 e2
  | .Less e1 e2 | .LessEq e1 e2 | .Greater e1 e2 | .GreaterEq e1 e2 =>
      sizeExp e1 + sizeExp e2 + 1
  | .Neg e | .Not e => sizeExp e + 1

def sizeArgs : List Exp → Nat
  | [] => 1
  | e :: es => sizeExp e + sizeArgs es + 1

end

mutual

def sizeStmt : Stmt → Nat
  | .VarDecl _ t i =>
      sizeTy t + (match i with | some e => sizeExp e + 1 | none => 0) + 1
  | .Assign l e => sizeLoc l + sizeExp e + 1
  | .CallStmt l args => sizeLoc l + sizeArgs args + 1
  | .Return (some e) => sizeExp e + 1
  | .Return none => 1
  | .Maybe l e1 e2 => sizeLoc l + sizeExp e1 + sizeExp e2 + 1
  | .FromConsole l => sizeLoc l + 1
  | .ToConsole e => sizeExp e + 1
  | .PostDec l | .PostInc l => sizeLoc l + 1
  | .If c b => sizeExp c + sizeStmts b + 1
  | .IfElse c bt bf => sizeExp c + sizeStmts bt + sizeStmts bf + 1
  | .While c b => sizeExp c + sizeStmts b + 1

def sizeStmts : List Stmt → Nat
  | [] => 1
  | s :: ss => sizeStmt s + sizeStmts ss + 1

end

def sizeFormals : List Formal → Nat
  | [] => 1
  | f :: fs => sizeTy f.ty + sizeFormals fs + 1

mutual

def sizeDecl : Decl → Nat
  | .VarDecl _ t i =>
      sizeTy t + (match i with | some e => sizeExp e + 1 | none => 0) + 1
  | .ClassDefn _ ms => sizeDecls ms + 1
  | .FnDecl _ fs rt b => sizeFormals fs + sizeTy rt + sizeStmts b + 1

def sizeDecls : List Decl → Nat
  | [] => 1
  | d :: ds => sizeDecl d + sizeDecls ds + 1

end

/-! ## Wellformedness

A tree is wellformed when every identifier it stores is a lexable
non-keyword identifier, every string literal stores its quoted spelling
(as the scanner produces it), and every type has one of the shapes the
`type`/`datatype`/`primType` productions can derive.  Every tree produced
by a successful parse is wellformed (proved below). -/

/-- The keyword spellings of spec §6 (plus the word operators). -/
def keywords : List String :=
  ["int", "bool", "void", "immutable", "custom", "if", "else", "while",
   "maybe", "means", "otherwise", "fromconsole", "toconsole", "return",
   "true", "false", "ref", "and", "or", "not"]

/-- A lexable identifier that the scanner does not turn into a keyword. -/
def wfIdent (s : String) : Bool :=
  match s.data with
  | [] => false
  | c :: cs => isIdentStart c && cs.all isIdentChar && !(keywords.contains s)

/-- A string-literal payload as the scanner stores it: the quoted
spelling. -/
def wfStr (s : String) : Bool :=
  match s.data with
  | [] => false
  | c :: cs =>
      c = '"' && cs.getLast? = some '"' && cs.dropLast.all isStrChar

/-- A shape derivable by `primType` or the `name` alternative. -/
def wfPrimOrName : Ty → Bool
  | .IntType | .BoolType | .VoidType => true
  | .ClassType n => wfIdent n
  | _ => false

/-- A shape derivable by `datatype`. -/
def wfData : Ty → Bool
  | .RefType s => wfPrimOrName s
  | t => wfPrimOrName t

/-- A shape derivable by `type`. -/
def wfTy : Ty → Bool
  | .ImmutableType s => wfData s
  | t => wfData t

def wfLoc : Loc → Bool
  | .IDNode n => wfIdent n
  | .Member b f => wfLoc b && wfIdent f

mutual

def wfExp : Exp → Bool
  | .LocE l => wfLoc l
  | .IntLit _ => true
  | .StrLit s => wfStr s
  | .TrueLit | .FalseLit | .EhLit => true
  | .CallExp l args => wfLoc l && wfArgs args
  | .Plus e1 e2 | .Minus e1 e2 | .Times e1 e2 | .Divide e1 e2
  | .And e1 e2 | .Or e1 e2 | .Equals e1 e2 | .NotEquals e1 e2
  | .Less e1 e2 | .LessEq e1 e2 | .Greater e1 e2 | .GreaterEq e1 e2 =>
      wfExp e1 && wfExp e2
  | .Neg e | .Not e => wfExp e

def wfArgs : List Exp → Bool
  | [] => true
  | e :: es => wfExp e && wfArgs es

end

def wfOptInit : Option Exp → Bool
  | none => true
  | some e => wfExp e

mutual

def wfStmt : Stmt → Bool
  | .VarDecl n t i => wfIdent n && wfTy t && wfOptInit i
  | .Assign l e => wfLoc l && wfExp e
  | .CallStmt l args => wfLoc l && wfArgs args
  | .Return (some e) => wfExp e
  | .Return none => true
  | .Maybe l e1 e2 => wfLoc l && wfExp e1 && wfExp e2
  | .FromConsole l => wfLoc l
  | .ToConsole e => wfExp e
  | .PostDec l | .PostInc l => wfLoc l
  | .If c b => wfExp c && wfStmts b
  | .IfElse c bt bf => wfExp c && wfStmts bt && wfStmts bf
  | .While c b => wfExp c && wfStmts b

def wfStmts : List Stmt → Bool
  | [] => true
  | s :: ss => wfStmt s && wfStmts ss

end

def wfFormals : List Formal → Bool
  | [] => true
  | f :: fs => wfIdent f.name && wfTy f.ty && wfFormals fs

mutual

def wfDecl : Decl → Bool
  | .VarDecl n t i => wfIdent n && wfTy t && wfOptInit i
  | .ClassDefn n ms => wfIdent n && wfDecls ms
  | .FnDecl n fs rt b => wfIdent n && wfFormals fs && wfTy rt && wfStmts b

def wfDecls : List Decl → Bool
  | [] => true
  | d :: ds => wfDecl d && wfDecls ds

end

/-! ## Initializer-free trees

The renderer never emits a variable declaration's initializer
(`VarDeclNode::unparse`), so the structural round trip is restricted to
trees in which every initializer field is absent. -/

mutual

def noInitStmt : Stmt → Bool
  | .VarDecl _ _ i => i.isNone
  | .If _ b => noInitStmts b
  | .IfElse _ bt bf => noInitStmts bt && noInitStmts bf
  | .While _ b => noInitStmts b
  | _ => true

def noInitStmts : List Stmt → Bool
  | [] => true
  | s :: ss => noInitStmt s && noInitStmts ss

end

mutual

def noInitDecl : Decl → Bool
  | .VarDecl _ _ i => i.isNone
  | .ClassDefn _ ms => noInitDecls ms
  | .FnDecl _ _ _ b => noInitStmts b

def noInitDecls : List Decl → Bool
  | [] => true
  | d :: ds => noInitDecl d && noInitDecls ds

end

/-! ## Token images of the renderer

`tok…` lists the token stream the scanner produces from the corresponding
`unparse…` output; the lemmas below prove this correspondence and that the
parser maps these streams back to the original trees. -/

def tokTy : Ty → List Tok
  | .IntType => [.INT]
  | .BoolType => [.BOOL]
  | .VoidType => [.VOID]
  | .ClassType n => [.ID n]
  | .ImmutableType s => .IMMUTABLE :: tokTy s
  | .RefType s => .REF :: tokTy s

def tokLoc : Loc → List Tok
  | .IDNode n => [.ID n]
  | .Member b f => tokLoc b ++ [.ARROW, .ID f]

mutual

/-- Tokens of `unparseExp e 0`. -/
def tokExp : Exp → List Tok
  | .LocE l => tokLoc l
  | .IntLit n => [.INTLITERAL n]
  | .StrLit s => [.STRINGLITERAL s]
  | .TrueLit => [.TRUE]
  | .FalseLit => [.FALSE]
  | .EhLit => [.EH]
  | .CallExp l args => tokLoc l ++ .LPAREN :: (tokArgs args ++ [.RPAREN])
  | .Plus e1 e2 => tokNested e1 ++ .CROSS :: tokNested e2
  | .Minus e1 e2 => tokNested e1 ++ .DASH :: tokNested e2
  | .Times e1 e2 => tokNested e1 ++ .STAR :: tokNested e2
  | .Divide e1 e2 => tokNested e1 ++ .SLASH :: tokNested e2
  | .And e1 e2 => tokNested e1 ++ .AND :: tokNested e2
  | .Or e1 e2 => tokNested e1 ++ .OR :: tokNested e2
  | .Equals e1 e2 => tokNested e1 ++ .EQUALS :: tokNested e2
  | .NotEquals e1 e2 => tokNested e1 ++ .NOTEQUALS :: tokNested e2
  | .Less e1 e2 => tokNested e1 ++ .LESS :: tokNested e2
  | .LessEq e1 e2 => tokNested e1 ++ .LESSEQ :: tokNested e2
  | .Greater e1 e2 => tokNested e1 ++ .GREATER :: tokNested e2
  | .GreaterEq e1 e2 => tokNested e1 ++ .GREATEREQ :: tokNested e2
  | .Neg e => .DASH :: tokNested e
  | .Not e => .NOT :: tokNested e

/-- Tokens of `unparseNested e`. -/
def tokNested (e : Exp) : List Tok :=
  match e with
  | .IntLit n => [.INTLITERAL n]
  | .StrLit s => [.STRINGLITERAL s]
  | .TrueLit => [.TRUE]
  | .FalseLit => [.FALSE]
  | .EhLit => [.EH]
  | e => .LPAREN :: (tokExp e ++ [.RPAREN])

/-- Tokens of `unparseArgs args`. -/
def tokArgs : List Exp → List Tok
  | [] => []
  | [e] => tokExp e
  | e :: es => tokExp e ++ .COMMA :: tokArgs es

end

/-- Is the statement one of the `blockStmt` kinds (rendered without a
terminating semicolon)? -/
def isBlock : Stmt → Bool
  | .If _ _ | .IfElse _ _ _ | .While _ _ => true
  | _ => false

mutual

/-- Tokens of `unparseStmt s indent` for `indent ≥ 0`, without the
terminating SEMICOL of the `stmtList stmt SEMICOL` production (block
statements have no terminator). -/
def tokStmt : Stmt → List Tok
  | .VarDecl n t _ => .ID n :: .COLON :: tokTy t
  | .Assign l e => tokLoc l ++ .ASSIGN :: tokExp e
  | .CallStmt l args => tokLoc l ++ .LPAREN :: (tokArgs args ++ [.RPAREN])
  | .Return none => [.RETURN]
  | .Return (some e) => .RETURN :: tokExp e
  | .Maybe l e1 e2 =>
      .MAYBE :: (tokLoc l ++ .MEANS :: (tokExp e1 ++ .OTHERWISE :: tokExp e2))
  | .FromConsole l => .FROMCONSOLE :: tokLoc l
  | .ToConsole e => .TOCONSOLE :: tokExp e
  | .PostDec l => tokLoc l ++ [.POSTDEC]
  | .PostInc l => tokLoc l ++ [.POSTINC]
  | .If c b =>
      .IF :: .LPAREN :: (tokExp c ++ .RPAREN :: .LCURLY ::
        (tokStmts b ++ [.RCURLY]))
  | .IfElse c bt bf =>
      .IF :: .LPAREN :: (tokExp c ++ .RPAREN :: .LCURLY ::
        (tokStmts bt ++ .RCURLY :: .ELSE :: .LCURLY ::
          (tokStmts bf ++ [.RCURLY])))
  | .While c b =>
      .WHILE :: .LPAREN :: (tokExp c ++ .RPAREN :: .LCURLY ::
        (tokStmts b ++ [.RCURLY]))

/-- Tokens of `unparseStmtList l indent`. -/
def tokStmts : List Stmt → List Tok
  | [] => []
  | s :: ss =>
      tokStmt s ++ ((if isBlock s then [] else [.SEMICOL]) ++ tokStmts ss)

end

/-- Tokens of `unparseFormals fs`. -/
def tokFormals : List Formal → List Tok
  | [] => []
  | [f] => .ID f.name :: .COLON :: tokTy f.ty
  | f :: fs => .ID f.name :: .COLON :: (tokTy f.ty ++ .COMMA :: tokFormals fs)

mutual

/-- Tokens of `unparseDecl d indent` (global declarations and class
members render identically; a variable declaration carries its SEMICOL). -/
def tokDecl : Decl → List Tok
  | .VarDecl n t _ => .ID n :: .COLON :: (tokTy t ++ [.SEMICOL])
  | .ClassDefn n ms =>
      .ID n :: .COLON :: .CUSTOM :: .LCURLY ::
        (tokDecls ms ++ [.RCURLY, .SEMICOL])
  | .FnDecl n fs rt b =>
      .ID n :: .COLON :: .LPAREN ::
        (tokFormals fs ++ .RPAREN :: .ARROW ::
          (tokTy rt ++ .LCURLY :: (tokStmts b ++ [.RCURLY])))

/-- Tokens of `unparseDeclList l indent` / `unparseProgram`. -/
def tokDecls : List Decl → List Tok
  | [] => []
  | d :: ds => tokDecl d ++ tokDecls ds

end

/-! ## Boundary predicates for the scanner and parser lemmas -/

/-- The next character cannot extend a just-finished identifier,
keyword, or number run (and cannot turn a preceding `eh` into `eh?`). -/
def headSafe (cs : List Char) : Bool :=
  match cs with
  | [] => true
  | c :: _ => !(isIdentChar c) && c != '?'

/-- Tokens that continue an expression when they appear right after a
complete expression (binary operators, a call's LPAREN, a member ARROW). -/
def contTok : Tok → Bool
  | .OR | .AND | .LESS | .LESSEQ | .GREATER | .GREATEREQ
  | .EQUALS | .NOTEQUALS | .CROSS | .DASH | .STAR | .SLASH
  | .LPAREN | .ARROW => true
  | _ => false

/-- The token stream after a rendered top-level expression never starts
with an expression-continuing token. -/
def expCut (ts : List Tok) : Bool :=
  match ts with
  | [] => true
  | t :: _ => !(contTok t)

/-- Is the expression one of the five literal node classes (the ones that
override `unparseNested`)? -/
def isLitExp : Exp → Bool
  | .IntLit _ | .StrLit _ | .TrueLit | .FalseLit | .EhLit => true
  | _ => false

/-- The `exp` entry point on a source text (scanner, then the expression
grammar with the canonical budget); used to state the expression-level
spec properties on concrete inputs. -/
def parseExpString (s : String) : Except ParseErr (Exp × List Tok) :=
  match lex s with
  | none => .error .lexical
  | some ts => parseOr (fuelFor ts) ts

/-- Tokens of one rendered statement line: the statement's tokens plus
its SEMICOL terminator when it is not a block statement. -/
def tokStmtLine (s : Stmt) : List Tok :=
  tokStmt s ++ (if isBlock s then [] else [.SEMICOL])

/-! ## Left-spine view of locations

`loc : name | loc ARROW name` is left-recursive; the spine view lists the
member names from the root outward, matching the accumulator of
`parseLocTail`. -/

/-- The root identifier of a location's member chain. -/
def locRoot : Loc → String
  | .IDNode n => n
  | .Member b _ => locRoot b

/-- The member names of a location, root-outward. -/
def locFields : Loc → List String
  | .IDNode _ => []
  | .Member b f => locFields b ++ [f]

/-- The token rendering of a member chain. -/
def fieldsToks : List String → List Tok
  | [] => []
  | f :: fs => .ARROW :: .ID f :: fieldsToks fs

/-- Rebuild a location by grafting a member chain onto a base, exactly as
`parseLocTail` accumulates it. -/
def graftLoc (base : Loc) : List String → Loc
  | [] => base
  | f :: fs => graftLoc (.Member base f) fs

/-! ## Initializer erasure

`VarDeclNode::unparse` drops the initializer, so re-parsing a rendered
tree yields the tree with every initializer field cleared. -/

mutual

def stripStmt : Stmt → Stmt
  | .VarDecl n t _ => .VarDecl n t none
  | .If c b => .If c (stripStmts b)
  | .IfElse c bt bf => .IfElse c (stripStmts bt) (stripStmts bf)
  | .While c b => .While c (stripStmts b)
  | s => s

def stripStmts : List Stmt → List Stmt
  | [] => []
  | s :: ss => stripStmt s :: stripStmts ss

end

mutual

def stripDecl : Decl → Decl
  | .VarDecl n t _ => .VarDecl n t none
  | .ClassDefn n ms => .ClassDefn n (stripDecls ms)
  | .FnDecl n fs rt b => .FnDecl n fs rt (stripStmts b)

def stripDecls : List Decl → List Decl
  | [] => []
  | d :: ds => stripDecl d :: stripDecls ds

end

/-! ## Wellformedness of scanner output -/

/-- Every payload-carrying token the scanner can produce stores a
wellformed payload. -/
def tokWf : Tok → Bool
  | .ID n => wfIdent n
  | .STRINGLITERAL s => wfStr s
  | _ => true

/-- All tokens of a stream are wellformed. -/
def toksWf (ts : List Tok) : Bool :=
  ts.all tokWf

/-! # Theorems -/

/-! ## List-run and character-class lemmas -/

theorem takeWhile_append_run {p : Char → Bool} {l r : List Char}
    (hl : l.all p = true) (hr : ∀ c, r.head? = some c → p c = false) :
    (l ++ r).takeWhile p = l ∧ (l ++ r).dropWhile p = r := by
  induction l with
  | nil =>
    simp only [List.nil_append]
    cases r with
    | nil => simp
    | cons c cs =>
      have := hr c rfl
      simp [List.takeWhile_cons, List.dropWhile_cons, this]
  | cons c cs ih =>
    simp only [List.all_cons, Bool.and_eq_true] at hl
    have := ih hl.2
    simp [List.takeWhile_cons, List.dropWhile_cons, hl.1, this.1, this.2]

theorem ws_cases {c : Char} (h : isWS c = true) :
    c = ' ' ∨ c = '\t' ∨ c = '\n' ∨ c = '\r' := by
  simp [isWS] at h
  tauto

theorem isWS_not_digit {c : Char} (h : isWS c = true) : isDigitC c = false := by
  rcases ws_cases h with h' | h' | h' | h' <;> subst h' <;> decide

theorem identStart_not_ws {c : Char} (h : isIdentStart c = true) :
    isWS c = false := by
  cases hw : isWS c
  · rfl
  · exfalso
    rcases ws_cases hw with h' | h' | h' | h' <;> subst h' <;>
      exact absurd h (by decide)

theorem identStart_not_digit {c : Char} (h : isIdentStart c = true) :
    isDigitC c = false := by
  cases hd : isDigitC c
  · rfl
  · exfalso
    simp [isDigitC] at hd
    simp [isIdentStart, isLetter] at h
    rcases h with (⟨h1, h2⟩ | ⟨h1, h2⟩) | h1
    · omega
    · omega
    · subst h1; revert hd; decide

theorem identStart_identChar {c : Char} (h : isIdentStart c = true) :
    isIdentChar c = true := by
  simp [isIdentStart] at h
  simp [isIdentChar]
  tauto

theorem digit_identChar {c : Char} (h : isDigitC c = true) :
    isIdentChar c = true := by
  simp [isIdentChar]
  tauto

theorem digit_not_ws {c : Char} (h : isDigitC c = true) : isWS c = false := by
  cases hw : isWS c
  · rfl
  · rw [isWS_not_digit hw] at h; cases h

theorem headSafe_not_identChar {r : Char} {rs : List Char}
    (h : headSafe (r :: rs) = true) : isIdentChar r = false := by
  simp [headSafe] at h
  exact h.1

theorem headSafe_not_q {r : Char} {rs : List Char}
    (h : headSafe (r :: rs) = true) : r ≠ '?' := by
  simp [headSafe] at h
  exact h.2

/-! ## Decimal numeral lemmas -/

theorem isDigitC_digitChar {k : Nat} (h : k < 10) :
    isDigitC (digitChar k) = true := by
  interval_cases k <;> decide

theorem toNat_digitChar {k : Nat} (h : k < 10) :
    (digitChar k).toNat = 48 + k := by
  interval_cases k <;> decide

theorem natChars_ne_nil (n : Nat) : natChars n ≠ [] := by
  rw [natChars]
  split
  · simp
  · simp

theorem natChars_digits : ∀ n, (natChars n).all isDigitC = true := by
  intro n
  induction n using Nat.strong_induction_on with
  | _ n ih =>
    rw [natChars]
    split
    · rename_i h
      simp [isDigitC_digitChar h]
    · rename_i h
      simp only [List.all_append, Bool.and_eq_true]
      refine ⟨ih (n / 10) (Nat.div_lt_self (by omega) (by omega)), ?_⟩
      simp [isDigitC_digitChar (Nat.mod_lt n (by omega))]

theorem charsToNatAux_append (acc : Nat) (l1 l2 : List Char) :
    charsToNatAux acc (l1 ++ l2) = charsToNatAux (charsToNatAux acc l1) l2 := by
  induction l1 generalizing acc with
  | nil => rfl
  | cons c cs ih => exact ih (acc * 10 + (c.toNat - 48))

theorem charsToNatAux_single (acc : Nat) (c : Char) :
    charsToNatAux acc [c] = acc * 10 + (c.toNat - 48) := rfl

theorem charsToNatAux_natChars :
    ∀ n acc, charsToNatAux acc (natChars n) =
      acc * 10 ^ (natChars n).length + n := by
  intro n
  induction n using Nat.strong_induction_on with
  | _ n ih =>
    intro acc
    rw [natChars]
    split
    · rename_i h
      rw [charsToNatAux_single, toNat_digitChar h, List.length_singleton,
        pow_one]
      omega
    · rename_i h
      have hd : n / 10 < n := Nat.div_lt_self (by omega) (by omega)
      rw [charsToNatAux_append, ih (n / 10) hd, charsToNatAux_single,
        toNat_digitChar (Nat.mod_lt n (by omega)), List.length_append,
        List.length_singleton, pow_succ, ← mul_assoc]
      generalize acc * 10 ^ (natChars (n / 10)).length = A
      omega

theorem charsToNat_natChars (n : Nat) : charsToNat (natChars n) = n := by
  rw [charsToNat, charsToNatAux_natChars]
  simp

/-! ## Scanner step lemmas

Each lemma advances the modelled scanner over one rendered token. -/

theorem lexRun_ws {c : Char} (rest : List Char) (h : isWS c = true) :
    lexRun (c :: rest) = lexRun rest := by
  rw [lexRun.eq_def]
  dsimp only
  rw [if_pos h]

theorem lexRun_tabs (n : Nat) (rest : List Char) :
    lexRun (List.replicate n '\t' ++ rest) = lexRun rest := by
  induction n with
  | zero => simp
  | succ n ih =>
    rw [List.replicate_succ, List.cons_append, lexRun_ws _ (by decide), ih]

theorem lexRun_identRun {c : Char} {cs : List Char} (rest : List Char)
    (hs : isIdentStart c = true) (hcs : cs.all isIdentChar = true)
    (hrest : headSafe rest = true) :
    lexRun ((c :: cs) ++ rest) =
      Option.map (fun ts => keywordOrId (String.mk (c :: cs)) :: ts)
        (lexRun rest) := by
  have hnotid : ∀ d, rest.head? = some d → isIdentChar d = false := by
    intro d hd
    cases rest with
    | nil => simp at hd
    | cons r rs =>
      simp at hd
      subst hd
      exact headSafe_not_identChar hrest
  have hrun := takeWhile_append_run (p := isIdentChar) hcs hnotid
  rw [List.cons_append, lexRun.eq_def]
  dsimp only
  rw [if_neg (by rw [identStart_not_ws hs]; exact Bool.false_ne_true),
    if_neg (by rw [identStart_not_digit hs]; exact Bool.false_ne_true),
    if_pos hs, hrun.1, hrun.2]
  have hq : ((String.mk (c :: cs) = "eh") &&
      (rest.head? = some '?') : Bool) = false := by
    cases rest with
    | nil => simp
    | cons r rs =>
      simp
      intro _ he
      exact absurd he (headSafe_not_q hrest)
  rw [hq]
  simp

theorem lexRun_natRun (n : Nat) (rest : List Char)
    (hrest : headSafe rest = true) :
    lexRun (natChars n ++ rest) =
      Option.map (fun ts => Tok.INTLITERAL n :: ts) (lexRun rest) := by
  obtain ⟨c, cs, hcc⟩ : ∃ c cs, natChars n = c :: cs := by
    cases h : natChars n with
    | nil => exact absurd h (natChars_ne_nil n)
    | cons c cs => exact ⟨c, cs, rfl⟩
  have hall := natChars_digits n
  rw [hcc] at hall
  simp only [List.all_cons, Bool.and_eq_true] at hall
  have hnotid : ∀ d, rest.head? = some d → isDigitC d = false := by
    intro d hd
    cases rest with
    | nil => simp at hd
    | cons r rs =>
      simp at hd
      subst hd
      cases hD : isDigitC r
      · rfl
      · exact absurd (digit_identChar hD)
          (by simp [headSafe_not_identChar hrest])
  have hrun := takeWhile_append_run (p := isDigitC) hall.2 hnotid
  have hval : charsToNat (c :: cs) = n := by
    rw [← hcc]; exact charsToNat_natChars n
  rw [hcc, List.cons_append, lexRun.eq_def]
  dsimp only
  rw [if_neg (by rw [digit_not_ws hall.1]; exact Bool.false_ne_true),
    if_pos hall.1, hrun.1, hrun.2, hval]

theorem lexRun_strLit (inner : List Char) (rest : List Char)
    (hin : inner.all isStrChar = true) :
    lexRun (('"' :: (inner ++ ['"'])) ++ rest) =
      Option.map
        (fun ts =>
          Tok.STRINGLITERAL (String.mk ('"' :: (inner ++ ['"']))) :: ts)
        (lexRun rest) := by
  have hrun := takeWhile_append_run (p := isStrChar) hin
    (r := '"' :: rest) (by
      intro d hd
      simp at hd
      subst hd
      decide)
  rw [List.cons_append, List.append_assoc, List.singleton_append,
    lexRun.eq_def]
  dsimp only
  rw [if_neg (by decide), if_neg (by decide), if_neg (by decide),
    if_pos rfl, hrun.1, hrun.2]
  simp

theorem lexRun_eh (rest : List Char) :
    lexRun ('e' :: 'h' :: '?' :: rest) =
      Option.map (fun ts => Tok.EH :: ts) (lexRun rest) := by
  rw [lexRun.eq_def]
  dsimp only
  rw [if_neg (by decide), if_neg (by decide), if_pos (by decide)]
  rw [List.takeWhile_cons_of_pos (by decide),
    List.takeWhile_cons_of_neg (by decide),
    List.dropWhile_cons_of_pos (by decide),
    List.dropWhile_cons_of_neg (by decide)]
  rw [if_pos (by simp)]
  simp



theorem lexRun_colon (rest : List Char) :
    lexRun (':' :: rest) =
      Option.map (fun ts => Tok.COLON :: ts) (lexRun rest) := by
  rw [lexRun.eq_def]
  dsimp only
  rw [if_neg (by decide), if_neg (by decide), if_neg (by decide),
    if_neg (by decide)]
  split <;> simp_all

theorem lexRun_semicol (rest : List Char) :
    lexRun (';' :: rest) =
      Option.map (fun ts => Tok.SEMICOL :: ts) (lexRun rest) := by
  rw [lexRun.eq_def]
  dsimp only
  rw [if_neg (by decide), if_neg (by decide), if_neg (by decide),
    if_neg (by decide)]
  split <;> simp_all

theorem lexRun_comma (rest : List Char) :
    lexRun (',' :: rest) =
      Option.map (fun ts => Tok.COMMA :: ts) (lexRun rest) := by
  rw [lexRun.eq_def]
  dsimp only
  rw [if_neg (by decide), if_neg (by decide), if_neg (by decide),
    if_neg (by decide)]
  split <;> simp_all

theorem lexRun_lparen (rest : List Char) :
    lexRun ('(' :: rest) =
      Option.map (fun ts => Tok.LPAREN :: ts) (lexRun rest) := by
  rw [lexRun.eq_def]
  dsimp only
  rw [if_neg (by decide), if_neg (by decide), if_neg (by decide),
    if_neg (by decide)]
  split <;> simp_all

theorem lexRun_rparen (rest : List Char) :
    lexRun (')' :: rest) =
      Option.map (fun ts => Tok.RPAREN :: ts) (lexRun rest) := by
  rw [lexRun.eq_def]
  dsimp only
  rw [if_neg (by decide), if_neg (by decide), if_neg (by decide),
    if_neg (by decide)]
  split <;> simp_all

theorem lexRun_lcurly (rest : List Char) :
    lexRun ('{' :: rest) =
      Option.map (fun ts => Tok.LCURLY :: ts) (lexRun rest) := by
  rw [lexRun.eq_def]
  dsimp only
  rw [if_neg (by decide), if_neg (by decide), if_neg (by decide),
    if_neg (by decide)]
  split <;> simp_all

theorem lexRun_rcurly (rest : List Char) :
    lexRun ('}' :: rest) =
      Option.map (fun ts => Tok.RCURLY :: ts) (lexRun rest) := by
  rw [lexRun.eq_def]
  dsimp only
  rw [if_neg (by decide), if_neg (by decide), if_neg (by decide),
    if_neg (by decide)]
  split <;> simp_all

theorem lexRun_star (rest : List Char) :
    lexRun ('*' :: rest) =
      Option.map (fun ts => Tok.STAR :: ts) (lexRun rest) := by
  rw [lexRun.eq_def]
  dsimp only
  rw [if_neg (by decide), if_neg (by decide), if_neg (by decide),
    if_neg (by decide)]
  split <;> simp_all

theorem lexRun_slash (rest : List Char) :
    lexRun ('/' :: rest) =
      Option.map (fun ts => Tok.SLASH :: ts) (lexRun rest) := by
  rw [lexRun.eq_def]
  dsimp only
  rw [if_neg (by decide), if_neg (by decide), if_neg (by decide),
    if_neg (by decide)]
  split <;> simp_all

theorem lexRun_amp (rest : List Char) :
    lexRun ('&' :: rest) =
      Option.map (fun ts => Tok.REF :: ts) (lexRun rest) := by
  rw [lexRun.eq_def]
  dsimp only
  rw [if_neg (by decide), if_neg (by decide), if_neg (by decide),
    if_neg (by decide)]
  split <;> simp_all

theorem lexRun_arrow (rest : List Char) :
    lexRun ('-' :: '>' :: rest) =
      Option.map (fun ts => Tok.ARROW :: ts) (lexRun rest) := by
  rw [lexRun.eq_def]
  dsimp only
  rw [if_neg (by decide), if_neg (by decide), if_neg (by decide),
    if_neg (by decide)]
  split <;> simp_all

theorem lexRun_postdec (rest : List Char) :
    lexRun ('-' :: '-' :: rest) =
      Option.map (fun ts => Tok.POSTDEC :: ts) (lexRun rest) := by
  rw [lexRun.eq_def]
  dsimp only
  rw [if_neg (by decide), if_neg (by decide), if_neg (by decide),
    if_neg (by decide)]
  split <;> simp_all

theorem lexRun_postinc (rest : List Char) :
    lexRun ('+' :: '+' :: rest) =
      Option.map (fun ts => Tok.POSTINC :: ts) (lexRun rest) := by
  rw [lexRun.eq_def]
  dsimp only
  rw [if_neg (by decide), if_neg (by decide), if_neg (by decide),
    if_neg (by decide)]
  split <;> simp_all

theorem lexRun_eqeq (rest : List Char) :
    lexRun ('=' :: '=' :: rest) =
      Option.map (fun ts => Tok.EQUALS :: ts) (lexRun rest) := by
  rw [lexRun.eq_def]
  dsimp only
  rw [if_neg (by decide), if_neg (by decide), if_neg (by decide),
    if_neg (by decide)]
  split <;> simp_all

theorem lexRun_noteq (rest : List Char) :
    lexRun ('!' :: '=' :: rest) =
      Option.map (fun ts => Tok.NOTEQUALS :: ts) (lexRun rest) := by
  rw [lexRun.eq_def]
  dsimp only
  rw [if_neg (by decide), if_neg (by decide), if_neg (by decide),
    if_neg (by decide)]
  split <;> simp_all

theorem lexRun_lesseq (rest : List Char) :
    lexRun ('<' :: '=' :: rest) =
      Option.map (fun ts => Tok.LESSEQ :: ts) (lexRun rest) := by
  rw [lexRun.eq_def]
  dsimp only
  rw [if_neg (by decide), if_neg (by decide), if_neg (by decide),
    if_neg (by decide)]
  split <;> simp_all

theorem lexRun_greatereq (rest : List Char) :
    lexRun ('>' :: '=' :: rest) =
      Option.map (fun ts => Tok.GREATEREQ :: ts) (lexRun rest) := by
  rw [lexRun.eq_def]
  dsimp only
  rw [if_neg (by decide), if_neg (by decide), if_neg (by decide),
    if_neg (by decide)]
  split <;> simp_all

theorem lexRun_dash (rest : List Char)
    (h1 : rest.head? ≠ some '>') (h2 : rest.head? ≠ some '-') :
    lexRun ('-' :: rest) =
      Option.map (fun ts => Tok.DASH :: ts) (lexRun rest) := by
  rw [lexRun.eq_def]
  dsimp only
  rw [if_neg (by decide), if_neg (by decide), if_neg (by decide),
    if_neg (by decide)]
  split <;> simp_all

theorem lexRun_cross (rest : List Char)
    (h1 : rest.head? ≠ some '+') :
    lexRun ('+' :: rest) =
      Option.map (fun ts => Tok.CROSS :: ts) (lexRun rest) := by
  rw [lexRun.eq_def]
  dsimp only
  rw [if_neg (by decide), if_neg (by decide), if_neg (by decide),
    if_neg (by decide)]
  split <;> simp_all

theorem lexRun_assign (rest : List Char)
    (h1 : rest.head? ≠ some '=') :
    lexRun ('=' :: rest) =
      Option.map (fun ts => Tok.ASSIGN :: ts) (lexRun rest) := by
  rw [lexRun.eq_def]
  dsimp only
  rw [if_neg (by decide), if_neg (by decide), if_neg (by decide),
    if_neg (by decide)]
  split <;> simp_all

theorem lexRun_bang (rest : List Char)
    (h1 : rest.head? ≠ some '=') :
    lexRun ('!' :: rest) =
      Option.map (fun ts => Tok.NOT :: ts) (lexRun rest) := by
  rw [lexRun.eq_def]
  dsimp only
  rw [if_neg (by decide), if_neg (by decide), if_neg (by decide),
    if_neg (by decide)]
  split <;> simp_all

theorem lexRun_less (rest : List Char)
    (h1 : rest.head? ≠ some '=') :
    lexRun ('<' :: rest) =
      Option.map (fun ts => Tok.LESS :: ts) (lexRun rest) := by
  rw [lexRun.eq_def]
  dsimp only
  rw [if_neg (by decide), if_neg (by decide), if_neg (by decide),
    if_neg (by decide)]
  split <;> simp_all

theorem lexRun_greater (rest : List Char)
    (h1 : rest.head? ≠ some '=') :
    lexRun ('>' :: rest) =
      Option.map (fun ts => Tok.GREATER :: ts) (lexRun rest) := by
  rw [lexRun.eq_def]
  dsimp only
  rw [if_neg (by decide), if_neg (by decide), if_neg (by decide),
    if_neg (by decide)]
  split <;> simp_all

theorem wfIdent_not_kw {s : String} (h : wfIdent s = true) :
    keywords.contains s = false := by
  unfold wfIdent at h
  split at h
  · cases h
  · simp only [Bool.and_eq_true, Bool.not_eq_true'] at h
    exact h.2

theorem wfIdent_chars {s : String} (h : wfIdent s = true) :
    ∃ c cs, s.data = c :: cs ∧ isIdentStart c = true ∧
      cs.all isIdentChar = true := by
  unfold wfIdent at h
  split at h
  · cases h
  · rename_i c cs hd
    simp only [Bool.and_eq_true] at h
    exact ⟨c, cs, hd, h.1.1, h.1.2⟩

theorem keywordOrId_not_kw {s : String} (h : keywords.contains s = false) :
    keywordOrId s = .ID s := by
  simp [keywords] at h
  obtain ⟨h1, h2, h3, h4, h5, h6, h7, h8, h9, h10, h11, h12, h13, h14, h15,
    h16, h17, h18, h19, h20⟩ := h
  unfold keywordOrId
  simp [h1, h2, h3, h4, h5, h6, h7, h8, h9, h10, h11, h12, h13, h14, h15,
    h16, h17, h18, h19, h20]

theorem lexRun_ident (s : String) (rest : List Char)
    (hwf : wfIdent s = true) (hrest : headSafe rest = true) :
    lexRun (s.data ++ rest) =
      Option.map (fun ts => Tok.ID s :: ts) (lexRun rest) := by
  obtain ⟨c, cs, hd, hs, hcs⟩ := wfIdent_chars hwf
  have h := @lexRun_identRun c cs rest hs hcs hrest
  rw [hd]
  rw [h]
  have : String.mk (c :: cs) = s := by rw [← hd]
  rw [this, keywordOrId_not_kw (wfIdent_not_kw hwf)]

theorem lexRun_str (s : String) (rest : List Char) (hwf : wfStr s = true) :
    lexRun (s.data ++ rest) =
      Option.map (fun ts => Tok.STRINGLITERAL s :: ts) (lexRun rest) := by
  unfold wfStr at hwf
  split at hwf
  · cases hwf
  · rename_i c cs hd
    simp only [Bool.and_eq_true] at hwf
    obtain ⟨⟨hq, hlast⟩, hmid⟩ := hwf
    have hceq : c = '"' := by simpa using hq
    subst hceq
    have hne : cs ≠ [] := by
      intro he
      subst he
      simp at hlast
    have hsplit : cs.dropLast ++ [cs.getLast hne] = cs :=
      List.dropLast_append_getLast hne
    have hlv : cs.getLast hne = '"' := by
      have h2 : cs.getLast? = some '"' := by simpa using hlast
      have h3 := List.getLast?_eq_getLast cs hne
      rw [h3] at h2
      exact Option.some_injective _ h2
    rw [hd]
    have hshape : ('"' :: cs) = '"' :: (cs.dropLast ++ ['"']) := by
      rw [← hlv, hsplit]
    rw [hshape]
    rw [lexRun_strLit cs.dropLast rest hmid]
    have : String.mk ('"' :: (cs.dropLast ++ ['"'])) = s := by
      rw [← hshape, ← hd]
    rw [this]

theorem lexRun_kw_int (rest : List Char) (hrest : headSafe rest = true) :
    lexRun ('i' :: 'n' :: 't' :: rest) =
      Option.map (fun ts => Tok.INT :: ts) (lexRun rest) := by
  have h := @lexRun_identRun 'i' ['n', 't'] rest (by decide)
    (by decide) hrest
  rw [show String.mk ['i', 'n', 't'] = "int" from rfl] at h
  rw [show keywordOrId "int" = Tok.INT from rfl] at h
  exact h

theorem lexRun_kw_bool (rest : List Char) (hrest : headSafe rest = true) :
    lexRun ('b' :: 'o' :: 'o' :: 'l' :: rest) =
      Option.map (fun ts => Tok.BOOL :: ts) (lexRun rest) := by
  have h := @lexRun_identRun 'b' ['o', 'o', 'l'] rest (by decide)
    (by decide) hrest
  rw [show String.mk ['b', 'o', 'o', 'l'] = "bool" from rfl] at h
  rw [show keywordOrId "bool" = Tok.BOOL from rfl] at h
  exact h

theorem lexRun_kw_void (rest : List Char) (hrest : headSafe rest = true) :
    lexRun ('v' :: 'o' :: 'i' :: 'd' :: rest) =
      Option.map (fun ts => Tok.VOID :: ts) (lexRun rest) := by
  have h := @lexRun_identRun 'v' ['o', 'i', 'd'] rest (by decide)
    (by decide) hrest
  rw [show String.mk ['v', 'o', 'i', 'd'] = "void" from rfl] at h
  rw [show keywordOrId "void" = Tok.VOID from rfl] at h
  exact h

theorem lexRun_kw_immutable (rest : List Char) (hrest : headSafe rest = true) :
    lexRun ('i' :: 'm' :: 'm' :: 'u' :: 't' :: 'a' :: 'b' :: 'l' :: 'e' :: rest) =
      Option.map (fun ts => Tok.IMMUTABLE :: ts) (lexRun rest) := by
  have h := @lexRun_identRun 'i' ['m', 'm', 'u', 't', 'a', 'b', 'l', 'e'] rest (by decide)
    (by decide) hrest
  rw [show String.mk ['i', 'm', 'm', 'u', 't', 'a', 'b', 'l', 'e'] = "immutable" from rfl] at h
  rw [show keywordOrId "immutable" = Tok.IMMUTABLE from rfl] at h
  exact h

theorem lexRun_kw_custom (rest : List Char) (hrest : headSafe rest = true) :
    lexRun ('c' :: 'u' :: 's' :: 't' :: 'o' :: 'm' :: rest) =
      Option.map (fun ts => Tok.CUSTOM :: ts) (lexRun rest) := by
  have h := @lexRun_identRun 'c' ['u', 's', 't', 'o', 'm'] rest (by decide)
    (by decide) hrest
  rw [show String.mk ['c', 'u', 's', 't', 'o', 'm'] = "custom" from rfl] at h
  rw [show keywordOrId "custom" = Tok.CUSTOM from rfl] at h
  exact h

theorem lexRun_kw_if (rest : List Char) (hrest : headSafe rest = true) :
    lexRun ('i' :: 'f' :: rest) =
      Option.map (fun ts => Tok.IF :: ts) (lexRun rest) := by
  have h := @lexRun_identRun 'i' ['f'] rest (by decide)
    (by decide) hrest
  rw [show String.mk ['i', 'f'] = "if" from rfl] at h
  rw [show keywordOrId "if" = Tok.IF from rfl] at h
  exact h

theorem lexRun_kw_else (rest : List Char) (hrest : headSafe rest = true) :
    lexRun ('e' :: 'l' :: 's' :: 'e' :: rest) =
      Option.map (fun ts => Tok.ELSE :: ts) (lexRun rest) := by
  have h := @lexRun_identRun 'e' ['l', 's', 'e'] rest (by decide)
    (by decide) hrest
  rw [show String.mk ['e', 'l', 's', 'e'] = "else" from rfl] at h
  rw [show keywordOrId "else" = Tok.ELSE from rfl] at h
  exact h

theorem lexRun_kw_while (rest : List Char) (hrest : headSafe rest = true) :
    lexRun ('w' :: 'h' :: 'i' :: 'l' :: 'e' :: rest) =
      Option.map (fun ts => Tok.WHILE :: ts) (lexRun rest) := by
  have h := @lexRun_identRun 'w' ['h', 'i', 'l', 'e'] rest (by decide)
    (by decide) hrest
  rw [show String.mk ['w', 'h', 'i', 'l', 'e'] = "while" from rfl] at h
  rw [show keywordOrId "while" = Tok.WHILE from rfl] at h
  exact h

theorem lexRun_kw_maybe (rest : List Char) (hrest : headSafe rest = true) :
    lexRun ('m' :: 'a' :: 'y' :: 'b' :: 'e' :: rest) =
      Option.map (fun ts => Tok.MAYBE :: ts) (lexRun rest) := by
  have h := @lexRun_identRun 'm' ['a', 'y', 'b', 'e'] rest (by decide)
    (by decide) hrest
  rw [show String.mk ['m', 'a', 'y', 'b', 'e'] = "maybe" from rfl] at h
  rw [show keywordOrId "maybe" = Tok.MAYBE from rfl] at h
  exact h

theorem lexRun_kw_means (rest : List Char) (hrest : headSafe rest = true) :
    lexRun ('m' :: 'e' :: 'a' :: 'n' :: 's' :: rest) =
      Option.map (fun ts => Tok.MEANS :: ts) (lexRun rest) := by
  have h := @lexRun_identRun 'm' ['e', 'a', 'n', 's'] rest (by decide)
    (by decide) hrest
  rw [show String.mk ['m', 'e', 'a', 'n', 's'] = "means" from rfl] at h
  rw [show keywordOrId "means" = Tok.MEANS from rfl] at h
  exact h

theorem lexRun_kw_otherwise (rest : List Char) (hrest : headSafe rest = true) :
    lexRun ('o' :: 't' :: 'h' :: 'e' :: 'r' :: 'w' :: 'i' :: 's' :: 'e' :: rest) =
      Option.map (fun ts => Tok.OTHERWISE :: ts) (lexRun rest) := by
  have h := @lexRun_identRun 'o' ['t', 'h', 'e', 'r', 'w', 'i', 's', 'e'] rest (by decide)
    (by decide) hrest
  rw [show String.mk ['o', 't', 'h', 'e', 'r', 'w', 'i', 's', 'e'] = "otherwise" from rfl] at h
  rw [show keywordOrId "otherwise" = Tok.OTHERWISE from rfl] at h
  exact h

theorem lexRun_kw_fromconsole (rest : List Char) (hrest : headSafe rest = true) :
    lexRun ('f' :: 'r' :: 'o' :: 'm' :: 'c' :: 'o' :: 'n' :: 's' :: 'o' :: 'l' :: 'e' :: rest) =
      Option.map (fun ts => Tok.FROMCONSOLE :: ts) (lexRun rest) := by
  have h := @lexRun_identRun 'f' ['r', 'o', 'm', 'c', 'o', 'n', 's', 'o', 'l', 'e'] rest (by decide)
    (by decide) hrest
  rw [show String.mk ['f', 'r', 'o', 'm', 'c', 'o', 'n', 's', 'o', 'l', 'e'] = "fromconsole" from rfl] at h
  rw [show keywordOrId "fromconsole" = Tok.FROMCONSOLE from rfl] at h
  exact h

theorem lexRun_kw_toconsole (rest : List Char) (hrest : headSafe rest = true) :
    lexRun ('t' :: 'o' :: 'c' :: 'o' :: 'n' :: 's' :: 'o' :: 'l' :: 'e' :: rest) =
      Option.map (fun ts => Tok.TOCONSOLE :: ts) (lexRun rest) := by
  have h := @lexRun_identRun 't' ['o', 'c', 'o', 'n', 's', 'o', 'l', 'e'] rest (by decide)
    (by decide) hrest
  rw [show String.mk ['t', 'o', 'c', 'o', 'n', 's', 'o', 'l', 'e'] = "toconsole" from rfl] at h
  rw [show keywordOrId "toconsole" = Tok.TOCONSOLE from rfl] at h
  exact h

theorem lexRun_kw_return (rest : List Char) (hrest : headSafe rest = true) :
    lexRun ('r' :: 'e' :: 't' :: 'u' :: 'r' :: 'n' :: rest) =
      Option.map (fun ts => Tok.RETURN :: ts) (lexRun rest) := by
  have h := @lexRun_identRun 'r' ['e', 't', 'u', 'r', 'n'] rest (by decide)
    (by decide) hrest
  rw [show String.mk ['r', 'e', 't', 'u', 'r', 'n'] = "return" from rfl] at h
  rw [show keywordOrId "return" = Tok.RETURN from rfl] at h
  exact h

theorem lexRun_kw_true (rest : List Char) (hrest : headSafe rest = true) :
    lexRun ('t' :: 'r' :: 'u' :: 'e' :: rest) =
      Option.map (fun ts => Tok.TRUE :: ts) (lexRun rest) := by
  have h := @lexRun_identRun 't' ['r', 'u', 'e'] rest (by decide)
    (by decide) hrest
  rw [show String.mk ['t', 'r', 'u', 'e'] = "true" from rfl] at h
  rw [show keywordOrId "true" = Tok.TRUE from rfl] at h
  exact h

theorem lexRun_kw_false (rest : List Char) (hrest : headSafe rest = true) :
    lexRun ('f' :: 'a' :: 'l' :: 's' :: 'e' :: rest) =
      Option.map (fun ts => Tok.FALSE :: ts) (lexRun rest) := by
  have h := @lexRun_identRun 'f' ['a', 'l', 's', 'e'] rest (by decide)
    (by decide) hrest
  rw [show String.mk ['f', 'a', 'l', 's', 'e'] = "false" from rfl] at h
  rw [show keywordOrId "false" = Tok.FALSE from rfl] at h
  exact h

theorem lexRun_kw_and (rest : List Char) (hrest : headSafe rest = true) :
    lexRun ('a' :: 'n' :: 'd' :: rest) =
      Option.map (fun ts => Tok.AND :: ts) (lexRun rest) := by
  have h := @lexRun_identRun 'a' ['n', 'd'] rest (by decide)
    (by decide) hrest
  rw [show String.mk ['a', 'n', 'd'] = "and" from rfl] at h
  rw [show keywordOrId "and" = Tok.AND from rfl] at h
  exact h

theorem lexRun_kw_or (rest : List Char) (hrest : headSafe rest = true) :
    lexRun ('o' :: 'r' :: rest) =
      Option.map (fun ts => Tok.OR :: ts) (lexRun rest) := by
  have h := @lexRun_identRun 'o' ['r'] rest (by decide)
    (by decide) hrest
  rw [show String.mk ['o', 'r'] = "or" from rfl] at h
  rw [show keywordOrId "or" = Tok.OR from rfl] at h
  exact h

/-- C5: the claim says a composite node's Position spans from its first to
its last matched constituent — in particular a `VarDecl` built from
`name : type` would have a Position ending at the end of the type.  The
reduction action of `a.yy` lines 166-171 instead merges `$1` (the name)
with `$2` (the COLON), so for `x: int;` — name at (1,1)-(1,1), colon at
(1,2)-(1,2), type at (1,4)-(1,6) — the node's span ends at column 2, not
at the type's end column 6. -/
theorem C5_varDecl_position_ends_at_colon :
    varDeclActionPos ⟨1, 1, 1, 1⟩ ⟨1, 2, 1, 2⟩ ⟨1, 4, 1, 6⟩ = ⟨1, 1, 1, 2⟩ ∧
    (varDeclActionPos ⟨1, 1, 1, 1⟩ ⟨1, 2, 1, 2⟩ ⟨1, 4, 1, 6⟩).endCol ≠
      (⟨1, 4, 1, 6⟩ : Position).endCol := by
  constructor <;> decide

/-- C6: a source with zero global declarations parses successfully to a
program with an empty declaration list, whose `ProgramNode` Position is
the synthetic zero span `(0,0,0,0)`; for a non-empty globals list the
Position is the merge of the first and last declaration positions
(`ProgramNode::ProgramNode`, `ast.cpp`). -/
theorem C6_empty_program_and_position :
    parseProgram "" = .ok [] ∧
    programNodePos [] = ⟨0, 0, 0, 0⟩ ∧
    ∀ (p : Position) (ps : List Position),
      programNodePos (p :: ps) =
        posMerge p (List.getLast (p :: ps) (by simp)) := by
  refine ⟨?_, rfl, fun p ps => rfl⟩
  simp [parseProgram, lex, lexRun, parseGlobals, fuelFor]

/-- C7: the parse returns a success/failure signal; the root is produced
exactly on success (`.ok`), and on failure the root output stays unset
(`.error`, no AST) while the emitted diagnostic — printed through
`Parser::error` — is a human-readable message beginning with
"syntax error".  The `Except` propagation models the immediate abort: no
error recovery follows the first fatal error. -/
theorem C7_parse_result_signal :
    ∀ s : String,
      (∃ p, parseProgram s = .ok p) ∨
      (∃ e, parseProgram s = .error e ∧
        ∃ t, errMsg e = "syntax error" ++ t) := by
  intro s
  match h : parseProgram s with
  | .ok p => exact .inl ⟨p, rfl⟩
  | .error e =>
    refine .inr ⟨e, rfl, ?_⟩
    cases e with
    | unexpected t ctx =>
      refine ⟨", unexpected token in " ++ ctx, ?_⟩
      have : "syntax error" ++ ", unexpected token in " =
          "syntax error, unexpected token in " := rfl
      rw [← String.append_assoc, this]
      rfl
    | lexical => exact ⟨", malformed token", rfl⟩

/-- C8: `CallStmtNode`, `PostIncStmtNode`, `PostDecStmtNode` and
`MaybeStmtNode` render with no leading indentation and no terminating
`";\n"` at the sentinel indentation `-1`, and with `indent` tabs plus the
terminator at any indentation `≥ 0`; the core text between the two is
identical in both modes. -/
theorem C8_embedded_rendering_sentinel :
    ∀ (l : Loc) (args : List Exp) (dst : Loc) (s1 s2 : Exp) (n : Nat),
      (unparseStmt (.CallStmt l args) (-1) = unparseExp (.CallExp l args) 0 ∧
       unparseStmt (.CallStmt l args) (Int.ofNat n) =
         doIndent (Int.ofNat n) ++ unparseStmt (.CallStmt l args) (-1) ++ ";\n") ∧
      (unparseStmt (.PostInc l) (-1) = unparseLoc l ++ "++" ∧
       unparseStmt (.PostInc l) (Int.ofNat n) =
         doIndent (Int.ofNat n) ++ unparseStmt (.PostInc l) (-1) ++ ";\n") ∧
      (unparseStmt (.PostDec l) (-1) = unparseLoc l ++ "--" ∧
       unparseStmt (.PostDec l) (Int.ofNat n) =
         doIndent (Int.ofNat n) ++ unparseStmt (.PostDec l) (-1) ++ ";\n") ∧
      (unparseStmt (.Maybe dst s1 s2) (-1) =
         "maybe " ++ unparseLoc dst ++ " means " ++ unparseExp s1 0 ++
           " otherwise " ++ unparseExp s2 0 ∧
       unparseStmt (.Maybe dst s1 s2) (Int.ofNat n) =
         doIndent (Int.ofNat n) ++ unparseStmt (.Maybe dst s1 s2) (-1) ++ ";\n") := by
  intro l args dst s1 s2 n
  have hne : (Int.ofNat n) ≠ -1 := by simp
  refine ⟨⟨?_, ?_⟩, ⟨?_, ?_⟩, ⟨?_, ?_⟩, ⟨?_, ?_⟩⟩ <;>
    simp [unparseStmt, hne, String.append_assoc]

/-- C9: every non-literal expression rendered as an operand
(`ExpNode::unparseNested`) is wrapped in parentheses; each of the twelve
binary nodes unparses as the left operand's nested rendering, the operator
spelling surrounded by single spaces, then the right operand's nested
rendering; the five literal classes override `unparseNested` and render
without surrounding parentheses. -/
theorem C9_nested_parenthesization :
    (∀ e : Exp, isLitExp e = false →
       unparseNested e = "(" ++ unparseExp e 0 ++ ")") ∧
    (∀ e1 e2 : Exp,
       unparseExp (.Plus e1 e2) 0 =
         unparseNested e1 ++ " + " ++ unparseNested e2 ∧
       unparseExp (.Minus e1 e2) 0 =
         unparseNested e1 ++ " - " ++ unparseNested e2 ∧
       unparseExp (.Times e1 e2) 0 =
         unparseNested e1 ++ " * " ++ unparseNested e2 ∧
       unparseExp (.Divide e1 e2) 0 =
         unparseNested e1 ++ " / " ++ unparseNested e2 ∧
       unparseExp (.And e1 e2) 0 =
         unparseNested e1 ++ " and " ++ unparseNested e2 ∧
       unparseExp (.Or e1 e2) 0 =
         unparseNested e1 ++ " or " ++ unparseNested e2 ∧
       unparseExp (.Equals e1 e2) 0 =
         unparseNested e1 ++ " == " ++ unparseNested e2 ∧
       unparseExp (.NotEquals e1 e2) 0 =
         unparseNested e1 ++ " != " ++ unparseNested e2 ∧
       unparseExp (.Less e1 e2) 0 =
         unparseNested e1 ++ " < " ++ unparseNested e2 ∧
       unparseExp (.LessEq e1 e2) 0 =
         unparseNested e1 ++ " <= " ++ unparseNested e2 ∧
       unparseExp (.Greater e1 e2) 0 =
         unparseNested e1 ++ " > " ++ unparseNested e2 ∧
       unparseExp (.GreaterEq e1 e2) 0 =
         unparseNested e1 ++ " >= " ++ unparseNested e2) ∧
    (∀ n, unparseNested (.IntLit n) = String.mk (natChars n)) ∧
    (∀ s, unparseNested (.StrLit s) = s) ∧
    unparseNested .TrueLit = "true" ∧
    unparseNested .FalseLit = "false" ∧
    unparseNested .EhLit = "eh?" := by
  refine ⟨?_, ?_, ?_, ?_, ?_, ?_, ?_⟩
  · intro e he
    cases e <;> simp [isLitExp] at he <;>
      simp [unparseNested]
  · intro e1 e2
    refine ⟨?_, ?_, ?_, ?_, ?_, ?_, ?_, ?_, ?_, ?_, ?_, ?_⟩ <;>
      simp [unparseExp, doIndent, String.append_assoc]
  · intro n; simp [unparseNested, unparseExp, doIndent]
  · intro s; simp [unparseNested, unparseExp, doIndent]
  · simp [unparseNested, unparseExp, doIndent]
  · simp [unparseNested, unparseExp, doIndent]
  · simp [unparseNested, unparseExp, doIndent]

/-- Witness for C9 at a concrete non-literal operand. -/
theorem C9_nested_parenthesization_witness :
    isLitExp (Exp.Plus (.IntLit 1) (.IntLit 2)) = false ∧
    unparseNested (Exp.Plus (.IntLit 1) (.IntLit 2)) =
      "(" ++ unparseExp (Exp.Plus (.IntLit 1) (.IntLit 2)) 0 ++ ")" :=
  ⟨by decide, C9_nested_parenthesization.1 _ (by decide)⟩

/-- C10: `VarDeclNode::unparse` emits exactly the identifier, `": "`, the
type's rendering and `";\n"`, for present and absent initializers alike —
the stored initializer expression is never rendered. -/
theorem C10_varDecl_unparse_drops_initializer :
    ∀ (name : String) (ty : Ty) (init : Option Exp) (indent : Int),
      unparseVarDecl name ty init indent =
        doIndent indent ++ name ++ ": " ++ unparseTy ty 0 ++ ";\n" ∧
      ∀ init' : Option Exp,
        unparseVarDecl name ty init indent =
          unparseVarDecl name ty init' indent :=
  fun _ _ _ _ => ⟨rfl, fun _ => rfl⟩

/-! ## Render-piece scanner lemmas

Each fixed string fragment the renderer emits lexes to its token image,
prefixing whatever the scanner produces for the remaining characters. -/


theorem lexPiece_plus (r : List Char) :
    lexRun ((" + ").data ++ r) =
      Option.map (fun ts => Tok.CROSS :: ts) (lexRun r) := by
  show lexRun (' ' :: '+' :: ' ' :: r) = _
  rw [lexRun_ws _ (by decide),
    lexRun_cross _ (by simp),
    lexRun_ws _ (by decide)]

theorem lexPiece_minus (r : List Char) :
    lexRun ((" - ").data ++ r) =
      Option.map (fun ts => Tok.DASH :: ts) (lexRun r) := by
  show lexRun (' ' :: '-' :: ' ' :: r) = _
  rw [lexRun_ws _ (by decide),
    lexRun_dash _ (by simp) (by simp),
    lexRun_ws _ (by decide)]

theorem lexPiece_times (r : List Char) :
    lexRun ((" * ").data ++ r) =
      Option.map (fun ts => Tok.STAR :: ts) (lexRun r) := by
  show lexRun (' ' :: '*' :: ' ' :: r) = _
  rw [lexRun_ws _ (by decide),
    lexRun_star,
    lexRun_ws _ (by decide)]

theorem lexPiece_divide (r : List Char) :
    lexRun ((" / ").data ++ r) =
      Option.map (fun ts => Tok.SLASH :: ts) (lexRun r) := by
  show lexRun (' ' :: '/' :: ' ' :: r) = _
  rw [lexRun_ws _ (by decide),
    lexRun_slash,
    lexRun_ws _ (by decide)]

theorem lexPiece_andop (r : List Char) :
    lexRun ((" and ").data ++ r) =
      Option.map (fun ts => Tok.AND :: ts) (lexRun r) := by
  show lexRun (' ' :: 'a' :: 'n' :: 'd' :: ' ' :: r) = _
  rw [lexRun_ws _ (by decide),
    lexRun_kw_and _ (by rfl),
    lexRun_ws _ (by decide)]

theorem lexPiece_orop (r : List Char) :
    lexRun ((" or ").data ++ r) =
      Option.map (fun ts => Tok.OR :: ts) (lexRun r) := by
  show lexRun (' ' :: 'o' :: 'r' :: ' ' :: r) = _
  rw [lexRun_ws _ (by decide),
    lexRun_kw_or _ (by rfl),
    lexRun_ws _ (by decide)]

theorem lexPiece_eqop (r : List Char) :
    lexRun ((" == ").data ++ r) =
      Option.map (fun ts => Tok.EQUALS :: ts) (lexRun r) := by
  show lexRun (' ' :: '=' :: '=' :: ' ' :: r) = _
  rw [lexRun_ws _ (by decide),
    lexRun_eqeq,
    lexRun_ws _ (by decide)]

theorem lexPiece_neqop (r : List Char) :
    lexRun ((" != ").data ++ r) =
      Option.map (fun ts => Tok.NOTEQUALS :: ts) (lexRun r) := by
  show lexRun (' ' :: '!' :: '=' :: ' ' :: r) = _
  rw [lexRun_ws _ (by decide),
    lexRun_noteq,
    lexRun_ws _ (by decide)]

theorem lexPiece_ltop (r : List Char) :
    lexRun ((" < ").data ++ r) =
      Option.map (fun ts => Tok.LESS :: ts) (lexRun r) := by
  show lexRun (' ' :: '<' :: ' ' :: r) = _
  rw [lexRun_ws _ (by decide),
    lexRun_less _ (by simp),
    lexRun_ws _ (by decide)]

theorem lexPiece_leop (r : List Char) :
    lexRun ((" <= ").data ++ r) =
      Option.map (fun ts => Tok.LESSEQ :: ts) (lexRun r) := by
  show lexRun (' ' :: '<' :: '=' :: ' ' :: r) = _
  rw [lexRun_ws _ (by decide),
    lexRun_lesseq,
    lexRun_ws _ (by decide)]

theorem lexPiece_gtop (r : List Char) :
    lexRun ((" > ").data ++ r) =
      Option.map (fun ts => Tok.GREATER :: ts) (lexRun r) := by
  show lexRun (' ' :: '>' :: ' ' :: r) = _
  rw [lexRun_ws _ (by decide),
    lexRun_greater _ (by simp),
    lexRun_ws _ (by decide)]

theorem lexPiece_geop (r : List Char) :
    lexRun ((" >= ").data ++ r) =
      Option.map (fun ts => Tok.GREATEREQ :: ts) (lexRun r) := by
  show lexRun (' ' :: '>' :: '=' :: ' ' :: r) = _
  rw [lexRun_ws _ (by decide),
    lexRun_greatereq,
    lexRun_ws _ (by decide)]

theorem lexPiece_lp (r : List Char) :
    lexRun (("(").data ++ r) =
      Option.map (fun ts => Tok.LPAREN :: ts) (lexRun r) := by
  show lexRun ('(' :: r) = _
  rw [lexRun_lparen]

theorem lexPiece_rp (r : List Char) :
    lexRun ((")").data ++ r) =
      Option.map (fun ts => Tok.RPAREN :: ts) (lexRun r) := by
  show lexRun (')' :: r) = _
  rw [lexRun_rparen]

theorem lexPiece_commasp (r : List Char) :
    lexRun ((", ").data ++ r) =
      Option.map (fun ts => Tok.COMMA :: ts) (lexRun r) := by
  show lexRun (',' :: ' ' :: r) = _
  rw [lexRun_comma,
    lexRun_ws _ (by decide)]

theorem lexPiece_arrowp (r : List Char) :
    lexRun (("->").data ++ r) =
      Option.map (fun ts => Tok.ARROW :: ts) (lexRun r) := by
  show lexRun ('-' :: '>' :: r) = _
  rw [lexRun_arrow]

theorem lexPiece_colonsp (r : List Char) :
    lexRun ((": ").data ++ r) =
      Option.map (fun ts => Tok.COLON :: ts) (lexRun r) := by
  show lexRun (':' :: ' ' :: r) = _
  rw [lexRun_colon,
    lexRun_ws _ (by decide)]

theorem lexPiece_seminl (r : List Char) :
    lexRun ((";\n").data ++ r) =
      Option.map (fun ts => Tok.SEMICOL :: ts) (lexRun r) := by
  show lexRun (';' :: '\n' :: r) = _
  rw [lexRun_semicol,
    lexRun_ws _ (by decide)]

theorem lexPiece_assignsp (r : List Char) :
    lexRun ((" = ").data ++ r) =
      Option.map (fun ts => Tok.ASSIGN :: ts) (lexRun r) := by
  show lexRun (' ' :: '=' :: ' ' :: r) = _
  rw [lexRun_ws _ (by decide),
    lexRun_assign _ (by simp),
    lexRun_ws _ (by decide)]

theorem lexPiece_ppop (r : List Char) :
    lexRun (("++").data ++ r) =
      Option.map (fun ts => Tok.POSTINC :: ts) (lexRun r) := by
  show lexRun ('+' :: '+' :: r) = _
  rw [lexRun_postinc]

theorem lexPiece_mmop (r : List Char) :
    lexRun (("--").data ++ r) =
      Option.map (fun ts => Tok.POSTDEC :: ts) (lexRun r) := by
  show lexRun ('-' :: '-' :: r) = _
  rw [lexRun_postdec]

theorem lexPiece_maybesp (r : List Char) :
    lexRun (("maybe ").data ++ r) =
      Option.map (fun ts => Tok.MAYBE :: ts) (lexRun r) := by
  show lexRun ('m' :: 'a' :: 'y' :: 'b' :: 'e' :: ' ' :: r) = _
  rw [lexRun_kw_maybe _ (by rfl),
    lexRun_ws _ (by decide)]

theorem lexPiece_meanssp (r : List Char) :
    lexRun ((" means ").data ++ r) =
      Option.map (fun ts => Tok.MEANS :: ts) (lexRun r) := by
  show lexRun (' ' :: 'm' :: 'e' :: 'a' :: 'n' :: 's' :: ' ' :: r) = _
  rw [lexRun_ws _ (by decide),
    lexRun_kw_means _ (by rfl),
    lexRun_ws _ (by decide)]

theorem lexPiece_otherwisesp (r : List Char) :
    lexRun ((" otherwise ").data ++ r) =
      Option.map (fun ts => Tok.OTHERWISE :: ts) (lexRun r) := by
  show lexRun (' ' :: 'o' :: 't' :: 'h' :: 'e' :: 'r' :: 'w' :: 'i' :: 's' :: 'e' :: ' ' :: r) = _
  rw [lexRun_ws _ (by decide),
    lexRun_kw_otherwise _ (by rfl),
    lexRun_ws _ (by decide)]

theorem lexPiece_fromconsolesp (r : List Char) :
    lexRun (("fromconsole ").data ++ r) =
      Option.map (fun ts => Tok.FROMCONSOLE :: ts) (lexRun r) := by
  show lexRun ('f' :: 'r' :: 'o' :: 'm' :: 'c' :: 'o' :: 'n' :: 's' :: 'o' :: 'l' :: 'e' :: ' ' :: r) = _
  rw [lexRun_kw_fromconsole _ (by rfl),
    lexRun_ws _ (by decide)]

theorem lexPiece_toconsolesp (r : List Char) :
    lexRun (("toconsole ").data ++ r) =
      Option.map (fun ts => Tok.TOCONSOLE :: ts) (lexRun r) := by
  show lexRun ('t' :: 'o' :: 'c' :: 'o' :: 'n' :: 's' :: 'o' :: 'l' :: 'e' :: ' ' :: r) = _
  rw [lexRun_kw_toconsole _ (by rfl),
    lexRun_ws _ (by decide)]

theorem lexPiece_iflp (r : List Char) :
    lexRun (("if (").data ++ r) =
      Option.map (fun ts => Tok.IF :: Tok.LPAREN :: ts) (lexRun r) := by
  show lexRun ('i' :: 'f' :: ' ' :: '(' :: r) = _
  rw [lexRun_kw_if _ (by rfl),
    lexRun_ws _ (by decide),
    lexRun_lparen]
  cases lexRun r <;> rfl

theorem lexPiece_whilelp (r : List Char) :
    lexRun (("while (").data ++ r) =
      Option.map (fun ts => Tok.WHILE :: Tok.LPAREN :: ts) (lexRun r) := by
  show lexRun ('w' :: 'h' :: 'i' :: 'l' :: 'e' :: ' ' :: '(' :: r) = _
  rw [lexRun_kw_while _ (by rfl),
    lexRun_ws _ (by decide),
    lexRun_lparen]
  cases lexRun r <;> rfl

theorem lexPiece_rplc (r : List Char) :
    lexRun ((")\x7b\n").data ++ r) =
      Option.map (fun ts => Tok.RPAREN :: Tok.LCURLY :: ts) (lexRun r) := by
  show lexRun (')' :: '{' :: '\n' :: r) = _
  rw [lexRun_rparen,
    lexRun_lcurly,
    lexRun_ws _ (by decide)]
  cases lexRun r <;> rfl

theorem lexPiece_rcnl (r : List Char) :
    lexRun (("\x7d\n").data ++ r) =
      Option.map (fun ts => Tok.RCURLY :: ts) (lexRun r) := by
  show lexRun ('}' :: '\n' :: r) = _
  rw [lexRun_rcurly,
    lexRun_ws _ (by decide)]

theorem lexPiece_rcelse (r : List Char) :
    lexRun (("\x7d else \x7b\n").data ++ r) =
      Option.map (fun ts => Tok.RCURLY :: Tok.ELSE :: Tok.LCURLY :: ts) (lexRun r) := by
  show lexRun ('}' :: ' ' :: 'e' :: 'l' :: 's' :: 'e' :: ' ' :: '{' :: '\n' :: r) = _
  rw [lexRun_rcurly,
    lexRun_ws _ (by decide),
    lexRun_kw_else _ (by rfl),
    lexRun_ws _ (by decide),
    lexRun_lcurly,
    lexRun_ws _ (by decide)]
  cases lexRun r <;> rfl

theorem lexPiece_coloncustom (r : List Char) :
    lexRun ((" : custom \x7b\n").data ++ r) =
      Option.map (fun ts => Tok.COLON :: Tok.CUSTOM :: Tok.LCURLY :: ts) (lexRun r) := by
  show lexRun (' ' :: ':' :: ' ' :: 'c' :: 'u' :: 's' :: 't' :: 'o' :: 'm' :: ' ' :: '{' :: '\n' :: r) = _
  rw [lexRun_ws _ (by decide),
    lexRun_colon,
    lexRun_ws _ (by decide),
    lexRun_kw_custom _ (by rfl),
    lexRun_ws _ (by decide),
    lexRun_lcurly,
    lexRun_ws _ (by decide)]
  cases lexRun r <;> rfl

theorem lexPiece_rcseminl (r : List Char) :
    lexRun (("\x7d;\n").data ++ r) =
      Option.map (fun ts => Tok.RCURLY :: Tok.SEMICOL :: ts) (lexRun r) := by
  show lexRun ('}' :: ';' :: '\n' :: r) = _
  rw [lexRun_rcurly,
    lexRun_semicol,
    lexRun_ws _ (by decide)]
  cases lexRun r <;> rfl

theorem lexPiece_colonlp (r : List Char) :
    lexRun ((" : (").data ++ r) =
      Option.map (fun ts => Tok.COLON :: Tok.LPAREN :: ts) (lexRun r) := by
  show lexRun (' ' :: ':' :: ' ' :: '(' :: r) = _
  rw [lexRun_ws _ (by decide),
    lexRun_colon,
    lexRun_ws _ (by decide),
    lexRun_lparen]
  cases lexRun r <;> rfl

theorem lexPiece_rparrowsp (r : List Char) :
    lexRun ((") -> ").data ++ r) =
      Option.map (fun ts => Tok.RPAREN :: Tok.ARROW :: ts) (lexRun r) := by
  show lexRun (')' :: ' ' :: '-' :: '>' :: ' ' :: r) = _
  rw [lexRun_rparen,
    lexRun_ws _ (by decide),
    lexRun_arrow,
    lexRun_ws _ (by decide)]
  cases lexRun r <;> rfl

theorem lexPiece_splcnl (r : List Char) :
    lexRun ((" \x7b\n").data ++ r) =
      Option.map (fun ts => Tok.LCURLY :: ts) (lexRun r) := by
  show lexRun (' ' :: '{' :: '\n' :: r) = _
  rw [lexRun_ws _ (by decide),
    lexRun_lcurly,
    lexRun_ws _ (by decide)]

theorem lexPiece_colonsp2 (r : List Char) :
    lexRun ((" : ").data ++ r) =
      Option.map (fun ts => Tok.COLON :: ts) (lexRun r) := by
  show lexRun (' ' :: ':' :: ' ' :: r) = _
  rw [lexRun_ws _ (by decide),
    lexRun_colon,
    lexRun_ws _ (by decide)]

theorem lexPiece_immutablesp (r : List Char) :
    lexRun (("immutable ").data ++ r) =
      Option.map (fun ts => Tok.IMMUTABLE :: ts) (lexRun r) := by
  show lexRun ('i' :: 'm' :: 'm' :: 'u' :: 't' :: 'a' :: 'b' :: 'l' :: 'e' :: ' ' :: r) = _
  rw [lexRun_kw_immutable _ (by rfl),
    lexRun_ws _ (by decide)]

theorem lexPiece_refsp (r : List Char) :
    lexRun (("& ").data ++ r) =
      Option.map (fun ts => Tok.REF :: ts) (lexRun r) := by
  show lexRun ('&' :: ' ' :: r) = _
  rw [lexRun_amp,
    lexRun_ws _ (by decide)]

theorem lexPiece_returnkw (r : List Char) (hr : headSafe r = true) :
    lexRun (("return").data ++ r) =
      Option.map (fun ts => Tok.RETURN :: ts) (lexRun r) := by
  show lexRun ('r' :: 'e' :: 't' :: 'u' :: 'r' :: 'n' :: r) = _
  rw [lexRun_kw_return _ hr]

theorem lexPiece_truekw (r : List Char) (hr : headSafe r = true) :
    lexRun (("true").data ++ r) =
      Option.map (fun ts => Tok.TRUE :: ts) (lexRun r) := by
  show lexRun ('t' :: 'r' :: 'u' :: 'e' :: r) = _
  rw [lexRun_kw_true _ hr]

theorem lexPiece_falsekw (r : List Char) (hr : headSafe r = true) :
    lexRun (("false").data ++ r) =
      Option.map (fun ts => Tok.FALSE :: ts) (lexRun r) := by
  show lexRun ('f' :: 'a' :: 'l' :: 's' :: 'e' :: r) = _
  rw [lexRun_kw_false _ hr]

theorem lexPiece_intkw (r : List Char) (hr : headSafe r = true) :
    lexRun (("int").data ++ r) =
      Option.map (fun ts => Tok.INT :: ts) (lexRun r) := by
  show lexRun ('i' :: 'n' :: 't' :: r) = _
  rw [lexRun_kw_int _ hr]

theorem lexPiece_boolkw (r : List Char) (hr : headSafe r = true) :
    lexRun (("bool").data ++ r) =
      Option.map (fun ts => Tok.BOOL :: ts) (lexRun r) := by
  show lexRun ('b' :: 'o' :: 'o' :: 'l' :: r) = _
  rw [lexRun_kw_bool _ hr]

theorem lexPiece_voidkw (r : List Char) (hr : headSafe r = true) :
    lexRun (("void").data ++ r) =
      Option.map (fun ts => Tok.VOID :: ts) (lexRun r) := by
  show lexRun ('v' :: 'o' :: 'i' :: 'd' :: r) = _
  rw [lexRun_kw_void _ hr]

theorem lexPiece_ehq (r : List Char) :
    lexRun (("eh?").data ++ r) =
      Option.map (fun ts => Tok.EH :: ts) (lexRun r) := by
  show lexRun ('e' :: 'h' :: '?' :: r) = _
  rw [lexRun_eh]


/-! ## Single-character scanner instances for the concrete inputs -/

theorem lexRun_nil : lexRun [] = some [] := by
  rw [lexRun.eq_def]

theorem lexRun_id_a (rest : List Char) (hrest : headSafe rest = true) :
    lexRun ('a' :: rest) = Option.map (fun ts => Tok.ID "a" :: ts) (lexRun rest) := by
  have h := @lexRun_identRun 'a' [] rest (by decide) (by decide) hrest
  rw [show keywordOrId (String.mk ['a']) = Tok.ID "a" from rfl] at h
  exact h

theorem lexRun_id_b (rest : List Char) (hrest : headSafe rest = true) :
    lexRun ('b' :: rest) = Option.map (fun ts => Tok.ID "b" :: ts) (lexRun rest) := by
  have h := @lexRun_identRun 'b' [] rest (by decide) (by decide) hrest
  rw [show keywordOrId (String.mk ['b']) = Tok.ID "b" from rfl] at h
  exact h

theorem lexRun_id_c (rest : List Char) (hrest : headSafe rest = true) :
    lexRun ('c' :: rest) = Option.map (fun ts => Tok.ID "c" :: ts) (lexRun rest) := by
  have h := @lexRun_identRun 'c' [] rest (by decide) (by decide) hrest
  rw [show keywordOrId (String.mk ['c']) = Tok.ID "c" from rfl] at h
  exact h

theorem lexRun_id_x (rest : List Char) (hrest : headSafe rest = true) :
    lexRun ('x' :: rest) = Option.map (fun ts => Tok.ID "x" :: ts) (lexRun rest) := by
  have h := @lexRun_identRun 'x' [] rest (by decide) (by decide) hrest
  rw [show keywordOrId (String.mk ['x']) = Tok.ID "x" from rfl] at h
  exact h

theorem lexRun_id_y (rest : List Char) (hrest : headSafe rest = true) :
    lexRun ('y' :: rest) = Option.map (fun ts => Tok.ID "y" :: ts) (lexRun rest) := by
  have h := @lexRun_identRun 'y' [] rest (by decide) (by decide) hrest
  rw [show keywordOrId (String.mk ['y']) = Tok.ID "y" from rfl] at h
  exact h

theorem lexRun_id_z (rest : List Char) (hrest : headSafe rest = true) :
    lexRun ('z' :: rest) = Option.map (fun ts => Tok.ID "z" :: ts) (lexRun rest) := by
  have h := @lexRun_identRun 'z' [] rest (by decide) (by decide) hrest
  rw [show keywordOrId (String.mk ['z']) = Tok.ID "z" from rfl] at h
  exact h

theorem natChars_2 : natChars 2 = ['2'] := by
  rw [natChars.eq_def]
  simp [digitChar]

theorem natChars_3 : natChars 3 = ['3'] := by
  rw [natChars.eq_def]
  simp [digitChar]

theorem natChars_4 : natChars 4 = ['4'] := by
  rw [natChars.eq_def]
  simp [digitChar]

theorem natChars_5 : natChars 5 = ['5'] := by
  rw [natChars.eq_def]
  simp [digitChar]

theorem lexRun_dig2 (rest : List Char) (hrest : headSafe rest = true) :
    lexRun ('2' :: rest) =
      Option.map (fun ts => Tok.INTLITERAL 2 :: ts) (lexRun rest) := by
  have h := lexRun_natRun 2 rest hrest
  rw [natChars_2] at h
  exact h

theorem lexRun_dig3 (rest : List Char) (hrest : headSafe rest = true) :
    lexRun ('3' :: rest) =
      Option.map (fun ts => Tok.INTLITERAL 3 :: ts) (lexRun rest) := by
  have h := lexRun_natRun 3 rest hrest
  rw [natChars_3] at h
  exact h

theorem lexRun_dig4 (rest : List Char) (hrest : headSafe rest = true) :
    lexRun ('4' :: rest) =
      Option.map (fun ts => Tok.INTLITERAL 4 :: ts) (lexRun rest) := by
  have h := lexRun_natRun 4 rest hrest
  rw [natChars_4] at h
  exact h

theorem lexRun_dig5 (rest : List Char) (hrest : headSafe rest = true) :
    lexRun ('5' :: rest) =
      Option.map (fun ts => Tok.INTLITERAL 5 :: ts) (lexRun rest) := by
  have h := lexRun_natRun 5 rest hrest
  rw [natChars_5] at h
  exact h

/-! ## Scanner results on the concrete spec inputs -/

theorem lex_x_colon_int : lex "x: int;" =
    some [Tok.ID "x", Tok.COLON, Tok.INT, Tok.SEMICOL] := by
  show lexRun ('x' :: ':' :: ' ' :: 'i' :: 'n' :: 't' :: ';' :: []) = _
  rw [lexRun_id_x _ (by decide), lexRun_colon, lexRun_ws _ (by decide),
    lexRun_kw_int _ (by decide), lexRun_semicol, lexRun_nil]
  rfl

theorem lex_x_colon_int_5 : lex "x: int = 5;" =
    some [Tok.ID "x", Tok.COLON, Tok.INT, Tok.ASSIGN,
      Tok.INTLITERAL 5, Tok.SEMICOL] := by
  show lexRun ('x' :: ':' :: ' ' :: 'i' :: 'n' :: 't' :: ' ' :: '=' :: ' ' ::
    '5' :: ';' :: []) = _
  rw [lexRun_id_x _ (by decide), lexRun_colon, lexRun_ws _ (by decide),
    lexRun_kw_int _ (by decide), lexRun_ws _ (by decide),
    lexRun_assign _ (by decide), lexRun_ws _ (by decide),
    lexRun_dig5 _ (by decide), lexRun_semicol, lexRun_nil]
  rfl

theorem lex_sum_prod : lex "2 + 3 * 4" =
    some [Tok.INTLITERAL 2, Tok.CROSS, Tok.INTLITERAL 3, Tok.STAR,
      Tok.INTLITERAL 4] := by
  show lexRun ('2' :: ' ' :: '+' :: ' ' :: '3' :: ' ' :: '*' :: ' ' ::
    '4' :: []) = _
  rw [lexRun_dig2 _ (by decide), lexRun_ws _ (by decide),
    lexRun_cross _ (by decide), lexRun_ws _ (by decide),
    lexRun_dig3 _ (by decide), lexRun_ws _ (by decide), lexRun_star,
    lexRun_ws _ (by decide), lexRun_dig4 _ (by decide), lexRun_nil]
  rfl

theorem lex_not_times : lex "!a * b" =
    some [Tok.NOT, Tok.ID "a", Tok.STAR, Tok.ID "b"] := by
  show lexRun ('!' :: 'a' :: ' ' :: '*' :: ' ' :: 'b' :: []) = _
  rw [lexRun_bang _ (by decide), lexRun_id_a _ (by decide),
    lexRun_ws _ (by decide), lexRun_star, lexRun_ws _ (by decide),
    lexRun_id_b _ (by decide), lexRun_nil]
  rfl

theorem lex_rel_chain : lex "a: bool = x < y < z;" =
    some [Tok.ID "a", Tok.COLON, Tok.BOOL, Tok.ASSIGN, Tok.ID "x",
      Tok.LESS, Tok.ID "y", Tok.LESS, Tok.ID "z", Tok.SEMICOL] := by
  show lexRun ('a' :: ':' :: ' ' :: 'b' :: 'o' :: 'o' :: 'l' :: ' ' :: '=' ::
    ' ' :: 'x' :: ' ' :: '<' :: ' ' :: 'y' :: ' ' :: '<' :: ' ' :: 'z' ::
    ';' :: []) = _
  rw [lexRun_id_a _ (by decide), lexRun_colon, lexRun_ws _ (by decide),
    lexRun_kw_bool _ (by decide), lexRun_ws _ (by decide),
    lexRun_assign _ (by decide), lexRun_ws _ (by decide),
    lexRun_id_x _ (by decide), lexRun_ws _ (by decide),
    lexRun_less _ (by decide), lexRun_ws _ (by decide),
    lexRun_id_y _ (by decide), lexRun_ws _ (by decide),
    lexRun_less _ (by decide), lexRun_ws _ (by decide),
    lexRun_id_z _ (by decide), lexRun_semicol, lexRun_nil]
  rfl

/-! ## Claim theorems C2, C3, C4 -/

/-- C2: under the declared precedence table multiplication binds tighter
than addition and logical not binds tighter than multiplication: for all
identifier operands `a + b * c` parses as `Plus a (Times b c)` and
`!a * b` as `Times (Not a) b`; concretely `"2 + 3 * 4"` yields
`Plus (IntLit 2) (Times (IntLit 3) (IntLit 4))`. -/
theorem C2_operator_precedence :
    (∀ a b c : String,
        parseExpToks [.ID a, .CROSS, .ID b, .STAR, .ID c] =
          .ok (.Plus (.LocE (.IDNode a))
            (.Times (.LocE (.IDNode b)) (.LocE (.IDNode c))), [])) ∧
    (∀ a b : String,
        parseExpToks [.NOT, .ID a, .STAR, .ID b] =
          .ok (.Times (.Not (.LocE (.IDNode a))) (.LocE (.IDNode b)), [])) ∧
    parseExpString "2 + 3 * 4" =
      .ok (.Plus (.IntLit 2) (.Times (.IntLit 3) (.IntLit 4)), []) ∧
    parseExpString "!a * b" =
      .ok (.Times (.Not (.LocE (.IDNode "a"))) (.LocE (.IDNode "b")), []) := by
  refine ⟨fun a b c => ?_, fun a b => ?_, ?_, ?_⟩
  · simp [parseExpToks, fuelFor, parseOr, parseOrRest, parseAnd, parseAndRest,
      parseRel, parseAdd, parseAddRest, parseMul, parseMulRest, parseUnary,
      parseTerm, parseLocTail, relTok, mkRel]
  · simp [parseExpToks, fuelFor, parseOr, parseOrRest, parseAnd, parseAndRest,
      parseRel, parseAdd, parseAddRest, parseMul, parseMulRest, parseUnary,
      parseTerm, parseLocTail, relTok, mkRel]
  · simp [parseExpString, lex_sum_prod, fuelFor, parseOr, parseOrRest,
      parseAnd, parseAndRest, parseRel, parseAdd, parseAddRest, parseMul,
      parseMulRest, parseUnary, parseTerm, parseLocTail, relTok, mkRel]
  · simp [parseExpString, lex_not_times, fuelFor, parseOr, parseOrRest,
      parseAnd, parseAndRest, parseRel, parseAdd, parseAddRest, parseMul,
      parseMulRest, parseUnary, parseTerm, parseLocTail, relTok, mkRel]

/-- C3: the relational and equality operators are nonassociative; any
chain of two of them in sequence is rejected with a syntax error, both at
the token level for all six-by-six operator pairs and for the concrete
program `"a: bool = x < y < z;"`. -/
theorem C3_nonassoc_relational_chain :
    (∀ (t1 t2 : Tok) (a b c : String), relTok t1 = true → relTok t2 = true →
        parseExpToks [.ID a, t1, .ID b, t2, .ID c] =
          .error (.unexpected (some t2) "nonassociative operator chain")) ∧
    parseProgram "a: bool = x < y < z;" =
      .error (.unexpected (some .LESS) "nonassociative operator chain") := by
  have hshape : ∀ t : Tok, relTok t = true →
      t = .LESS ∨ t = .LESSEQ ∨ t = .GREATER ∨ t = .GREATEREQ ∨
      t = .EQUALS ∨ t = .NOTEQUALS := by
    intro t h
    cases t <;> simp_all [relTok]
  constructor
  · intro t1 t2 a b c h1 h2
    rcases hshape t1 h1 with rfl | rfl | rfl | rfl | rfl | rfl <;>
      rcases hshape t2 h2 with rfl | rfl | rfl | rfl | rfl | rfl <;>
      simp [parseExpToks, fuelFor, parseOr, parseOrRest, parseAnd,
        parseAndRest, parseRel, parseAdd, parseAddRest, parseMul,
        parseMulRest, parseUnary, parseTerm, parseLocTail, relTok, mkRel]
  · simp [parseProgram, lex_rel_chain, fuelFor, parseGlobals, parseDecl,
      parseType, parseData, parsePrimOrName, parseOr, parseOrRest, parseAnd,
      parseAndRest, parseRel, parseAdd, parseAddRest, parseMul, parseMulRest,
      parseUnary, parseTerm, parseLocTail, relTok, mkRel]

/-- C3 witness: the token-level part applied at the LESS/LESS pair with
concrete identifier operands. -/
theorem C3_nonassoc_relational_chain_witness :
    relTok .LESS = true ∧
    parseExpToks [.ID "a", .LESS, .ID "b", .LESS, .ID "c"] =
      .error (.unexpected (some .LESS) "nonassociative operator chain") :=
  ⟨rfl, C3_nonassoc_relational_chain.1 .LESS .LESS "a" "b" "c" rfl rfl⟩

/-- C4: the declaration initializer is optional: `"x: int;"` parses to a
VarDecl with no initializer and `"x: int = 5;"` to a VarDecl whose
initializer is `IntLit 5`. -/
theorem C4_optional_initializer :
    parseProgram "x: int;" = .ok [.VarDecl "x" .IntType none] ∧
    parseProgram "x: int = 5;" =
      .ok [.VarDecl "x" .IntType (some (.IntLit 5))] := by
  constructor
  · simp [parseProgram, lex_x_colon_int, fuelFor, parseGlobals, parseDecl,
      parseType, parseData, parsePrimOrName]
  · simp [parseProgram, lex_x_colon_int_5, fuelFor, parseGlobals, parseDecl,
      parseType, parseData, parsePrimOrName, parseOr, parseOrRest, parseAnd,
      parseAndRest, parseRel, parseAdd, parseAddRest, parseMul, parseMulRest,
      parseUnary, parseTerm, parseLocTail, relTok, mkRel]


theorem lex_x_colon_int_nl : lex "x: int;\n" =
    some [Tok.ID "x", Tok.COLON, Tok.INT, Tok.SEMICOL] := by
  show lexRun ('x' :: ':' :: ' ' :: 'i' :: 'n' :: 't' :: ';' :: '\n' :: []) = _
  rw [lexRun_id_x _ (by decide), lexRun_colon, lexRun_ws _ (by decide),
    lexRun_kw_int _ (by decide), lexRun_semicol, lexRun_ws _ (by decide),
    lexRun_nil]
  rfl

theorem unparse_x_int_5 :
    unparseProgram [.VarDecl "x" .IntType (some (.IntLit 5))] = "x: int;\n" := by
  rfl

/-- C1 counterexample: the initializer of a variable declaration is parsed
but never rendered, so the round trip loses it: `"x: int = 5;"` parses to
a VarDecl with initializer `IntLit 5`, its rendering re-parses to a
VarDecl with no initializer, and the two trees differ. -/
theorem C1_roundtrip_counterexample :
    parseProgram "x: int = 5;" =
      .ok [.VarDecl "x" .IntType (some (.IntLit 5))] ∧
    parseProgram
        (unparseProgram [.VarDecl "x" .IntType (some (.IntLit 5))]) =
      .ok [.VarDecl "x" .IntType none] ∧
    Decl.VarDecl "x" .IntType none ≠
      .VarDecl "x" .IntType (some (.IntLit 5)) := by
  refine ⟨?_, ?_, by simp⟩
  · simp [parseProgram, lex_x_colon_int_5, fuelFor, parseGlobals, parseDecl,
      parseType, parseData, parsePrimOrName, parseOr, parseOrRest, parseAnd,
      parseAndRest, parseRel, parseAdd, parseAddRest, parseMul, parseMulRest,
      parseUnary, parseTerm, parseLocTail, relTok, mkRel]
  · rw [unparse_x_int_5]
    simp [parseProgram, lex_x_colon_int_nl, fuelFor, parseGlobals, parseDecl,
      parseType, parseData, parsePrimOrName]


theorem doIndent_zero : doIndent 0 = "" := rfl

theorem lexPiece_sp (r : List Char) : lexRun ((" ").data ++ r) = lexRun r := by
  show lexRun (' ' :: r) = _
  rw [lexRun_ws _ (by decide)]

theorem wfPrim_wfData {t : Ty} (h : wfPrimOrName t = true) : wfData t = true := by
  cases t <;> simp_all [wfData, wfPrimOrName]

theorem wfData_wfTy {t : Ty} (h : wfData t = true) : wfTy t = true := by
  cases t <;> simp_all [wfTy, wfData, wfPrimOrName]

theorem fieldsToks_append (fs gs : List String) :
    fieldsToks (fs ++ gs) = fieldsToks fs ++ fieldsToks gs := by
  induction fs <;> simp_all [fieldsToks]

theorem graftLoc_append (fs gs : List String) : ∀ base,
    graftLoc base (fs ++ gs) = graftLoc (graftLoc base fs) gs := by
  induction fs <;> simp_all [graftLoc]

theorem tokLoc_spine (l : Loc) :
    tokLoc l = .ID (locRoot l) :: fieldsToks (locFields l) := by
  induction l with
  | IDNode n => rfl
  | Member b f ih =>
      simp [tokLoc, locRoot, locFields, fieldsToks_append, fieldsToks, ih]

theorem graftLoc_spine (l : Loc) :
    graftLoc (.IDNode (locRoot l)) (locFields l) = l := by
  induction l with
  | IDNode n => rfl
  | Member b f ih => simp [locRoot, locFields, graftLoc_append, graftLoc, ih]

theorem parseLocTail_spine (fs : List String) : ∀ (base : Loc)
    (rest : List Tok), rest.head? ≠ some .ARROW →
    parseLocTail base (fieldsToks fs ++ rest) = (graftLoc base fs, rest) := by
  induction fs with
  | nil =>
      intro base rest h
      cases rest with
      | nil => rfl
      | cons t r => cases t <;> simp_all [parseLocTail, graftLoc, fieldsToks]
  | cons f fs ih =>
      intro base rest h
      show parseLocTail base (.ARROW :: .ID f :: (fieldsToks fs ++ rest)) = _
      rw [show parseLocTail base (.ARROW :: .ID f :: (fieldsToks fs ++ rest)) =
        parseLocTail (.Member base f) (fieldsToks fs ++ rest) from rfl]
      exact ih (.Member base f) rest h

/-- The catch-all arm of `unparseNested` / `tokNested` for the sixteen
non-literal expression shapes. -/
theorem nested_comp (e : Exp) (he : isLitExp e = false) :
    unparseNested e = "(" ++ unparseExp e 0 ++ ")" ∧
    tokNested e = .LPAREN :: (tokExp e ++ [.RPAREN]) := by
  cases e <;> simp_all [isLitExp, unparseNested, tokNested]

/-- The first character of a nested rendering is never part of a preceding
two-character operator: the DASH and NOT emitted before it lex alone. -/
theorem nested_head (e : Exp) (hwf : wfExp e = true) :
    ∃ c cs, (unparseNested e).data = c :: cs ∧
      c ≠ '>' ∧ c ≠ '-' ∧ c ≠ '=' := by
  by_cases hl : isLitExp e
  · cases e with
    | LocE l => exact absurd hl (by simp [isLitExp])
    | CallExp l args => exact absurd hl (by simp [isLitExp])
    | Plus e1 e2 => exact absurd hl (by simp [isLitExp])
    | Minus e1 e2 => exact absurd hl (by simp [isLitExp])
    | Times e1 e2 => exact absurd hl (by simp [isLitExp])
    | Divide e1 e2 => exact absurd hl (by simp [isLitExp])
    | And e1 e2 => exact absurd hl (by simp [isLitExp])
    | Or e1 e2 => exact absurd hl (by simp [isLitExp])
    | Equals e1 e2 => exact absurd hl (by simp [isLitExp])
    | NotEquals e1 e2 => exact absurd hl (by simp [isLitExp])
    | Less e1 e2 => exact absurd hl (by simp [isLitExp])
    | LessEq e1 e2 => exact absurd hl (by simp [isLitExp])
    | Greater e1 e2 => exact absurd hl (by simp [isLitExp])
    | GreaterEq e1 e2 => exact absurd hl (by simp [isLitExp])
    | Neg e1 => exact absurd hl (by simp [isLitExp])
    | Not e1 => exact absurd hl (by simp [isLitExp])
    | IntLit n =>
        obtain ⟨c, cs, hc⟩ : ∃ c cs, natChars n = c :: cs := by
          cases h : natChars n with
          | nil => exact absurd h (natChars_ne_nil n)
          | cons c cs => exact ⟨c, cs, rfl⟩
        have hdig : isDigitC c = true := by
          have h2 := natChars_digits n
          rw [hc] at h2
          simp [List.all_cons] at h2
          exact h2.1
        refine ⟨c, cs, ?_, ?_, ?_, ?_⟩
        · simp only [unparseNested, unparseExp, doIndent_zero]
          show (("" : String) ++ String.mk (natChars n)).data = c :: cs
          rw [String.data_append]
          show [] ++ natChars n = c :: cs
          rw [List.nil_append]
          exact hc
        · intro h
          subst h
          simp [isDigitC] at hdig
        · intro h
          subst h
          simp [isDigitC] at hdig
        · intro h
          subst h
          simp [isDigitC] at hdig
    | StrLit s =>
        have hs : wfStr s = true := by simpa [wfExp] using hwf
        unfold wfStr at hs
        split at hs
        · cases hs
        · rename_i c cs hd
          simp only [Bool.and_eq_true] at hs
          have hq : c = '"' := by simpa using hs.1.1
          refine ⟨'"', cs, ?_, by decide, by decide, by decide⟩
          simp only [unparseNested, unparseExp, doIndent_zero]
          show (("" : String) ++ s).data = '"' :: cs
          rw [String.data_append]
          show [] ++ s.data = '"' :: cs
          rw [List.nil_append, hd, hq]
    | TrueLit =>
        refine ⟨'t', ['r', 'u', 'e'], ?_, by decide, by decide, by decide⟩
        simp only [unparseNested, unparseExp, doIndent_zero]
        rfl
    | FalseLit =>
        refine ⟨'f', ['a', 'l', 's', 'e'], ?_, by decide, by decide, by decide⟩
        simp only [unparseNested, unparseExp, doIndent_zero]
        rfl
    | EhLit =>
        refine ⟨'e', ['h', '?'], ?_, by decide, by decide, by decide⟩
        simp only [unparseNested, unparseExp, doIndent_zero]
        rfl
  · refine ⟨'(', (unparseExp e 0).data ++ [')'], ?_, by decide, by decide,
      by decide⟩
    rw [(nested_comp e (by simpa using hl)).1]
    show (("(" ++ unparseExp e 0 ++ ")")).data = _
    rw [String.data_append, String.data_append]
    show ['('] ++ ((unparseExp e 0).data ++ [')']) =
      '(' :: ((unparseExp e 0).data ++ [')'])
    simp


theorem data_empty : ("" : String).data = [] := rfl

/-- Scanning a rendered type produces its token image. -/
theorem lexTy (t : Ty) (h : wfTy t = true) : ∀ (rest : List Char),
    headSafe rest = true →
    lexRun ((unparseTy t 0).data ++ rest) =
      Option.map (fun ts => tokTy t ++ ts) (lexRun rest) := by
  induction t with
  | IntType =>
      intro rest hrest
      rw [show (unparseTy .IntType 0).data = ("int").data from rfl,
        lexPiece_intkw rest hrest]
      cases lexRun rest <;> rfl
  | BoolType =>
      intro rest hrest
      rw [show (unparseTy .BoolType 0).data = ("bool").data from rfl,
        lexPiece_boolkw rest hrest]
      cases lexRun rest <;> rfl
  | VoidType =>
      intro rest hrest
      rw [show (unparseTy .VoidType 0).data = ("void").data from rfl,
        lexPiece_voidkw rest hrest]
      cases lexRun rest <;> rfl
  | ClassType n =>
      intro rest hrest
      have hn : wfIdent n = true := by
        simpa [wfTy, wfData, wfPrimOrName] using h
      rw [show (unparseTy (.ClassType n) 0).data = n.data from by
        simp [unparseTy, doIndent_zero, data_empty, String.data_append],
        lexRun_ident n rest hn hrest]
      cases lexRun rest <;> rfl
  | ImmutableType s ih =>
      intro rest hrest
      have hs : wfTy s = true := wfData_wfTy (by simpa [wfTy] using h)
      have hstep : (unparseTy (.ImmutableType s) 0).data ++ rest =
          ("immutable ").data ++ ((unparseTy s 0).data ++ rest) := by
        simp [unparseTy, doIndent_zero, data_empty, String.data_append]
      rw [hstep, lexPiece_immutablesp, ih hs rest hrest]
      cases lexRun rest <;> simp [tokTy]
  | RefType s ih =>
      intro rest hrest
      have hs : wfTy s = true := wfData_wfTy (wfPrim_wfData (by
        simpa [wfTy, wfData] using h))
      have hstep : (unparseTy (.RefType s) 0).data ++ rest =
          ("& ").data ++ ((unparseTy s 0).data ++ rest) := by
        simp [unparseTy, doIndent_zero, data_empty, String.data_append]
      rw [hstep, lexPiece_refsp, ih hs rest hrest]
      cases lexRun rest <;> simp [tokTy]

/-- Scanning a rendered location produces its token image. -/
theorem lexLoc (l : Loc) (h : wfLoc l = true) : ∀ (rest : List Char),
    headSafe rest = true →
    lexRun ((unparseLoc l).data ++ rest) =
      Option.map (fun ts => tokLoc l ++ ts) (lexRun rest) := by
  induction l with
  | IDNode n =>
      intro rest hrest
      have hn : wfIdent n = true := by simpa [wfLoc] using h
      rw [show (unparseLoc (.IDNode n)).data = n.data from rfl,
        lexRun_ident n rest hn hrest]
      cases lexRun rest <;> rfl
  | Member b f ihb =>
      intro rest hrest
      obtain ⟨hb, hf⟩ : wfLoc b = true ∧ wfIdent f = true := by
        simpa [wfLoc] using h
      have hstep : (unparseLoc (.Member b f)).data ++ rest =
          (unparseLoc b).data ++ (("->").data ++ (f.data ++ rest)) := by
        simp [unparseLoc, String.data_append]
      rw [hstep, ihb hb _ (by rfl), lexPiece_arrowp,
        lexRun_ident f rest hf hrest]
      cases lexRun rest <;> simp [tokLoc]


theorem data_smk (l : List Char) : (String.mk l).data = l := rfl

theorem sizeLoc_pos (l : Loc) : 1 ≤ sizeLoc l := by
  cases l <;> simp [sizeLoc]

theorem sizeExp_pos (e : Exp) : 1 ≤ sizeExp e := by
  cases e <;> simp [sizeExp]
  exact sizeLoc_pos _

theorem sizeArgs_pos (args : List Exp) : 1 ≤ sizeArgs args := by
  cases args <;> simp [sizeArgs]

/-- Scanning any rendered expression (top-level, nested-operand, or
argument-list form) produces its token image, by strong induction on the
node count. -/
theorem lexExpAll : ∀ N : Nat,
    (∀ e, sizeExp e ≤ N → wfExp e = true → ∀ rest, headSafe rest = true →
      lexRun ((unparseExp e 0).data ++ rest) =
        Option.map (fun ts => tokExp e ++ ts) (lexRun rest)) ∧
    (∀ e, sizeExp e ≤ N → wfExp e = true → ∀ rest, headSafe rest = true →
      lexRun ((unparseNested e).data ++ rest) =
        Option.map (fun ts => tokNested e ++ ts) (lexRun rest)) ∧
    (∀ args, sizeArgs args ≤ N → wfArgs args = true → ∀ rest,
      headSafe rest = true →
      lexRun ((unparseArgs args).data ++ rest) =
        Option.map (fun ts => tokArgs args ++ ts) (lexRun rest)) := by
  intro N
  induction N using Nat.strong_induction_on with
  | _ N ih =>
    have hExp : ∀ e, sizeExp e ≤ N → wfExp e = true → ∀ rest,
        headSafe rest = true →
        lexRun ((unparseExp e 0).data ++ rest) =
          Option.map (fun ts => tokExp e ++ ts) (lexRun rest) := by
      intro e hsz hwf rest hrest
      cases e with
      | LocE l =>
          have hl : wfLoc l = true := by simpa [wfExp] using hwf
          rw [show (unparseExp (.LocE l) 0).data = (unparseLoc l).data from by
            simp [unparseExp]]
          rw [lexLoc l hl rest hrest]
          cases lexRun rest <;> simp [tokExp]
      | IntLit n =>
          rw [show (unparseExp (.IntLit n) 0).data = natChars n from by
            simp [unparseExp, doIndent_zero, data_empty, data_smk,
              String.data_append]]
          rw [lexRun_natRun n rest hrest]
          cases lexRun rest <;> simp [tokExp]
      | StrLit s =>
          have hs : wfStr s = true := by simpa [wfExp] using hwf
          rw [show (unparseExp (.StrLit s) 0).data = s.data from by
            simp [unparseExp, doIndent_zero, data_empty, String.data_append]]
          rw [lexRun_str s rest hs]
          cases lexRun rest <;> simp [tokExp]
      | TrueLit =>
          rw [show (unparseExp .TrueLit 0).data = ("true").data from by
            simp [unparseExp, doIndent_zero, data_empty, String.data_append]]
          rw [lexPiece_truekw rest hrest]
          cases lexRun rest <;> simp [tokExp]
      | FalseLit =>
          rw [show (unparseExp .FalseLit 0).data = ("false").data from by
            simp [unparseExp, doIndent_zero, data_empty, String.data_append]]
          rw [lexPiece_falsekw rest hrest]
          cases lexRun rest <;> simp [tokExp]
      | EhLit =>
          rw [show (unparseExp .EhLit 0).data = ("eh?").data from by
            simp [unparseExp, doIndent_zero, data_empty, String.data_append]]
          rw [lexPiece_ehq]
          cases lexRun rest <;> simp [tokExp]
      | CallExp l args =>
          obtain ⟨hl, ha⟩ : wfLoc l = true ∧ wfArgs args = true := by
            simpa [wfExp] using hwf
          have hA := (ih (sizeArgs args) (by
            have := sizeLoc_pos l
            simp [sizeExp] at hsz
            omega)).2.2 args (le_refl _) ha
          have hstep : (unparseExp (.CallExp l args) 0).data ++ rest =
              (unparseLoc l).data ++ (("(").data ++
                ((unparseArgs args).data ++ ((")").data ++ rest))) := by
            simp [unparseExp, doIndent_zero, data_empty, String.data_append]
          rw [hstep, lexLoc l hl _ (by rfl), lexPiece_lp, hA _ (by rfl),
            lexPiece_rp]
          cases lexRun rest <;> simp [tokExp]
      | Plus e1 e2 =>
          obtain ⟨h1, h2⟩ : wfExp e1 = true ∧ wfExp e2 = true := by
            simpa [wfExp] using hwf
          have hN1 := (ih (sizeExp e1) (by simp [sizeExp] at hsz; omega)).2.1
            e1 (le_refl _) h1
          have hN2 := (ih (sizeExp e2) (by
            have := sizeExp_pos e1
            simp [sizeExp] at hsz
            omega)).2.1 e2 (le_refl _) h2
          have hstep : (unparseExp (.Plus e1 e2) 0).data ++ rest =
              (unparseNested e1).data ++ ((" + ").data ++
                ((unparseNested e2).data ++ rest)) := by
            simp [unparseExp, doIndent_zero, data_empty, String.data_append]
          rw [hstep, hN1 _ (by rfl), lexPiece_plus, hN2 rest hrest]
          cases lexRun rest <;> simp [tokExp]
      | Minus e1 e2 =>
          obtain ⟨h1, h2⟩ : wfExp e1 = true ∧ wfExp e2 = true := by
            simpa [wfExp] using hwf
          have hN1 := (ih (sizeExp e1) (by simp [sizeExp] at hsz; omega)).2.1
            e1 (le_refl _) h1
          have hN2 := (ih (sizeExp e2) (by
            have := sizeExp_pos e1
            simp [sizeExp] at hsz
            omega)).2.1 e2 (le_refl _) h2
          have hstep : (unparseExp (.Minus e1 e2) 0).data ++ rest =
              (unparseNested e1).data ++ ((" - ").data ++
                ((unparseNested e2).data ++ rest)) := by
            simp [unparseExp, doIndent_zero, data_empty, String.data_append]
          rw [hstep, hN1 _ (by rfl), lexPiece_minus, hN2 rest hrest]
          cases lexRun rest <;> simp [tokExp]
      | Times e1 e2 =>
          obtain ⟨h1, h2⟩ : wfExp e1 = true ∧ wfExp e2 = true := by
            simpa [wfExp] using hwf
          have hN1 := (ih (sizeExp e1) (by simp [sizeExp] at hsz; omega)).2.1
            e1 (le_refl _) h1
          have hN2 := (ih (sizeExp e2) (by
            have := sizeExp_pos e1
            simp [sizeExp] at hsz
            omega)).2.1 e2 (le_refl _) h2
          have hstep : (unparseExp (.Times e1 e2) 0).data ++ rest =
              (unparseNested e1).data ++ ((" * ").data ++
                ((unparseNested e2).data ++ rest)) := by
            simp [unparseExp, doIndent_zero, data_empty, String.data_append]
          rw [hstep, hN1 _ (by rfl), lexPiece_times, hN2 rest hrest]
          cases lexRun rest <;> simp [tokExp]
      | Divide e1 e2 =>
          obtain ⟨h1, h2⟩ : wfExp e1 = true ∧ wfExp e2 = true := by
            simpa [wfExp] using hwf
          have hN1 := (ih (sizeExp e1) (by simp [sizeExp] at hsz; omega)).2.1
            e1 (le_refl _) h1
          have hN2 := (ih (sizeExp e2) (by
            have := sizeExp_pos e1
            simp [sizeExp] at hsz
            omega)).2.1 e2 (le_refl _) h2
          have hstep : (unparseExp (.Divide e1 e2) 0).data ++ rest =
              (unparseNested e1).data ++ ((" / ").data ++
                ((unparseNested e2).data ++ rest)) := by
            simp [unparseExp, doIndent_zero, data_empty, String.data_append]
          rw [hstep, hN1 _ (by rfl), lexPiece_divide, hN2 rest hrest]
          cases lexRun rest <;> simp [tokExp]
      | And e1 e2 =>
          obtain ⟨h1, h2⟩ : wfExp e1 = true ∧ wfExp e2 = true := by
            simpa [wfExp] using hwf
          have hN1 := (ih (sizeExp e1) (by simp [sizeExp] at hsz; omega)).2.1
            e1 (le_refl _) h1
          have hN2 := (ih (sizeExp e2) (by
            have := sizeExp_pos e1
            simp [sizeExp] at hsz
            omega)).2.1 e2 (le_refl _) h2
          have hstep : (unparseExp (.And e1 e2) 0).data ++ rest =
              (unparseNested e1).data ++ ((" and ").data ++
                ((unparseNested e2).data ++ rest)) := by
            simp [unparseExp, doIndent_zero, data_empty, String.data_append]
          rw [hstep, hN1 _ (by rfl), lexPiece_andop, hN2 rest hrest]
          cases lexRun rest <;> simp [tokExp]
      | Or e1 e2 =>
          obtain ⟨h1, h2⟩ : wfExp e1 = true ∧ wfExp e2 = true := by
            simpa [wfExp] using hwf
          have hN1 := (ih (sizeExp e1) (by simp [sizeExp] at hsz; omega)).2.1
            e1 (le_refl _) h1
          have hN2 := (ih (sizeExp e2) (by
            have := sizeExp_pos e1
            simp [sizeExp] at hsz
            omega)).2.1 e2 (le_refl _) h2
          have hstep : (unparseExp (.Or e1 e2) 0).data ++ rest =
              (unparseNested e1).data ++ ((" or ").data ++
                ((unparseNested e2).data ++ rest)) := by
            simp [unparseExp, doIndent_zero, data_empty, String.data_append]
          rw [hstep, hN1 _ (by rfl), lexPiece_orop, hN2 rest hrest]
          cases lexRun rest <;> simp [tokExp]
      | Equals e1 e2 =>
          obtain ⟨h1, h2⟩ : wfExp e1 = true ∧ wfExp e2 = true := by
            simpa [wfExp] using hwf
          have hN1 := (ih (sizeExp e1) (by simp [sizeExp] at hsz; omega)).2.1
            e1 (le_refl _) h1
          have hN2 := (ih (sizeExp e2) (by
            have := sizeExp_pos e1
            simp [sizeExp] at hsz
            omega)).2.1 e2 (le_refl _) h2
          have hstep : (unparseExp (.Equals e1 e2) 0).data ++ rest =
              (unparseNested e1).data ++ ((" == ").data ++
                ((unparseNested e2).data ++ rest)) := by
            simp [unparseExp, doIndent_zero, data_empty, String.data_append]
          rw [hstep, hN1 _ (by rfl), lexPiece_eqop, hN2 rest hrest]
          cases lexRun rest <;> simp [tokExp]
      | NotEquals e1 e2 =>
          obtain ⟨h1, h2⟩ : wfExp e1 = true ∧ wfExp e2 = true := by
            simpa [wfExp] using hwf
          have hN1 := (ih (sizeExp e1) (by simp [sizeExp] at hsz; omega)).2.1
            e1 (le_refl _) h1
          have hN2 := (ih (sizeExp e2) (by
            have := sizeExp_pos e1
            simp [sizeExp] at hsz
            omega)).2.1 e2 (le_refl _) h2
          have hstep : (unparseExp (.NotEquals e1 e2) 0).data ++ rest =
              (unparseNested e1).data ++ ((" != ").data ++
                ((unparseNested e2).data ++ rest)) := by
            simp [unparseExp, doIndent_zero, data_empty, String.data_append]
          rw [hstep, hN1 _ (by rfl), lexPiece_neqop, hN2 rest hrest]
          cases lexRun rest <;> simp [tokExp]
      | Less e1 e2 =>
          obtain ⟨h1, h2⟩ : wfExp e1 = true ∧ wfExp e2 = true := by
            simpa [wfExp] using hwf
          have hN1 := (ih (sizeExp e1) (by simp [sizeExp] at hsz; omega)).2.1
            e1 (le_refl _) h1
          have hN2 := (ih (sizeExp e2) (by
            have := sizeExp_pos e1
            simp [sizeExp] at hsz
            omega)).2.1 e2 (le_refl _) h2
          have hstep : (unparseExp (.Less e1 e2) 0).data ++ rest =
              (unparseNested e1).data ++ ((" < ").data ++
                ((unparseNested e2).data ++ rest)) := by
            simp [unparseExp, doIndent_zero, data_empty, String.data_append]
          rw [hstep, hN1 _ (by rfl), lexPiece_ltop, hN2 rest hrest]
          cases lexRun rest <;> simp [tokExp]
      | LessEq e1 e2 =>
          obtain ⟨h1, h2⟩ : wfExp e1 = true ∧ wfExp e2 = true := by
            simpa [wfExp] using hwf
          have hN1 := (ih (sizeExp e1) (by simp [sizeExp] at hsz; omega)).2.1
            e1 (le_refl _) h1
          have hN2 := (ih (sizeExp e2) (by
            have := sizeExp_pos e1
            simp [sizeExp] at hsz
            omega)).2.1 e2 (le_refl _) h2
          have hstep : (unparseExp (.LessEq e1 e2) 0).data ++ rest =
              (unparseNested e1).data ++ ((" <= ").data ++
                ((unparseNested e2).data ++ rest)) := by
            simp [unparseExp, doIndent_zero, data_empty, String.data_append]
          rw [hstep, hN1 _ (by rfl), lexPiece_leop, hN2 rest hrest]
          cases lexRun rest <;> simp [tokExp]
      | Greater e1 e2 =>
          obtain ⟨h1, h2⟩ : wfExp e1 = true ∧ wfExp e2 = true := by
            simpa [wfExp] using hwf
          have hN1 := (ih (sizeExp e1) (by simp [sizeExp] at hsz; omega)).2.1
            e1 (le_refl _) h1
          have hN2 := (ih (sizeExp e2) (by
            have := sizeExp_pos e1
            simp [sizeExp] at hsz
            omega)).2.1 e2 (le_refl _) h2
          have hstep : (unparseExp (.Greater e1 e2) 0).data ++ rest =
              (unparseNested e1).data ++ ((" > ").data ++
                ((unparseNested e2).data ++ rest)) := by
            simp [unparseExp, doIndent_zero, data_empty, String.data_append]
          rw [hstep, hN1 _ (by rfl), lexPiece_gtop, hN2 rest hrest]
          cases lexRun rest <;> simp [tokExp]
      | GreaterEq e1 e2 =>
          obtain ⟨h1, h2⟩ : wfExp e1 = true ∧ wfExp e2 = true := by
            simpa [wfExp] using hwf
          have hN1 := (ih (sizeExp e1) (by simp [sizeExp] at hsz; omega)).2.1
            e1 (le_refl _) h1
          have hN2 := (ih (sizeExp e2) (by
            have := sizeExp_pos e1
            simp [sizeExp] at hsz
            omega)).2.1 e2 (le_refl _) h2
          have hstep : (unparseExp (.GreaterEq e1 e2) 0).data ++ rest =
              (unparseNested e1).data ++ ((" >= ").data ++
                ((unparseNested e2).data ++ rest)) := by
            simp [unparseExp, doIndent_zero, data_empty, String.data_append]
          rw [hstep, hN1 _ (by rfl), lexPiece_geop, hN2 rest hrest]
          cases lexRun rest <;> simp [tokExp]
      | Neg e1 =>
          have h1 : wfExp e1 = true := by simpa [wfExp] using hwf
          have hN1 := (ih (sizeExp e1) (by simp [sizeExp] at hsz; omega)).2.1
            e1 (le_refl _) h1
          obtain ⟨c, cs, hd, hgt, hdash, heq⟩ := nested_head e1 h1
          have hstep : (unparseExp (.Neg e1) 0).data ++ rest =
              ("-").data ++ ((unparseNested e1).data ++ rest) := by
            simp [unparseExp, doIndent_zero, data_empty, String.data_append]
          rw [hstep, show ("-").data ++ ((unparseNested e1).data ++ rest) =
            '-' :: ((unparseNested e1).data ++ rest) from rfl]
          rw [lexRun_dash _ (by rw [hd]; simpa using hgt)
            (by rw [hd]; simpa using hdash)]
          rw [hN1 rest hrest]
          cases lexRun rest <;> simp [tokExp]
      | Not e1 =>
          have h1 : wfExp e1 = true := by simpa [wfExp] using hwf
          have hN1 := (ih (sizeExp e1) (by simp [sizeExp] at hsz; omega)).2.1
            e1 (le_refl _) h1
          obtain ⟨c, cs, hd, hgt, hdash, heq⟩ := nested_head e1 h1
          have hstep : (unparseExp (.Not e1) 0).data ++ rest =
              ("!").data ++ ((unparseNested e1).data ++ rest) := by
            simp [unparseExp, doIndent_zero, data_empty, String.data_append]
          rw [hstep, show ("!").data ++ ((unparseNested e1).data ++ rest) =
            '!' :: ((unparseNested e1).data ++ rest) from rfl]
          rw [lexRun_bang _ (by rw [hd]; simpa using heq)]
          rw [hN1 rest hrest]
          cases lexRun rest <;> simp [tokExp]
    refine ⟨hExp, ?_, ?_⟩
    · intro e hsz hwf rest hrest
      by_cases hl : isLitExp e
      · cases e with
        | LocE l => exact absurd hl (by simp [isLitExp])
        | CallExp l args => exact absurd hl (by simp [isLitExp])
        | Plus e1 e2 => exact absurd hl (by simp [isLitExp])
        | Minus e1 e2 => exact absurd hl (by simp [isLitExp])
        | Times e1 e2 => exact absurd hl (by simp [isLitExp])
        | Divide e1 e2 => exact absurd hl (by simp [isLitExp])
        | And e1 e2 => exact absurd hl (by simp [isLitExp])
        | Or e1 e2 => exact absurd hl (by simp [isLitExp])
        | Equals e1 e2 => exact absurd hl (by simp [isLitExp])
        | NotEquals e1 e2 => exact absurd hl (by simp [isLitExp])
        | Less e1 e2 => exact absurd hl (by simp [isLitExp])
        | LessEq e1 e2 => exact absurd hl (by simp [isLitExp])
        | Greater e1 e2 => exact absurd hl (by simp [isLitExp])
        | GreaterEq e1 e2 => exact absurd hl (by simp [isLitExp])
        | Neg e1 => exact absurd hl (by simp [isLitExp])
        | Not e1 => exact absurd hl (by simp [isLitExp])
        | IntLit n =>
            rw [show (unparseNested (.IntLit n)).data =
              (unparseExp (.IntLit n) 0).data from by simp [unparseNested]]
            rw [hExp _ hsz hwf rest hrest]
            cases lexRun rest <;> simp [tokExp, tokNested]
        | StrLit s =>
            rw [show (unparseNested (.StrLit s)).data =
              (unparseExp (.StrLit s) 0).data from by simp [unparseNested]]
            rw [hExp _ hsz hwf rest hrest]
            cases lexRun rest <;> simp [tokExp, tokNested]
        | TrueLit =>
            rw [show (unparseNested (.TrueLit)).data =
              (unparseExp (.TrueLit) 0).data from by simp [unparseNested]]
            rw [hExp _ hsz hwf rest hrest]
            cases lexRun rest <;> simp [tokExp, tokNested]
        | FalseLit =>
            rw [show (unparseNested (.FalseLit)).data =
              (unparseExp (.FalseLit) 0).data from by simp [unparseNested]]
            rw [hExp _ hsz hwf rest hrest]
            cases lexRun rest <;> simp [tokExp, tokNested]
        | EhLit =>
            rw [show (unparseNested (.EhLit)).data =
              (unparseExp (.EhLit) 0).data from by simp [unparseNested]]
            rw [hExp _ hsz hwf rest hrest]
            cases lexRun rest <;> simp [tokExp, tokNested]
      · obtain ⟨hu, ht⟩ := nested_comp e (by simpa using hl)
        have hstep : (unparseNested e).data ++ rest =
            ("(").data ++ ((unparseExp e 0).data ++ ((")").data ++ rest)) := by
          rw [hu]
          simp [String.data_append]
        rw [hstep, lexPiece_lp, hExp e hsz hwf _ (by rfl), lexPiece_rp, ht]
        cases lexRun rest <;> simp
    · intro args hsz hwf rest hrest
      cases args with
      | nil =>
          rw [show (unparseArgs []).data ++ rest = rest from by
            simp [unparseArgs, data_empty]]
          cases lexRun rest <;> simp [tokArgs]
      | cons e es =>
        cases es with
        | nil =>
            have he : wfExp e = true := by simpa [wfArgs] using hwf
            rw [show (unparseArgs [e]).data = (unparseExp e 0).data from by
              simp [unparseArgs]]
            rw [hExp e (by simp [sizeArgs] at hsz; omega) he rest hrest]
            cases lexRun rest <;> simp [tokArgs]
        | cons e2 es2 =>
            obtain ⟨he, hrest2⟩ : wfExp e = true ∧
                wfArgs (e2 :: es2) = true := by simpa [wfArgs] using hwf
            have hA := (ih (sizeArgs (e2 :: es2)) (by
              have := sizeExp_pos e
              simp [sizeArgs] at hsz ⊢
              omega)).2.2 (e2 :: es2) (le_refl _) hrest2
            have hstep : (unparseArgs (e :: e2 :: es2)).data ++ rest =
                (unparseExp e 0).data ++ ((", ").data ++
                  ((unparseArgs (e2 :: es2)).data ++ rest)) := by
              simp [unparseArgs, String.data_append]
            rw [hstep, hExp e (by
              have := sizeArgs_pos (e2 :: es2)
              simp [sizeArgs] at hsz
              omega) he _ (by rfl), lexPiece_commasp, hA rest hrest]
            cases lexRun rest <;> simp [tokArgs]



theorem sizeStmt_pos (s : Stmt) : 1 ≤ sizeStmt s := by
  cases s
  case VarDecl n t i => cases i <;> simp [sizeStmt] <;> omega
  case Return oe => cases oe <;> simp [sizeStmt]
  all_goals simp [sizeStmt] <;> omega

theorem sizeStmts_pos (l : List Stmt) : 1 ≤ sizeStmts l := by
  cases l <;> simp [sizeStmts]

/-- `unparseExp` at indentation 0 on a wellformed expression lexes to its
token image (wrapper over the strong-induction bundle). -/
theorem lexExp (e : Exp) (h : wfExp e = true) (rest : List Char)
    (hrest : headSafe rest = true) :
    lexRun ((unparseExp e 0).data ++ rest) =
      Option.map (fun ts => tokExp e ++ ts) (lexRun rest) :=
  (lexExpAll (sizeExp e)).1 e (le_refl _) h rest hrest

/-- Scanning any rendered statement (or statement list) at a
non-sentinel indentation produces its token image. -/
theorem lexStmtAll : ∀ N : Nat,
    (∀ s, sizeStmt s ≤ N → wfStmt s = true → ∀ ind : Int, 0 ≤ ind →
      ∀ rest, lexRun ((unparseStmt s ind).data ++ rest) =
        Option.map (fun ts => tokStmtLine s ++ ts) (lexRun rest)) ∧
    (∀ l, sizeStmts l ≤ N → wfStmts l = true → ∀ ind : Int, 0 ≤ ind →
      ∀ rest, lexRun ((unparseStmtList l ind).data ++ rest) =
        Option.map (fun ts => tokStmts l ++ ts) (lexRun rest)) := by
  intro N
  induction N using Nat.strong_induction_on with
  | _ N ih =>
    have hS1 : ∀ s, sizeStmt s ≤ N → wfStmt s = true → ∀ ind : Int,
        0 ≤ ind → ∀ rest, lexRun ((unparseStmt s ind).data ++ rest) =
          Option.map (fun ts => tokStmtLine s ++ ts) (lexRun rest) := by
      intro s hsz hwf ind h0 rest
      cases s with
      | VarDecl n t i =>
          obtain ⟨⟨hn, ht⟩, hi⟩ : (wfIdent n = true ∧ wfTy t = true) ∧
              wfOptInit i = true := by simpa [wfStmt] using hwf
          have hstep : (unparseStmt (.VarDecl n t i) ind).data ++ rest =
              List.replicate ind.toNat '\t' ++ (n.data ++ ((": ").data ++
                ((unparseTy t 0).data ++ ((";\n").data ++ rest)))) := by
            simp [unparseStmt, unparseVarDecl, doIndent, data_smk,
              data_empty, String.data_append]
          rw [hstep, lexRun_tabs, lexRun_ident n _ hn (by rfl),
            lexPiece_colonsp, lexTy t ht _ (by rfl), lexPiece_seminl]
          cases lexRun rest <;> simp [tokStmtLine, tokStmt, isBlock]
      | Assign l e =>
          obtain ⟨hl, he⟩ : wfLoc l = true ∧ wfExp e = true := by
            simpa [wfStmt] using hwf
          have hstep : (unparseStmt (.Assign l e) ind).data ++ rest =
              List.replicate ind.toNat '\t' ++ ((unparseLoc l).data ++
                ((" = ").data ++ ((unparseExp e 0).data ++
                  ((";\n").data ++ rest)))) := by
            simp [unparseStmt, doIndent, data_smk, data_empty,
              String.data_append]
          rw [hstep, lexRun_tabs, lexLoc l hl _ (by rfl), lexPiece_assignsp,
            lexExp e he _ (by rfl), lexPiece_seminl]
          cases lexRun rest <;> simp [tokStmtLine, tokStmt, isBlock]
      | CallStmt l args =>
          obtain ⟨hl, ha⟩ : wfLoc l = true ∧ wfArgs args = true := by
            simpa [wfStmt] using hwf
          have hind : ind ≠ -1 := by omega
          have he : wfExp (.CallExp l args) = true := by
            simp [wfExp, hl, ha]
          have hstep : (unparseStmt (.CallStmt l args) ind).data ++ rest =
              List.replicate ind.toNat '\t' ++
                ((unparseExp (.CallExp l args) 0).data ++
                  ((";\n").data ++ rest)) := by
            simp [unparseStmt, hind, doIndent, data_smk, data_empty,
              String.data_append]
          rw [hstep, lexRun_tabs, lexExp _ he _ (by rfl), lexPiece_seminl]
          cases lexRun rest <;> simp [tokStmtLine, tokStmt, isBlock, tokExp]
      | Return oe =>
          cases oe with
          | none =>
              have hstep : (unparseStmt (.Return none) ind).data ++ rest =
                  List.replicate ind.toNat '\t' ++ (("return").data ++
                    ((";\n").data ++ rest)) := by
                simp [unparseStmt, doIndent, data_smk, data_empty,
                  String.data_append]
              rw [hstep, lexRun_tabs, lexPiece_returnkw _ (by rfl),
                lexPiece_seminl]
              cases lexRun rest <;> simp [tokStmtLine, tokStmt, isBlock]
          | some e =>
              have he : wfExp e = true := by simpa [wfStmt] using hwf
              have hstep : (unparseStmt (.Return (some e)) ind).data ++ rest =
                  List.replicate ind.toNat '\t' ++ (("return").data ++
                    ((" ").data ++ ((unparseExp e 0).data ++
                      ((";\n").data ++ rest)))) := by
                simp [unparseStmt, doIndent, data_smk, data_empty,
                  String.data_append]
              rw [hstep, lexRun_tabs, lexPiece_returnkw _ (by rfl),
                lexPiece_sp, lexExp e he _ (by rfl), lexPiece_seminl]
              cases lexRun rest <;> simp [tokStmtLine, tokStmt, isBlock]
      | Maybe l e1 e2 =>
          obtain ⟨⟨hl, h1⟩, h2⟩ : (wfLoc l = true ∧ wfExp e1 = true) ∧
              wfExp e2 = true := by simpa [wfStmt] using hwf
          have hind : ind ≠ -1 := by omega
          have hstep : (unparseStmt (.Maybe l e1 e2) ind).data ++ rest =
              List.replicate ind.toNat '\t' ++ (("maybe ").data ++
                ((unparseLoc l).data ++ ((" means ").data ++
                  ((unparseExp e1 0).data ++ ((" otherwise ").data ++
                    ((unparseExp e2 0).data ++ ((";\n").data ++ rest))))))) := by
            simp [unparseStmt, hind, doIndent, data_smk, data_empty,
              String.data_append]
          rw [hstep, lexRun_tabs, lexPiece_maybesp, lexLoc l hl _ (by rfl),
            lexPiece_meanssp, lexExp e1 h1 _ (by rfl), lexPiece_otherwisesp,
            lexExp e2 h2 _ (by rfl), lexPiece_seminl]
          cases lexRun rest <;> simp [tokStmtLine, tokStmt, isBlock]
      | FromConsole l =>
          have hl : wfLoc l = true := by simpa [wfStmt] using hwf
          have hstep : (unparseStmt (.FromConsole l) ind).data ++ rest =
              List.replicate ind.toNat '\t' ++ (("fromconsole ").data ++
                ((unparseLoc l).data ++ ((";\n").data ++ rest))) := by
            simp [unparseStmt, doIndent, data_smk, data_empty,
              String.data_append]
          rw [hstep, lexRun_tabs, lexPiece_fromconsolesp,
            lexLoc l hl _ (by rfl), lexPiece_seminl]
          cases lexRun rest <;> simp [tokStmtLine, tokStmt, isBlock]
      | ToConsole e =>
          have he : wfExp e = true := by simpa [wfStmt] using hwf
          have hstep : (unparseStmt (.ToConsole e) ind).data ++ rest =
              List.replicate ind.toNat '\t' ++ (("toconsole ").data ++
                ((unparseExp e 0).data ++ ((";\n").data ++ rest))) := by
            simp [unparseStmt, doIndent, data_smk, data_empty,
              String.data_append]
          rw [hstep, lexRun_tabs, lexPiece_toconsolesp,
            lexExp e he _ (by rfl), lexPiece_seminl]
          cases lexRun rest <;> simp [tokStmtLine, tokStmt, isBlock]
      | PostDec l =>
          have hl : wfLoc l = true := by simpa [wfStmt] using hwf
          have hind : ind ≠ -1 := by omega
          have hstep : (unparseStmt (.PostDec l) ind).data ++ rest =
              List.replicate ind.toNat '\t' ++ ((unparseLoc l).data ++
                (("--").data ++ ((";\n").data ++ rest))) := by
            simp [unparseStmt, hind, doIndent, data_smk, data_empty,
              String.data_append]
          rw [hstep, lexRun_tabs, lexLoc l hl _ (by rfl), lexPiece_mmop,
            lexPiece_seminl]
          cases lexRun rest <;> simp [tokStmtLine, tokStmt, isBlock]
      | PostInc l =>
          have hl : wfLoc l = true := by simpa [wfStmt] using hwf
          have hind : ind ≠ -1 := by omega
          have hstep : (unparseStmt (.PostInc l) ind).data ++ rest =
              List.replicate ind.toNat '\t' ++ ((unparseLoc l).data ++
                (("++").data ++ ((";\n").data ++ rest))) := by
            simp [unparseStmt, hind, doIndent, data_smk, data_empty,
              String.data_append]
          rw [hstep, lexRun_tabs, lexLoc l hl _ (by rfl), lexPiece_ppop,
            lexPiece_seminl]
          cases lexRun rest <;> simp [tokStmtLine, tokStmt, isBlock]
      | If c b =>
          obtain ⟨hc, hb⟩ : wfExp c = true ∧ wfStmts b = true := by
            simpa [wfStmt] using hwf
          have hlt : sizeStmts b < N := by
            have := sizeExp_pos c
            simp [sizeStmt] at hsz
            omega
          have hB := (ih (sizeStmts b) hlt).2 b (le_refl _) hb (ind + 1)
            (by omega)
          have hstep : (unparseStmt (.If c b) ind).data ++ rest =
              List.replicate ind.toNat '\t' ++ (("if (").data ++
                ((unparseExp c 0).data ++ ((")\x7b\n").data ++
                  ((unparseStmtList b (ind + 1)).data ++
                    (List.replicate ind.toNat '\t' ++
                      (("\x7d\n").data ++ rest)))))) := by
            simp [unparseStmt, doIndent, data_smk, data_empty,
              String.data_append]
          rw [hstep, lexRun_tabs, lexPiece_iflp, lexExp c hc _ (by rfl),
            lexPiece_rplc, hB, lexRun_tabs, lexPiece_rcnl]
          cases lexRun rest <;> simp [tokStmtLine, tokStmt, isBlock]
      | IfElse c bt bf =>
          obtain ⟨⟨hc, hbt⟩, hbf⟩ : (wfExp c = true ∧ wfStmts bt = true) ∧
              wfStmts bf = true := by simpa [wfStmt] using hwf
          have hltT : sizeStmts bt < N := by
            have := sizeExp_pos c
            have := sizeStmts_pos bf
            simp [sizeStmt] at hsz
            omega
          have hltF : sizeStmts bf < N := by
            have := sizeExp_pos c
            have := sizeStmts_pos bt
            simp [sizeStmt] at hsz
            omega
          have hBT := (ih (sizeStmts bt) hltT).2 bt (le_refl _) hbt (ind + 1)
            (by omega)
          have hBF := (ih (sizeStmts bf) hltF).2 bf (le_refl _) hbf (ind + 1)
            (by omega)
          have hstep : (unparseStmt (.IfElse c bt bf) ind).data ++ rest =
              List.replicate ind.toNat '\t' ++ (("if (").data ++
                ((unparseExp c 0).data ++ ((")\x7b\n").data ++
                  ((unparseStmtList bt (ind + 1)).data ++
                    (List.replicate ind.toNat '\t' ++
                      (("\x7d else \x7b\n").data ++
                        ((unparseStmtList bf (ind + 1)).data ++
                          (List.replicate ind.toNat '\t' ++
                            (("\x7d\n").data ++ rest))))))))) := by
            simp [unparseStmt, doIndent, data_smk, data_empty,
              String.data_append]
          rw [hstep, lexRun_tabs, lexPiece_iflp, lexExp c hc _ (by rfl),
            lexPiece_rplc, hBT, lexRun_tabs, lexPiece_rcelse, hBF,
            lexRun_tabs, lexPiece_rcnl]
          cases lexRun rest <;> simp [tokStmtLine, tokStmt, isBlock]
      | While c b =>
          obtain ⟨hc, hb⟩ : wfExp c = true ∧ wfStmts b = true := by
            simpa [wfStmt] using hwf
          have hlt : sizeStmts b < N := by
            have := sizeExp_pos c
            simp [sizeStmt] at hsz
            omega
          have hB := (ih (sizeStmts b) hlt).2 b (le_refl _) hb (ind + 1)
            (by omega)
          have hstep : (unparseStmt (.While c b) ind).data ++ rest =
              List.replicate ind.toNat '\t' ++ (("while (").data ++
                ((unparseExp c 0).data ++ ((")\x7b\n").data ++
                  ((unparseStmtList b (ind + 1)).data ++
                    (List.replicate ind.toNat '\t' ++
                      (("\x7d\n").data ++ rest)))))) := by
            simp [unparseStmt, doIndent, data_smk, data_empty,
              String.data_append]
          rw [hstep, lexRun_tabs, lexPiece_whilelp, lexExp c hc _ (by rfl),
            lexPiece_rplc, hB, lexRun_tabs, lexPiece_rcnl]
          cases lexRun rest <;> simp [tokStmtLine, tokStmt, isBlock]
    refine ⟨hS1, ?_⟩
    intro l hsz hwf ind h0 rest
    cases l with
    | nil =>
        rw [show (unparseStmtList [] ind).data ++ rest = rest from by
          simp [unparseStmtList, data_empty]]
        cases lexRun rest <;> simp [tokStmts]
    | cons s ss =>
        obtain ⟨hs, hss⟩ : wfStmt s = true ∧ wfStmts ss = true := by
          simpa [wfStmts] using hwf
        have hlt : sizeStmts ss < N := by
          have := sizeStmt_pos s
          simp [sizeStmts] at hsz
          omega
        have hSS := (ih (sizeStmts ss) hlt).2 ss (le_refl _) hss ind h0
        have hstep : (unparseStmtList (s :: ss) ind).data ++ rest =
            (unparseStmt s ind).data ++ ((unparseStmtList ss ind).data ++
              rest) := by
          simp [unparseStmtList, String.data_append]
        rw [hstep, hS1 s (by simp [sizeStmts] at hsz; omega) hs ind h0, hSS]
        cases lexRun rest <;> simp [tokStmts, tokStmtLine]


/-- Wrapper: a rendered statement list lexes to its token image. -/
theorem lexStmts (l : List Stmt) (h : wfStmts l = true) (ind : Int)
    (h0 : 0 ≤ ind) (rest : List Char) :
    lexRun ((unparseStmtList l ind).data ++ rest) =
      Option.map (fun ts => tokStmts l ++ ts) (lexRun rest) :=
  (lexStmtAll (sizeStmts l)).2 l (le_refl _) h ind h0 rest

/-- Scanning a rendered formal list produces its token image. -/
theorem lexFormals (fs : List Formal) (h : wfFormals fs = true) :
    ∀ (rest : List Char), headSafe rest = true →
    lexRun ((unparseFormals fs).data ++ rest) =
      Option.map (fun ts => tokFormals fs ++ ts) (lexRun rest) := by
  induction fs with
  | nil =>
      intro rest hrest
      rw [show (unparseFormals []).data ++ rest = rest from by
        simp [unparseFormals, data_empty]]
      cases lexRun rest <;> simp [tokFormals]
  | cons f fs ih =>
      intro rest hrest
      obtain ⟨⟨hn, ht⟩, hfs⟩ : (wfIdent f.name = true ∧ wfTy f.ty = true) ∧
          wfFormals fs = true := by simpa [wfFormals] using h
      cases fs with
      | nil =>
          have hstep : (unparseFormals [f]).data ++ rest =
              f.name.data ++ ((" : ").data ++
                ((unparseTy f.ty 0).data ++ rest)) := by
            simp [unparseFormals, unparseFormal, String.data_append]
          rw [hstep, lexRun_ident _ _ hn (by rfl), lexPiece_colonsp2,
            lexTy f.ty ht rest hrest]
          cases lexRun rest <;> simp [tokFormals]
      | cons f2 fs2 =>
          have hstep : (unparseFormals (f :: f2 :: fs2)).data ++ rest =
              f.name.data ++ ((" : ").data ++ ((unparseTy f.ty 0).data ++
                ((", ").data ++
                  ((unparseFormals (f2 :: fs2)).data ++ rest)))) := by
            simp [unparseFormals, unparseFormal, String.data_append]
          rw [hstep, lexRun_ident _ _ hn (by rfl), lexPiece_colonsp2,
            lexTy f.ty ht _ (by rfl), lexPiece_commasp, ih hfs rest hrest]
          cases lexRun rest <;> simp [tokFormals]

theorem sizeDecl_pos (d : Decl) : 1 ≤ sizeDecl d := by
  cases d
  case VarDecl n t i => cases i <;> simp [sizeDecl] <;> omega
  all_goals simp [sizeDecl] <;> omega

theorem sizeDecls_pos (l : List Decl) : 1 ≤ sizeDecls l := by
  cases l <;> simp [sizeDecls]

/-- Scanning any rendered declaration (or declaration list) produces its
token image. -/
theorem lexDeclAll : ∀ N : Nat,
    (∀ d, sizeDecl d ≤ N → wfDecl d = true → ∀ ind : Int, 0 ≤ ind →
      ∀ rest, lexRun ((unparseDecl d ind).data ++ rest) =
        Option.map (fun ts => tokDecl d ++ ts) (lexRun rest)) ∧
    (∀ l, sizeDecls l ≤ N → wfDecls l = true → ∀ ind : Int, 0 ≤ ind →
      ∀ rest, lexRun ((unparseDeclList l ind).data ++ rest) =
        Option.map (fun ts => tokDecls l ++ ts) (lexRun rest)) := by
  intro N
  induction N using Nat.strong_induction_on with
  | _ N ih =>
    have hD1 : ∀ d, sizeDecl d ≤ N → wfDecl d = true → ∀ ind : Int,
        0 ≤ ind → ∀ rest, lexRun ((unparseDecl d ind).data ++ rest) =
          Option.map (fun ts => tokDecl d ++ ts) (lexRun rest) := by
      intro d hsz hwf ind h0 rest
      cases d with
      | VarDecl n t i =>
          obtain ⟨⟨hn, ht⟩, hi⟩ : (wfIdent n = true ∧ wfTy t = true) ∧
              wfOptInit i = true := by simpa [wfDecl] using hwf
          have hstep : (unparseDecl (.VarDecl n t i) ind).data ++ rest =
              List.replicate ind.toNat '\t' ++ (n.data ++ ((": ").data ++
                ((unparseTy t 0).data ++ ((";\n").data ++ rest)))) := by
            simp [unparseDecl, unparseVarDecl, doIndent, data_smk,
              data_empty, String.data_append]
          rw [hstep, lexRun_tabs, lexRun_ident n _ hn (by rfl),
            lexPiece_colonsp, lexTy t ht _ (by rfl), lexPiece_seminl]
          cases lexRun rest <;> simp [tokDecl]
      | ClassDefn n ms =>
          obtain ⟨hn, hms⟩ : wfIdent n = true ∧ wfDecls ms = true := by
            simpa [wfDecl] using hwf
          have hlt : sizeDecls ms < N := by
            simp [sizeDecl] at hsz
            omega
          have hMS := (ih (sizeDecls ms) hlt).2 ms (le_refl _) hms (ind + 1)
            (by omega)
          have hstep : (unparseDecl (.ClassDefn n ms) ind).data ++ rest =
              List.replicate ind.toNat '\t' ++ (n.data ++
                ((" : custom \x7b\n").data ++
                  ((unparseDeclList ms (ind + 1)).data ++
                    (("\x7d;\n").data ++ rest)))) := by
            simp [unparseDecl, doIndent, data_smk, data_empty,
              String.data_append]
          rw [hstep, lexRun_tabs, lexRun_ident n _ hn (by rfl),
            lexPiece_coloncustom, hMS, lexPiece_rcseminl]
          cases lexRun rest <;> simp [tokDecl]
      | FnDecl n fs rt b =>
          obtain ⟨⟨⟨hn, hfs⟩, hrt⟩, hb⟩ : ((wfIdent n = true ∧
              wfFormals fs = true) ∧ wfTy rt = true) ∧
              wfStmts b = true := by simpa [wfDecl] using hwf
          have hstep : (unparseDecl (.FnDecl n fs rt b) ind).data ++ rest =
              List.replicate ind.toNat '\t' ++ (n.data ++ ((" : (").data ++
                ((unparseFormals fs).data ++ ((") -> ").data ++
                  ((unparseTy rt 0).data ++ ((" \x7b\n").data ++
                    ((unparseStmtList b (ind + 1)).data ++
                      (List.replicate ind.toNat '\t' ++
                        (("\x7d\n").data ++ rest))))))))) := by
            simp [unparseDecl, doIndent, data_smk, data_empty,
              String.data_append]
          rw [hstep, lexRun_tabs, lexRun_ident n _ hn (by rfl),
            lexPiece_colonlp, lexFormals fs hfs _ (by rfl),
            lexPiece_rparrowsp, lexTy rt hrt _ (by rfl), lexPiece_splcnl,
            lexStmts b hb (ind + 1) (by omega), lexRun_tabs, lexPiece_rcnl]
          cases lexRun rest <;> simp [tokDecl]
    refine ⟨hD1, ?_⟩
    intro l hsz hwf ind h0 rest
    cases l with
    | nil =>
        rw [show (unparseDeclList [] ind).data ++ rest = rest from by
          simp [unparseDeclList, data_empty]]
        cases lexRun rest <;> simp [tokDecls]
    | cons d ds =>
        obtain ⟨hd, hds⟩ : wfDecl d = true ∧ wfDecls ds = true := by
          simpa [wfDecls] using hwf
        have hlt : sizeDecls ds < N := by
          have := sizeDecl_pos d
          simp [sizeDecls] at hsz
          omega
        have hDS := (ih (sizeDecls ds) hlt).2 ds (le_refl _) hds ind h0
        have hstep : (unparseDeclList (d :: ds) ind).data ++ rest =
            (unparseDecl d ind).data ++ ((unparseDeclList ds ind).data ++
              rest) := by
          simp [unparseDeclList, String.data_append]
        rw [hstep, hD1 d (by simp [sizeDecls] at hsz; omega) hd ind h0, hDS]
        cases lexRun rest <;> simp [tokDecls]

/-- Scanning a rendered wellformed program produces exactly its token
image. -/
theorem lex_unparseProgram (p : Program) (h : wfDecls p = true) :
    lex (unparseProgram p) = some (tokDecls p) := by
  have hrun := (lexDeclAll (sizeDecls p)).2 p (le_refl _) h 0 (by omega) []
  rw [List.append_nil] at hrun
  show lexRun (unparseDeclList p 0).data = _
  rw [hrun, lexRun_nil]
  simp


/-! ## Follow-set helpers for the expression parser -/

theorem expCut_heads {rest : List Tok} (h : expCut rest = true) :
    ∀ t, rest.head? = some t → contTok t = false := by
  cases rest <;> simp_all [expCut]

theorem contTok_false_spec {t : Tok} (h : contTok t = false) :
    t ≠ .STAR ∧ t ≠ .SLASH ∧ t ≠ .CROSS ∧ t ≠ .DASH ∧ t ≠ .AND ∧
      t ≠ .OR ∧ relTok t = false ∧ t ≠ .ARROW ∧ t ≠ .LPAREN := by
  cases t <;> simp_all [contTok, relTok]

/-! ## Stop lemmas: each `…Rest` accumulator returns its argument when the
next token is not one of its operators. -/

theorem parseMulRest_stop (fuel : Nat) (hf : 1 ≤ fuel) (lhs : Exp)
    (rest : List Tok)
    (h : ∀ t, rest.head? = some t → t ≠ .STAR ∧ t ≠ .SLASH) :
    parseMulRest fuel lhs rest = .ok (lhs, rest) := by
  obtain ⟨f, rfl⟩ : ∃ f, fuel = f + 1 := ⟨fuel - 1, by omega⟩
  cases rest with
  | nil => simp [parseMulRest]
  | cons t r =>
      obtain ⟨h1, h2⟩ := h t rfl
      cases t <;> simp_all [parseMulRest]

theorem parseAddRest_stop (fuel : Nat) (hf : 1 ≤ fuel) (lhs : Exp)
    (rest : List Tok)
    (h : ∀ t, rest.head? = some t → t ≠ .CROSS ∧ t ≠ .DASH) :
    parseAddRest fuel lhs rest = .ok (lhs, rest) := by
  obtain ⟨f, rfl⟩ : ∃ f, fuel = f + 1 := ⟨fuel - 1, by omega⟩
  cases rest with
  | nil => simp [parseAddRest]
  | cons t r =>
      obtain ⟨h1, h2⟩ := h t rfl
      cases t <;> simp_all [parseAddRest]

theorem parseAndRest_stop (fuel : Nat) (hf : 1 ≤ fuel) (lhs : Exp)
    (rest : List Tok)
    (h : ∀ t, rest.head? = some t → t ≠ .AND) :
    parseAndRest fuel lhs rest = .ok (lhs, rest) := by
  obtain ⟨f, rfl⟩ : ∃ f, fuel = f + 1 := ⟨fuel - 1, by omega⟩
  cases rest with
  | nil => simp [parseAndRest]
  | cons t r =>
      have h1 := h t rfl
      cases t <;> simp_all [parseAndRest]

theorem parseOrRest_stop (fuel : Nat) (hf : 1 ≤ fuel) (lhs : Exp)
    (rest : List Tok)
    (h : ∀ t, rest.head? = some t → t ≠ .OR) :
    parseOrRest fuel lhs rest = .ok (lhs, rest) := by
  obtain ⟨f, rfl⟩ : ∃ f, fuel = f + 1 := ⟨fuel - 1, by omega⟩
  cases rest with
  | nil => simp [parseOrRest]
  | cons t r =>
      have h1 := h t rfl
      cases t <;> simp_all [parseOrRest]

/-! ## Level-composition lemmas: lift a result one precedence level up. -/

theorem parseMul_of_unary (f : Nat) (hf : 1 ≤ f) (ts : List Tok) (e : Exp)
    (rest : List Tok) (h : parseUnary f ts = .ok (e, rest))
    (hstop : ∀ t, rest.head? = some t → t ≠ .STAR ∧ t ≠ .SLASH) :
    parseMul (f + 1) ts = .ok (e, rest) := by
  simp [parseMul, h, parseMulRest_stop f hf e rest hstop]

theorem parseMul_times (f : Nat) (hf : 1 ≤ f) (ts : List Tok)
    (l r : Exp) (r1 rest : List Tok)
    (h1 : parseUnary (f + 1) ts = .ok (l, .STAR :: r1))
    (h2 : parseUnary f r1 = .ok (r, rest))
    (hstop : ∀ t, rest.head? = some t → t ≠ .STAR ∧ t ≠ .SLASH) :
    parseMul (f + 2) ts = .ok (.Times l r, rest) := by
  simp [parseMul, h1, parseMulRest, h2,
    parseMulRest_stop f hf (.Times l r) rest hstop]

theorem parseMul_divide (f : Nat) (hf : 1 ≤ f) (ts : List Tok)
    (l r : Exp) (r1 rest : List Tok)
    (h1 : parseUnary (f + 1) ts = .ok (l, .SLASH :: r1))
    (h2 : parseUnary f r1 = .ok (r, rest))
    (hstop : ∀ t, rest.head? = some t → t ≠ .STAR ∧ t ≠ .SLASH) :
    parseMul (f + 2) ts = .ok (.Divide l r, rest) := by
  simp [parseMul, h1, parseMulRest, h2,
    parseMulRest_stop f hf (.Divide l r) rest hstop]

theorem parseAdd_of_mul (f : Nat) (hf : 1 ≤ f) (ts : List Tok) (e : Exp)
    (rest : List Tok) (h : parseMul f ts = .ok (e, rest))
    (hstop : ∀ t, rest.head? = some t → t ≠ .CROSS ∧ t ≠ .DASH) :
    parseAdd (f + 1) ts = .ok (e, rest) := by
  simp [parseAdd, h, parseAddRest_stop f hf e rest hstop]

theorem parseAdd_plus (f : Nat) (hf : 1 ≤ f) (ts : List Tok)
    (l r : Exp) (r1 rest : List Tok)
    (h1 : parseMul (f + 1) ts = .ok (l, .CROSS :: r1))
    (h2 : parseMul f r1 = .ok (r, rest))
    (hstop : ∀ t, rest.head? = some t → t ≠ .CROSS ∧ t ≠ .DASH) :
    parseAdd (f + 2) ts = .ok (.Plus l r, rest) := by
  simp [parseAdd, h1, parseAddRest, h2,
    parseAddRest_stop f hf (.Plus l r) rest hstop]

theorem parseAdd_minus (f : Nat) (hf : 1 ≤ f) (ts : List Tok)
    (l r : Exp) (r1 rest : List Tok)
    (h1 : parseMul (f + 1) ts = .ok (l, .DASH :: r1))
    (h2 : parseMul f r1 = .ok (r, rest))
    (hstop : ∀ t, rest.head? = some t → t ≠ .CROSS ∧ t ≠ .DASH) :
    parseAdd (f + 2) ts = .ok (.Minus l r, rest) := by
  simp [parseAdd, h1, parseAddRest, h2,
    parseAddRest_stop f hf (.Minus l r) rest hstop]

theorem parseRel_of_add (f : Nat) (ts : List Tok) (e : Exp)
    (rest : List Tok) (h : parseAdd f ts = .ok (e, rest))
    (hstop : ∀ t, rest.head? = some t → relTok t = false) :
    parseRel (f + 1) ts = .ok (e, rest) := by
  cases rest with
  | nil => simp [parseRel, h]
  | cons t r =>
      have h1 := hstop t rfl
      simp [parseRel, h, h1]

theorem parseRel_rel (f : Nat) (ts : List Tok) (op : Tok)
    (hop : relTok op = true) (l r : Exp) (r1 rest : List Tok)
    (h1 : parseAdd f ts = .ok (l, op :: r1))
    (h2 : parseAdd f r1 = .ok (r, rest))
    (hstop : ∀ t, rest.head? = some t → relTok t = false) :
    parseRel (f + 1) ts = .ok (mkRel op l r, rest) := by
  cases rest with
  | nil => simp [parseRel, h1, h2, hop]
  | cons t2 r2 =>
      have hn := hstop t2 rfl
      simp [parseRel, h1, h2, hop, hn]

theorem parseAnd_of_rel (f : Nat) (hf : 1 ≤ f) (ts : List Tok) (e : Exp)
    (rest : List Tok) (h : parseRel f ts = .ok (e, rest))
    (hstop : ∀ t, rest.head? = some t → t ≠ .AND) :
    parseAnd (f + 1) ts = .ok (e, rest) := by
  simp [parseAnd, h, parseAndRest_stop f hf e rest hstop]

theorem parseAnd_andop (f : Nat) (hf : 1 ≤ f) (ts : List Tok)
    (l r : Exp) (r1 rest : List Tok)
    (h1 : parseRel (f + 1) ts = .ok (l, .AND :: r1))
    (h2 : parseRel f r1 = .ok (r, rest))
    (hstop : ∀ t, rest.head? = some t → t ≠ .AND) :
    parseAnd (f + 2) ts = .ok (.And l r, rest) := by
  simp [parseAnd, h1, parseAndRest, h2,
    parseAndRest_stop f hf (.And l r) rest hstop]

theorem parseOr_of_and (f : Nat) (hf : 1 ≤ f) (ts : List Tok) (e : Exp)
    (rest : List Tok) (h : parseAnd f ts = .ok (e, rest))
    (hstop : ∀ t, rest.head? = some t → t ≠ .OR) :
    parseOr (f + 1) ts = .ok (e, rest) := by
  simp [parseOr, h, parseOrRest_stop f hf e rest hstop]

theorem parseOr_orop (f : Nat) (hf : 1 ≤ f) (ts : List Tok)
    (l r : Exp) (r1 rest : List Tok)
    (h1 : parseAnd (f + 1) ts = .ok (l, .OR :: r1))
    (h2 : parseAnd f r1 = .ok (r, rest))
    (hstop : ∀ t, rest.head? = some t → t ≠ .OR) :
    parseOr (f + 2) ts = .ok (.Or l r, rest) := by
  simp [parseOr, h1, parseOrRest, h2,
    parseOrRest_stop f hf (.Or l r) rest hstop]

/-! ## `parseTerm` on a location or call head -/

theorem parseTerm_loc (fuel : Nat) (n : String) (fs : List String)
    (rest : List Tok) (h1 : rest.head? ≠ some .ARROW)
    (h2 : rest.head? ≠ some .LPAREN) :
    parseTerm (fuel + 1) (.ID n :: (fieldsToks fs ++ rest)) =
      .ok (.LocE (graftLoc (.IDNode n) fs), rest) := by
  have hsp := parseLocTail_spine fs (.IDNode n) rest h1
  cases rest with
  | nil =>
      rw [List.append_nil] at hsp
      simp [parseTerm, hsp]
  | cons t r => cases t <;> simp_all [parseTerm]

theorem parseTerm_call_nil (fuel : Nat) (n : String) (fs : List String)
    (r : List Tok) :
    parseTerm (fuel + 1)
        (.ID n :: (fieldsToks fs ++ (.LPAREN :: .RPAREN :: r))) =
      .ok (.CallExp (graftLoc (.IDNode n) fs) [], r) := by
  have hsp := parseLocTail_spine fs (.IDNode n) (.LPAREN :: .RPAREN :: r)
    (by simp)
  simp [parseTerm, hsp]

theorem parseTerm_call (fuel : Nat) (n : String) (fs : List String)
    (t : Tok) (tr : List Tok) (hne : t ≠ .RPAREN) :
    parseTerm (fuel + 1)
        (.ID n :: (fieldsToks fs ++ (.LPAREN :: t :: tr))) =
      (match parseArgs fuel (t :: tr) with
       | .error e => .error e
       | .ok (args, .RPAREN :: r3) =>
           .ok (.CallExp (graftLoc (.IDNode n) fs) args, r3)
       | .ok (_, r3) => .error (.unexpected r3.head? "call arguments")) := by
  have hsp := parseLocTail_spine fs (.IDNode n) (.LPAREN :: t :: tr)
    (by simp)
  cases t <;> simp_all [parseTerm]


theorem head_cons_stop2 {a b c : Tok} (X : List Tok) (h1 : c ≠ a)
    (h2 : c ≠ b) : ∀ t, (c :: X).head? = some t → t ≠ a ∧ t ≠ b := by
  intro t ht
  simp at ht
  subst ht
  exact ⟨h1, h2⟩

theorem head_cons_stop1 {a c : Tok} (X : List Tok) (h1 : c ≠ a) :
    ∀ t, (c :: X).head? = some t → t ≠ a := by
  intro t ht
  simp at ht
  subst ht
  exact h1

theorem head_cons_rel {c : Tok} (X : List Tok) (h1 : relTok c = false) :
    ∀ t, (c :: X).head? = some t → relTok t = false := by
  intro t ht
  simp at ht
  subst ht
  exact h1

theorem expCut_head_ne {rest : List Tok} (h : expCut rest = true) {a : Tok}
    (ha : contTok a = true) : rest.head? ≠ some a := by
  intro hx
  cases rest with
  | nil => simp at hx
  | cons t r =>
      simp at hx
      subst hx
      simp [expCut, ha] at h

/-- The first token of a nested-operand rendering: a literal token or
LPAREN, never an operator or delimiter. -/
theorem tokNested_cons (e : Exp) : ∃ t tr, tokNested e = t :: tr ∧
    t ≠ .NOT ∧ t ≠ .DASH ∧ t ≠ .SEMICOL ∧ t ≠ .RPAREN := by
  by_cases hl : isLitExp e
  · cases e with
    | LocE l => exact absurd hl (by simp [isLitExp])
    | CallExp l args => exact absurd hl (by simp [isLitExp])
    | Plus e1 e2 => exact absurd hl (by simp [isLitExp])
    | Minus e1 e2 => exact absurd hl (by simp [isLitExp])
    | Times e1 e2 => exact absurd hl (by simp [isLitExp])
    | Divide e1 e2 => exact absurd hl (by simp [isLitExp])
    | And e1 e2 => exact absurd hl (by simp [isLitExp])
    | Or e1 e2 => exact absurd hl (by simp [isLitExp])
    | Equals e1 e2 => exact absurd hl (by simp [isLitExp])
    | NotEquals e1 e2 => exact absurd hl (by simp [isLitExp])
    | Less e1 e2 => exact absurd hl (by simp [isLitExp])
    | LessEq e1 e2 => exact absurd hl (by simp [isLitExp])
    | Greater e1 e2 => exact absurd hl (by simp [isLitExp])
    | GreaterEq e1 e2 => exact absurd hl (by simp [isLitExp])
    | Neg e1 => exact absurd hl (by simp [isLitExp])
    | Not e1 => exact absurd hl (by simp [isLitExp])
    | IntLit n =>
        exact ⟨.INTLITERAL n, [], by simp [tokNested], by simp, by simp,
          by simp, by simp⟩
    | StrLit str =>
        exact ⟨.STRINGLITERAL str, [], by simp [tokNested], by simp,
          by simp, by simp, by simp⟩
    | TrueLit =>
        exact ⟨.TRUE, [], by simp [tokNested], by simp, by simp,
          by simp, by simp⟩
    | FalseLit =>
        exact ⟨.FALSE, [], by simp [tokNested], by simp, by simp,
          by simp, by simp⟩
    | EhLit =>
        exact ⟨.EH, [], by simp [tokNested], by simp, by simp,
          by simp, by simp⟩
  · exact ⟨.LPAREN, tokExp e ++ [.RPAREN],
      (nested_comp e (by simpa using hl)).2, by simp, by simp,
      by simp, by simp⟩

/-- The first token of a top-level expression rendering is never a
statement or list delimiter. -/
theorem tokExp_cons (e : Exp) : ∃ t tr, tokExp e = t :: tr ∧
    t ≠ .SEMICOL ∧ t ≠ .RPAREN := by
  cases e with
  | LocE l =>
      exact ⟨.ID (locRoot l), fieldsToks (locFields l), by
        simp [tokExp, tokLoc_spine], by simp, by simp⟩
  | IntLit n =>
      exact ⟨.INTLITERAL n, [], by simp [tokExp], by simp, by simp⟩
  | StrLit str =>
      exact ⟨.STRINGLITERAL str, [], by simp [tokExp], by simp, by simp⟩
  | TrueLit => exact ⟨.TRUE, [], by simp [tokExp], by simp, by simp⟩
  | FalseLit => exact ⟨.FALSE, [], by simp [tokExp], by simp, by simp⟩
  | EhLit => exact ⟨.EH, [], by simp [tokExp], by simp, by simp⟩
  | CallExp l args =>
      exact ⟨.ID (locRoot l),
        fieldsToks (locFields l) ++ .LPAREN :: (tokArgs args ++ [.RPAREN]),
        by simp [tokExp, tokLoc_spine], by simp, by simp⟩
  | Neg e1 =>
      exact ⟨.DASH, tokNested e1, by simp [tokExp], by simp, by simp⟩
  | Not e1 =>
      exact ⟨.NOT, tokNested e1, by simp [tokExp], by simp, by simp⟩
  | Plus e1 e2 =>
      obtain ⟨t, tr, ht, _, _, h3, h4⟩ := tokNested_cons e1
      exact ⟨t, tr ++ .CROSS :: tokNested e2, by simp [tokExp, ht], h3, h4⟩
  | Minus e1 e2 =>
      obtain ⟨t, tr, ht, _, _, h3, h4⟩ := tokNested_cons e1
      exact ⟨t, tr ++ .DASH :: tokNested e2, by simp [tokExp, ht], h3, h4⟩
  | Times e1 e2 =>
      obtain ⟨t, tr, ht, _, _, h3, h4⟩ := tokNested_cons e1
      exact ⟨t, tr ++ .STAR :: tokNested e2, by simp [tokExp, ht], h3, h4⟩
  | Divide e1 e2 =>
      obtain ⟨t, tr, ht, _, _, h3, h4⟩ := tokNested_cons e1
      exact ⟨t, tr ++ .SLASH :: tokNested e2, by simp [tokExp, ht], h3, h4⟩
  | And e1 e2 =>
      obtain ⟨t, tr, ht, _, _, h3, h4⟩ := tokNested_cons e1
      exact ⟨t, tr ++ .AND :: tokNested e2, by simp [tokExp, ht], h3, h4⟩
  | Or e1 e2 =>
      obtain ⟨t, tr, ht, _, _, h3, h4⟩ := tokNested_cons e1
      exact ⟨t, tr ++ .OR :: tokNested e2, by simp [tokExp, ht], h3, h4⟩
  | Equals e1 e2 =>
      obtain ⟨t, tr, ht, _, _, h3, h4⟩ := tokNested_cons e1
      exact ⟨t, tr ++ .EQUALS :: tokNested e2, by simp [tokExp, ht], h3, h4⟩
  | NotEquals e1 e2 =>
      obtain ⟨t, tr, ht, _, _, h3, h4⟩ := tokNested_cons e1
      exact ⟨t, tr ++ .NOTEQUALS :: tokNested e2, by simp [tokExp, ht],
        h3, h4⟩
  | Less e1 e2 =>
      obtain ⟨t, tr, ht, _, _, h3, h4⟩ := tokNested_cons e1
      exact ⟨t, tr ++ .LESS :: tokNested e2, by simp [tokExp, ht], h3, h4⟩
  | LessEq e1 e2 =>
      obtain ⟨t, tr, ht, _, _, h3, h4⟩ := tokNested_cons e1
      exact ⟨t, tr ++ .LESSEQ :: tokNested e2, by simp [tokExp, ht], h3, h4⟩
  | Greater e1 e2 =>
      obtain ⟨t, tr, ht, _, _, h3, h4⟩ := tokNested_cons e1
      exact ⟨t, tr ++ .GREATER :: tokNested e2, by simp [tokExp, ht], h3, h4⟩
  | GreaterEq e1 e2 =>
      obtain ⟨t, tr, ht, _, _, h3, h4⟩ := tokNested_cons e1
      exact ⟨t, tr ++ .GREATEREQ :: tokNested e2, by simp [tokExp, ht],
        h3, h4⟩

/-- The first token of an argument list rendering is never RPAREN. -/
theorem tokArgs_cons (a : Exp) (as : List Exp) : ∃ t tr,
    tokArgs (a :: as) = t :: tr ∧ t ≠ .RPAREN := by
  obtain ⟨t, tr, ht, _, h2⟩ := tokExp_cons a
  cases as with
  | nil => exact ⟨t, tr, by simp [tokArgs, ht], h2⟩
  | cons a2 as2 =>
      exact ⟨t, tr ++ .COMMA :: tokArgs (a2 :: as2),
        by simp [tokArgs, ht], h2⟩

/-- `parseUnary` falls through to `parseTerm` when the next token is not a
unary operator. -/
theorem parseUnary_step (f : Nat) (t : Tok) (tr : List Tok)
    (h1 : t ≠ .NOT) (h2 : t ≠ .DASH) :
    parseUnary (f + 1) (t :: tr) = parseTerm f (t :: tr) := by
  cases t <;> simp_all [parseUnary]


/-- Completeness of the expression grammar on token images: `parseOr`,
`parseTerm`, `parseUnary` and `parseArgs` reconstruct exactly the rendered
tree, given any follow-up stream outside the expression follow set and the
stated recursion budget.  Strong induction on the node count. -/
theorem parseExpComplete : ∀ N : Nat,
    (∀ e, sizeExp e ≤ N → ∀ fuel rest, expCut rest = true →
      8 * sizeExp e + 8 ≤ fuel →
      parseOr fuel (tokExp e ++ rest) = .ok (e, rest)) ∧
    (∀ e, sizeExp e ≤ N → ∀ fuel rest, 8 * sizeExp e + 9 ≤ fuel →
      parseTerm fuel (tokNested e ++ rest) = .ok (e, rest)) ∧
    (∀ e, sizeExp e ≤ N → ∀ fuel rest, 8 * sizeExp e + 10 ≤ fuel →
      parseUnary fuel (tokNested e ++ rest) = .ok (e, rest)) ∧
    (∀ a as, sizeArgs (a :: as) ≤ N → ∀ fuel rest,
      8 * sizeArgs (a :: as) + 8 ≤ fuel →
      parseArgs fuel (tokArgs (a :: as) ++ (.RPAREN :: rest)) =
        .ok (a :: as, .RPAREN :: rest)) := by
  intro N
  induction N using Nat.strong_induction_on with
  | _ N ih =>
    have hA : ∀ e, sizeExp e ≤ N → ∀ fuel rest, expCut rest = true →
        8 * sizeExp e + 8 ≤ fuel →
        parseOr fuel (tokExp e ++ rest) = .ok (e, rest) := by
      intro e hszN fuel rest hcut hfuel
      have hMS : ∀ t, rest.head? = some t → t ≠ Tok.STAR ∧ t ≠ Tok.SLASH :=
        fun t ht => ⟨(contTok_false_spec (expCut_heads hcut t ht)).1,
          (contTok_false_spec (expCut_heads hcut t ht)).2.1⟩
      have hAS : ∀ t, rest.head? = some t → t ≠ Tok.CROSS ∧ t ≠ Tok.DASH :=
        fun t ht => ⟨(contTok_false_spec (expCut_heads hcut t ht)).2.2.1,
          (contTok_false_spec (expCut_heads hcut t ht)).2.2.2.1⟩
      have hRS : ∀ t, rest.head? = some t → relTok t = false :=
        fun t ht =>
          (contTok_false_spec (expCut_heads hcut t ht)).2.2.2.2.2.2.1
      have hAndS : ∀ t, rest.head? = some t → t ≠ Tok.AND :=
        fun t ht => (contTok_false_spec (expCut_heads hcut t ht)).2.2.2.2.1
      have hOrS : ∀ t, rest.head? = some t → t ≠ Tok.OR :=
        fun t ht =>
          (contTok_false_spec (expCut_heads hcut t ht)).2.2.2.2.2.1
      cases e with
      | IntLit n =>
          simp only [sizeExp] at hfuel
          obtain ⟨g, rfl⟩ : ∃ g, fuel = g + 8 := ⟨fuel - 8, by omega⟩
          have hU : parseUnary (g + 3) (tokExp (.IntLit n) ++ rest) =
              .ok (.IntLit n, rest) := by
            simp [tokExp, parseUnary, parseTerm]
          exact parseOr_of_and (g + 7) (by omega) _ _ _
            (parseAnd_of_rel (g + 6) (by omega) _ _ _
              (parseRel_of_add (g + 5) _ _ _
                (parseAdd_of_mul (g + 4) (by omega) _ _ _
                  (parseMul_of_unary (g + 3) (by omega) _ _ _ hU hMS) hAS)
                hRS) hAndS) hOrS
      | StrLit str =>
          simp only [sizeExp] at hfuel
          obtain ⟨g, rfl⟩ : ∃ g, fuel = g + 8 := ⟨fuel - 8, by omega⟩
          have hU : parseUnary (g + 3) (tokExp (.StrLit str) ++ rest) =
              .ok (.StrLit str, rest) := by
            simp [tokExp, parseUnary, parseTerm]
          exact parseOr_of_and (g + 7) (by omega) _ _ _
            (parseAnd_of_rel (g + 6) (by omega) _ _ _
              (parseRel_of_add (g + 5) _ _ _
                (parseAdd_of_mul (g + 4) (by omega) _ _ _
                  (parseMul_of_unary (g + 3) (by omega) _ _ _ hU hMS) hAS)
                hRS) hAndS) hOrS
      | TrueLit =>
          simp only [sizeExp] at hfuel
          obtain ⟨g, rfl⟩ : ∃ g, fuel = g + 8 := ⟨fuel - 8, by omega⟩
          have hU : parseUnary (g + 3) (tokExp (.TrueLit) ++ rest) =
              .ok (.TrueLit, rest) := by
            simp [tokExp, parseUnary, parseTerm]
          exact parseOr_of_and (g + 7) (by omega) _ _ _
            (parseAnd_of_rel (g + 6) (by omega) _ _ _
              (parseRel_of_add (g + 5) _ _ _
                (parseAdd_of_mul (g + 4) (by omega) _ _ _
                  (parseMul_of_unary (g + 3) (by omega) _ _ _ hU hMS) hAS)
                hRS) hAndS) hOrS
      | FalseLit =>
          simp only [sizeExp] at hfuel
          obtain ⟨g, rfl⟩ : ∃ g, fuel = g + 8 := ⟨fuel - 8, by omega⟩
          have hU : parseUnary (g + 3) (tokExp (.FalseLit) ++ rest) =
              .ok (.FalseLit, rest) := by
            simp [tokExp, parseUnary, parseTerm]
          exact parseOr_of_and (g + 7) (by omega) _ _ _
            (parseAnd_of_rel (g + 6) (by omega) _ _ _
              (parseRel_of_add (g + 5) _ _ _
                (parseAdd_of_mul (g + 4) (by omega) _ _ _
                  (parseMul_of_unary (g + 3) (by omega) _ _ _ hU hMS) hAS)
                hRS) hAndS) hOrS
      | EhLit =>
          simp only [sizeExp] at hfuel
          obtain ⟨g, rfl⟩ : ∃ g, fuel = g + 8 := ⟨fuel - 8, by omega⟩
          have hU : parseUnary (g + 3) (tokExp (.EhLit) ++ rest) =
              .ok (.EhLit, rest) := by
            simp [tokExp, parseUnary, parseTerm]
          exact parseOr_of_and (g + 7) (by omega) _ _ _
            (parseAnd_of_rel (g + 6) (by omega) _ _ _
              (parseRel_of_add (g + 5) _ _ _
                (parseAdd_of_mul (g + 4) (by omega) _ _ _
                  (parseMul_of_unary (g + 3) (by omega) _ _ _ hU hMS) hAS)
                hRS) hAndS) hOrS
      | LocE l =>
          have hp := sizeLoc_pos l
          simp only [sizeExp] at hszN hfuel
          obtain ⟨g, rfl⟩ : ∃ g, fuel = g + 8 := ⟨fuel - 8, by omega⟩
          have harr : rest.head? ≠ some Tok.ARROW :=
            expCut_head_ne hcut (by decide)
          have hlp : rest.head? ≠ some Tok.LPAREN :=
            expCut_head_ne hcut (by decide)
          rw [show tokExp (.LocE l) ++ rest =
            .ID (locRoot l) :: (fieldsToks (locFields l) ++ rest) from by
            simp [tokExp, tokLoc_spine]]
          have hT := parseTerm_loc (g + 1) (locRoot l) (locFields l) rest
            harr hlp
          rw [graftLoc_spine] at hT
          have hU : parseUnary (g + 3)
              (.ID (locRoot l) :: (fieldsToks (locFields l) ++ rest)) =
              .ok (.LocE l, rest) := by
            rw [parseUnary_step (g + 2) _ _ (by simp) (by simp)]
            exact hT
          exact parseOr_of_and (g + 7) (by omega) _ _ _
            (parseAnd_of_rel (g + 6) (by omega) _ _ _
              (parseRel_of_add (g + 5) _ _ _
                (parseAdd_of_mul (g + 4) (by omega) _ _ _
                  (parseMul_of_unary (g + 3) (by omega) _ _ _ hU hMS) hAS)
                hRS) hAndS) hOrS
      | CallExp l args =>
          have hp := sizeLoc_pos l
          have hpa := sizeArgs_pos args
          simp only [sizeExp] at hszN hfuel
          obtain ⟨g, rfl⟩ : ∃ g, fuel = g + 8 := ⟨fuel - 8, by omega⟩
          cases args with
          | nil =>
              rw [show tokExp (.CallExp l []) ++ rest =
                .ID (locRoot l) :: (fieldsToks (locFields l) ++
                  (.LPAREN :: .RPAREN :: rest)) from by
                simp [tokExp, tokArgs, tokLoc_spine]]
              have hT := parseTerm_call_nil (g + 1) (locRoot l)
                (locFields l) rest
              rw [graftLoc_spine] at hT
              have hU : parseUnary (g + 3)
                  (.ID (locRoot l) :: (fieldsToks (locFields l) ++
                    (.LPAREN :: .RPAREN :: rest))) =
                  .ok (.CallExp l [], rest) := by
                rw [parseUnary_step (g + 2) _ _ (by simp) (by simp)]
                exact hT
              exact parseOr_of_and (g + 7) (by omega) _ _ _
                (parseAnd_of_rel (g + 6) (by omega) _ _ _
                  (parseRel_of_add (g + 5) _ _ _
                    (parseAdd_of_mul (g + 4) (by omega) _ _ _
                      (parseMul_of_unary (g + 3) (by omega) _ _ _ hU hMS)
                      hAS) hRS) hAndS) hOrS
          | cons a as =>
              obtain ⟨t, tr, ht, htR⟩ := tokArgs_cons a as
              have hC := (ih (sizeArgs (a :: as)) (by omega)).2.2.2 a as
                (le_refl _) (g + 1) rest (by omega)
              rw [show tokExp (.CallExp l (a :: as)) ++ rest =
                .ID (locRoot l) :: (fieldsToks (locFields l) ++
                  (.LPAREN :: (tokArgs (a :: as) ++ (.RPAREN :: rest))))
                from by simp [tokExp, tokLoc_spine]]
              have hT : parseTerm (g + 2)
                  (.ID (locRoot l) :: (fieldsToks (locFields l) ++
                    (.LPAREN :: (tokArgs (a :: as) ++ (.RPAREN :: rest))))) =
                  .ok (.CallExp l (a :: as), rest) := by
                rw [show tokArgs (a :: as) ++ (Tok.RPAREN :: rest) =
                  t :: (tr ++ (Tok.RPAREN :: rest)) from by simp [ht]]
                rw [parseTerm_call (g + 1) (locRoot l) (locFields l) t
                  (tr ++ (Tok.RPAREN :: rest)) htR]
                rw [show t :: (tr ++ (Tok.RPAREN :: rest)) =
                  tokArgs (a :: as) ++ (Tok.RPAREN :: rest) from by
                  simp [ht]]
                rw [hC]
                simp [graftLoc_spine]
              have hU : parseUnary (g + 3)
                  (.ID (locRoot l) :: (fieldsToks (locFields l) ++
                    (.LPAREN :: (tokArgs (a :: as) ++ (.RPAREN :: rest))))) =
                  .ok (.CallExp l (a :: as), rest) := by
                rw [parseUnary_step (g + 2) _ _ (by simp) (by simp)]
                exact hT
              exact parseOr_of_and (g + 7) (by omega) _ _ _
                (parseAnd_of_rel (g + 6) (by omega) _ _ _
                  (parseRel_of_add (g + 5) _ _ _
                    (parseAdd_of_mul (g + 4) (by omega) _ _ _
                      (parseMul_of_unary (g + 3) (by omega) _ _ _ hU hMS)
                      hAS) hRS) hAndS) hOrS
      | Plus e1 e2 =>
          have hp1 := sizeExp_pos e1
          have hp2 := sizeExp_pos e2
          simp only [sizeExp] at hszN hfuel
          obtain ⟨g, rfl⟩ : ∃ g, fuel = g + 8 := ⟨fuel - 8, by omega⟩
          have hD1 := (ih (sizeExp e1) (by omega)).2.2.1 e1 (le_refl _)
            (g + 3) (.CROSS :: (tokNested e2 ++ rest)) (by omega)
          have hD2 := (ih (sizeExp e2) (by omega)).2.2.1 e2 (le_refl _)
            (g + 2) rest (by omega)
          rw [show tokExp (.Plus e1 e2) ++ rest =
            tokNested e1 ++ (.CROSS :: (tokNested e2 ++ rest)) from by
            simp [tokExp]]
          exact parseOr_of_and (g + 7) (by omega) _ _ _
            (parseAnd_of_rel (g + 6) (by omega) _ _ _
              (parseRel_of_add (g + 5) _ _ _
                (parseAdd_plus (g + 3) (by omega) _ _ _ _ _
                  (parseMul_of_unary (g + 3) (by omega) _ _ _ hD1
                    (head_cons_stop2 _ (by decide) (by decide)))
                  (parseMul_of_unary (g + 2) (by omega) _ _ _ hD2 hMS) hAS)
                hRS) hAndS) hOrS
      | Minus e1 e2 =>
          have hp1 := sizeExp_pos e1
          have hp2 := sizeExp_pos e2
          simp only [sizeExp] at hszN hfuel
          obtain ⟨g, rfl⟩ : ∃ g, fuel = g + 8 := ⟨fuel - 8, by omega⟩
          have hD1 := (ih (sizeExp e1) (by omega)).2.2.1 e1 (le_refl _)
            (g + 3) (.DASH :: (tokNested e2 ++ rest)) (by omega)
          have hD2 := (ih (sizeExp e2) (by omega)).2.2.1 e2 (le_refl _)
            (g + 2) rest (by omega)
          rw [show tokExp (.Minus e1 e2) ++ rest =
            tokNested e1 ++ (.DASH :: (tokNested e2 ++ rest)) from by
            simp [tokExp]]
          exact parseOr_of_and (g + 7) (by omega) _ _ _
            (parseAnd_of_rel (g + 6) (by omega) _ _ _
              (parseRel_of_add (g + 5) _ _ _
                (parseAdd_minus (g + 3) (by omega) _ _ _ _ _
                  (parseMul_of_unary (g + 3) (by omega) _ _ _ hD1
                    (head_cons_stop2 _ (by decide) (by decide)))
                  (parseMul_of_unary (g + 2) (by omega) _ _ _ hD2 hMS) hAS)
                hRS) hAndS) hOrS
      | Times e1 e2 =>
          have hp1 := sizeExp_pos e1
          have hp2 := sizeExp_pos e2
          simp only [sizeExp] at hszN hfuel
          obtain ⟨g, rfl⟩ : ∃ g, fuel = g + 8 := ⟨fuel - 8, by omega⟩
          have hD1 := (ih (sizeExp e1) (by omega)).2.2.1 e1 (le_refl _)
            (g + 3) (.STAR :: (tokNested e2 ++ rest)) (by omega)
          have hD2 := (ih (sizeExp e2) (by omega)).2.2.1 e2 (le_refl _)
            (g + 2) rest (by omega)
          rw [show tokExp (.Times e1 e2) ++ rest =
            tokNested e1 ++ (.STAR :: (tokNested e2 ++ rest)) from by
            simp [tokExp]]
          exact parseOr_of_and (g + 7) (by omega) _ _ _
            (parseAnd_of_rel (g + 6) (by omega) _ _ _
              (parseRel_of_add (g + 5) _ _ _
                (parseAdd_of_mul (g + 4) (by omega) _ _ _
                  (parseMul_times (g + 2) (by omega) _ _ _ _ _ hD1 hD2 hMS) hAS)
                hRS) hAndS) hOrS
      | Divide e1 e2 =>
          have hp1 := sizeExp_pos e1
          have hp2 := sizeExp_pos e2
          simp only [sizeExp] at hszN hfuel
          obtain ⟨g, rfl⟩ : ∃ g, fuel = g + 8 := ⟨fuel - 8, by omega⟩
          have hD1 := (ih (sizeExp e1) (by omega)).2.2.1 e1 (le_refl _)
            (g + 3) (.SLASH :: (tokNested e2 ++ rest)) (by omega)
          have hD2 := (ih (sizeExp e2) (by omega)).2.2.1 e2 (le_refl _)
            (g + 2) rest (by omega)
          rw [show tokExp (.Divide e1 e2) ++ rest =
            tokNested e1 ++ (.SLASH :: (tokNested e2 ++ rest)) from by
            simp [tokExp]]
          exact parseOr_of_and (g + 7) (by omega) _ _ _
            (parseAnd_of_rel (g + 6) (by omega) _ _ _
              (parseRel_of_add (g + 5) _ _ _
                (parseAdd_of_mul (g + 4) (by omega) _ _ _
                  (parseMul_divide (g + 2) (by omega) _ _ _ _ _ hD1 hD2 hMS) hAS)
                hRS) hAndS) hOrS
      | Less e1 e2 =>
          have hp1 := sizeExp_pos e1
          have hp2 := sizeExp_pos e2
          simp only [sizeExp] at hszN hfuel
          obtain ⟨g, rfl⟩ : ∃ g, fuel = g + 8 := ⟨fuel - 8, by omega⟩
          have hD1 := (ih (sizeExp e1) (by omega)).2.2.1 e1 (le_refl _)
            (g + 3) (.LESS :: (tokNested e2 ++ rest)) (by omega)
          have hD2 := (ih (sizeExp e2) (by omega)).2.2.1 e2 (le_refl _)
            (g + 3) rest (by omega)
          rw [show tokExp (.Less e1 e2) ++ rest =
            tokNested e1 ++ (.LESS :: (tokNested e2 ++ rest)) from by
            simp [tokExp]]
          exact parseOr_of_and (g + 7) (by omega) _ _ _
            (parseAnd_of_rel (g + 6) (by omega) _ _ _
              (parseRel_rel (g + 5) _ .LESS (by decide) _ _ _ _
                (parseAdd_of_mul (g + 4) (by omega) _ _ _
                  (parseMul_of_unary (g + 3) (by omega) _ _ _ hD1
                    (head_cons_stop2 _ (by decide) (by decide)))
                  (head_cons_stop2 _ (by decide) (by decide)))
                (parseAdd_of_mul (g + 4) (by omega) _ _ _
                  (parseMul_of_unary (g + 3) (by omega) _ _ _ hD2 hMS) hAS)
                hRS) hAndS) hOrS
      | LessEq e1 e2 =>
          have hp1 := sizeExp_pos e1
          have hp2 := sizeExp_pos e2
          simp only [sizeExp] at hszN hfuel
          obtain ⟨g, rfl⟩ : ∃ g, fuel = g + 8 := ⟨fuel - 8, by omega⟩
          have hD1 := (ih (sizeExp e1) (by omega)).2.2.1 e1 (le_refl _)
            (g + 3) (.LESSEQ :: (tokNested e2 ++ rest)) (by omega)
          have hD2 := (ih (sizeExp e2) (by omega)).2.2.1 e2 (le_refl _)
            (g + 3) rest (by omega)
          rw [show tokExp (.LessEq e1 e2) ++ rest =
            tokNested e1 ++ (.LESSEQ :: (tokNested e2 ++ rest)) from by
            simp [tokExp]]
          exact parseOr_of_and (g + 7) (by omega) _ _ _
            (parseAnd_of_rel (g + 6) (by omega) _ _ _
              (parseRel_rel (g + 5) _ .LESSEQ (by decide) _ _ _ _
                (parseAdd_of_mul (g + 4) (by omega) _ _ _
                  (parseMul_of_unary (g + 3) (by omega) _ _ _ hD1
                    (head_cons_stop2 _ (by decide) (by decide)))
                  (head_cons_stop2 _ (by decide) (by decide)))
                (parseAdd_of_mul (g + 4) (by omega) _ _ _
                  (parseMul_of_unary (g + 3) (by omega) _ _ _ hD2 hMS) hAS)
                hRS) hAndS) hOrS
      | Greater e1 e2 =>
          have hp1 := sizeExp_pos e1
          have hp2 := sizeExp_pos e2
          simp only [sizeExp] at hszN hfuel
          obtain ⟨g, rfl⟩ : ∃ g, fuel = g + 8 := ⟨fuel - 8, by omega⟩
          have hD1 := (ih (sizeExp e1) (by omega)).2.2.1 e1 (le_refl _)
            (g + 3) (.GREATER :: (tokNested e2 ++ rest)) (by omega)
          have hD2 := (ih (sizeExp e2) (by omega)).2.2.1 e2 (le_refl _)
            (g + 3) rest (by omega)
          rw [show tokExp (.Greater e1 e2) ++ rest =
            tokNested e1 ++ (.GREATER :: (tokNested e2 ++ rest)) from by
            simp [tokExp]]
          exact parseOr_of_and (g + 7) (by omega) _ _ _
            (parseAnd_of_rel (g + 6) (by omega) _ _ _
              (parseRel_rel (g + 5) _ .GREATER (by decide) _ _ _ _
                (parseAdd_of_mul (g + 4) (by omega) _ _ _
                  (parseMul_of_unary (g + 3) (by omega) _ _ _ hD1
                    (head_cons_stop2 _ (by decide) (by decide)))
                  (head_cons_stop2 _ (by decide) (by decide)))
                (parseAdd_of_mul (g + 4) (by omega) _ _ _
                  (parseMul_of_unary (g + 3) (by omega) _ _ _ hD2 hMS) hAS)
                hRS) hAndS) hOrS
      | GreaterEq e1 e2 =>
          have hp1 := sizeExp_pos e1
          have hp2 := sizeExp_pos e2
          simp only [sizeExp] at hszN hfuel
          obtain ⟨g, rfl⟩ : ∃ g, fuel = g + 8 := ⟨fuel - 8, by omega⟩
          have hD1 := (ih (sizeExp e1) (by omega)).2.2.1 e1 (le_refl _)
            (g + 3) (.GREATEREQ :: (tokNested e2 ++ rest)) (by omega)
          have hD2 := (ih (sizeExp e2) (by omega)).2.2.1 e2 (le_refl _)
            (g + 3) rest (by omega)
          rw [show tokExp (.GreaterEq e1 e2) ++ rest =
            tokNested e1 ++ (.GREATEREQ :: (tokNested e2 ++ rest)) from by
            simp [tokExp]]
          exact parseOr_of_and (g + 7) (by omega) _ _ _
            (parseAnd_of_rel (g + 6) (by omega) _ _ _
              (parseRel_rel (g + 5) _ .GREATEREQ (by decide) _ _ _ _
                (parseAdd_of_mul (g + 4) (by omega) _ _ _
                  (parseMul_of_unary (g + 3) (by omega) _ _ _ hD1
                    (head_cons_stop2 _ (by decide) (by decide)))
                  (head_cons_stop2 _ (by decide) (by decide)))
                (parseAdd_of_mul (g + 4) (by omega) _ _ _
                  (parseMul_of_unary (g + 3) (by omega) _ _ _ hD2 hMS) hAS)
                hRS) hAndS) hOrS
      | Equals e1 e2 =>
          have hp1 := sizeExp_pos e1
          have hp2 := sizeExp_pos e2
          simp only [sizeExp] at hszN hfuel
          obtain ⟨g, rfl⟩ : ∃ g, fuel = g + 8 := ⟨fuel - 8, by omega⟩
          have hD1 := (ih (sizeExp e1) (by omega)).2.2.1 e1 (le_refl _)
            (g + 3) (.EQUALS :: (tokNested e2 ++ rest)) (by omega)
          have hD2 := (ih (sizeExp e2) (by omega)).2.2.1 e2 (le_refl _)
            (g + 3) rest (by omega)
          rw [show tokExp (.Equals e1 e2) ++ rest =
            tokNested e1 ++ (.EQUALS :: (tokNested e2 ++ rest)) from by
            simp [tokExp]]
          exact parseOr_of_and (g + 7) (by omega) _ _ _
            (parseAnd_of_rel (g + 6) (by omega) _ _ _
              (parseRel_rel (g + 5) _ .EQUALS (by decide) _ _ _ _
                (parseAdd_of_mul (g + 4) (by omega) _ _ _
                  (parseMul_of_unary (g + 3) (by omega) _ _ _ hD1
                    (head_cons_stop2 _ (by decide) (by decide)))
                  (head_cons_stop2 _ (by decide) (by decide)))
                (parseAdd_of_mul (g + 4) (by omega) _ _ _
                  (parseMul_of_unary (g + 3) (by omega) _ _ _ hD2 hMS) hAS)
                hRS) hAndS) hOrS
      | NotEquals e1 e2 =>
          have hp1 := sizeExp_pos e1
          have hp2 := sizeExp_pos e2
          simp only [sizeExp] at hszN hfuel
          obtain ⟨g, rfl⟩ : ∃ g, fuel = g + 8 := ⟨fuel - 8, by omega⟩
          have hD1 := (ih (sizeExp e1) (by omega)).2.2.1 e1 (le_refl _)
            (g + 3) (.NOTEQUALS :: (tokNested e2 ++ rest)) (by omega)
          have hD2 := (ih (sizeExp e2) (by omega)).2.2.1 e2 (le_refl _)
            (g + 3) rest (by omega)
          rw [show tokExp (.NotEquals e1 e2) ++ rest =
            tokNested e1 ++ (.NOTEQUALS :: (tokNested e2 ++ rest)) from by
            simp [tokExp]]
          exact parseOr_of_and (g + 7) (by omega) _ _ _
            (parseAnd_of_rel (g + 6) (by omega) _ _ _
              (parseRel_rel (g + 5) _ .NOTEQUALS (by decide) _ _ _ _
                (parseAdd_of_mul (g + 4) (by omega) _ _ _
                  (parseMul_of_unary (g + 3) (by omega) _ _ _ hD1
                    (head_cons_stop2 _ (by decide) (by decide)))
                  (head_cons_stop2 _ (by decide) (by decide)))
                (parseAdd_of_mul (g + 4) (by omega) _ _ _
                  (parseMul_of_unary (g + 3) (by omega) _ _ _ hD2 hMS) hAS)
                hRS) hAndS) hOrS
      | And e1 e2 =>
          have hp1 := sizeExp_pos e1
          have hp2 := sizeExp_pos e2
          simp only [sizeExp] at hszN hfuel
          obtain ⟨g, rfl⟩ : ∃ g, fuel = g + 8 := ⟨fuel - 8, by omega⟩
          have hD1 := (ih (sizeExp e1) (by omega)).2.2.1 e1 (le_refl _)
            (g + 3) (.AND :: (tokNested e2 ++ rest)) (by omega)
          have hD2 := (ih (sizeExp e2) (by omega)).2.2.1 e2 (le_refl _)
            (g + 2) rest (by omega)
          rw [show tokExp (.And e1 e2) ++ rest =
            tokNested e1 ++ (.AND :: (tokNested e2 ++ rest)) from by
            simp [tokExp]]
          exact parseOr_of_and (g + 7) (by omega) _ _ _
            (parseAnd_andop (g + 5) (by omega) _ _ _ _ _
              (parseRel_of_add (g + 5) _ _ _
                (parseAdd_of_mul (g + 4) (by omega) _ _ _
                  (parseMul_of_unary (g + 3) (by omega) _ _ _ hD1
                    (head_cons_stop2 _ (by decide) (by decide)))
                  (head_cons_stop2 _ (by decide) (by decide)))
                (head_cons_rel _ (by decide)))
              (parseRel_of_add (g + 4) _ _ _
                (parseAdd_of_mul (g + 3) (by omega) _ _ _
                  (parseMul_of_unary (g + 2) (by omega) _ _ _ hD2 hMS) hAS)
                hRS) hAndS) hOrS
      | Or e1 e2 =>
          have hp1 := sizeExp_pos e1
          have hp2 := sizeExp_pos e2
          simp only [sizeExp] at hszN hfuel
          obtain ⟨g, rfl⟩ : ∃ g, fuel = g + 8 := ⟨fuel - 8, by omega⟩
          have hD1 := (ih (sizeExp e1) (by omega)).2.2.1 e1 (le_refl _)
            (g + 3) (.OR :: (tokNested e2 ++ rest)) (by omega)
          have hD2 := (ih (sizeExp e2) (by omega)).2.2.1 e2 (le_refl _)
            (g + 2) rest (by omega)
          rw [show tokExp (.Or e1 e2) ++ rest =
            tokNested e1 ++ (.OR :: (tokNested e2 ++ rest)) from by
            simp [tokExp]]
          exact parseOr_orop (g + 6) (by omega) _ _ _ _ _
            (parseAnd_of_rel (g + 6) (by omega) _ _ _
              (parseRel_of_add (g + 5) _ _ _
                (parseAdd_of_mul (g + 4) (by omega) _ _ _
                  (parseMul_of_unary (g + 3) (by omega) _ _ _ hD1
                    (head_cons_stop2 _ (by decide) (by decide)))
                  (head_cons_stop2 _ (by decide) (by decide)))
                (head_cons_rel _ (by decide)))
              (head_cons_stop1 _ (by decide)))
            (parseAnd_of_rel (g + 5) (by omega) _ _ _
              (parseRel_of_add (g + 4) _ _ _
                (parseAdd_of_mul (g + 3) (by omega) _ _ _
                  (parseMul_of_unary (g + 2) (by omega) _ _ _ hD2 hMS) hAS)
                hRS) hAndS) hOrS
      | Neg e1 =>
          have hp1 := sizeExp_pos e1
          simp only [sizeExp] at hszN hfuel
          obtain ⟨g, rfl⟩ : ∃ g, fuel = g + 8 := ⟨fuel - 8, by omega⟩
          have hB1 := (ih (sizeExp e1) (by omega)).2.1 e1 (le_refl _)
            (g + 2) rest (by omega)
          rw [show tokExp (.Neg e1) ++ rest =
            .DASH :: (tokNested e1 ++ rest) from by simp [tokExp]]
          have hU : parseUnary (g + 3) (.DASH :: (tokNested e1 ++ rest)) =
              .ok (.Neg e1, rest) := by
            simp [parseUnary, hB1]
          exact parseOr_of_and (g + 7) (by omega) _ _ _
            (parseAnd_of_rel (g + 6) (by omega) _ _ _
              (parseRel_of_add (g + 5) _ _ _
                (parseAdd_of_mul (g + 4) (by omega) _ _ _
                  (parseMul_of_unary (g + 3) (by omega) _ _ _ hU hMS) hAS)
                hRS) hAndS) hOrS
      | Not e1 =>
          have hp1 := sizeExp_pos e1
          simp only [sizeExp] at hszN hfuel
          obtain ⟨g, rfl⟩ : ∃ g, fuel = g + 8 := ⟨fuel - 8, by omega⟩
          have hD1 := (ih (sizeExp e1) (by omega)).2.2.1 e1 (le_refl _)
            (g + 2) rest (by omega)
          rw [show tokExp (.Not e1) ++ rest =
            .NOT :: (tokNested e1 ++ rest) from by simp [tokExp]]
          have hU : parseUnary (g + 3) (.NOT :: (tokNested e1 ++ rest)) =
              .ok (.Not e1, rest) := by
            rw [parseUnary.eq_def]
            dsimp only
            rw [hD1]
          exact parseOr_of_and (g + 7) (by omega) _ _ _
            (parseAnd_of_rel (g + 6) (by omega) _ _ _
              (parseRel_of_add (g + 5) _ _ _
                (parseAdd_of_mul (g + 4) (by omega) _ _ _
                  (parseMul_of_unary (g + 3) (by omega) _ _ _ hU hMS) hAS)
                hRS) hAndS) hOrS
    have hB : ∀ e, sizeExp e ≤ N → ∀ fuel rest,
        8 * sizeExp e + 9 ≤ fuel →
        parseTerm fuel (tokNested e ++ rest) = .ok (e, rest) := by
      intro e hszN fuel rest hfuel
      have hp := sizeExp_pos e
      obtain ⟨f, rfl⟩ : ∃ f, fuel = f + 1 := ⟨fuel - 1, by omega⟩
      by_cases hl : isLitExp e
      · cases e with
        | LocE l => exact absurd hl (by simp [isLitExp])
        | CallExp l args => exact absurd hl (by simp [isLitExp])
        | Plus e1 e2 => exact absurd hl (by simp [isLitExp])
        | Minus e1 e2 => exact absurd hl (by simp [isLitExp])
        | Times e1 e2 => exact absurd hl (by simp [isLitExp])
        | Divide e1 e2 => exact absurd hl (by simp [isLitExp])
        | And e1 e2 => exact absurd hl (by simp [isLitExp])
        | Or e1 e2 => exact absurd hl (by simp [isLitExp])
        | Equals e1 e2 => exact absurd hl (by simp [isLitExp])
        | NotEquals e1 e2 => exact absurd hl (by simp [isLitExp])
        | Less e1 e2 => exact absurd hl (by simp [isLitExp])
        | LessEq e1 e2 => exact absurd hl (by simp [isLitExp])
        | Greater e1 e2 => exact absurd hl (by simp [isLitExp])
        | GreaterEq e1 e2 => exact absurd hl (by simp [isLitExp])
        | Neg e1 => exact absurd hl (by simp [isLitExp])
        | Not e1 => exact absurd hl (by simp [isLitExp])
        | IntLit n => simp [tokNested, parseTerm]
        | StrLit str => simp [tokNested, parseTerm]
        | TrueLit => simp [tokNested, parseTerm]
        | FalseLit => simp [tokNested, parseTerm]
        | EhLit => simp [tokNested, parseTerm]
      · have hA1 := hA e hszN f (.RPAREN :: rest) (by rfl) (by omega)
        rw [(nested_comp e (by simpa using hl)).2]
        rw [show (Tok.LPAREN :: (tokExp e ++ [Tok.RPAREN])) ++ rest =
          Tok.LPAREN :: (tokExp e ++ (Tok.RPAREN :: rest)) from by simp]
        simp [parseTerm, hA1]
    have hD : ∀ e, sizeExp e ≤ N → ∀ fuel rest,
        8 * sizeExp e + 10 ≤ fuel →
        parseUnary fuel (tokNested e ++ rest) = .ok (e, rest) := by
      intro e hszN fuel rest hfuel
      have hp := sizeExp_pos e
      obtain ⟨f, rfl⟩ : ∃ f, fuel = f + 1 := ⟨fuel - 1, by omega⟩
      have hB1 := hB e hszN f rest (by omega)
      obtain ⟨t, tr, ht, h1, h2, h3, h4⟩ := tokNested_cons e
      rw [ht] at hB1 ⊢
      rw [show (t :: tr) ++ rest = t :: (tr ++ rest) from by simp] at hB1 ⊢
      rw [parseUnary_step f t (tr ++ rest) h1 h2]
      exact hB1
    refine ⟨hA, hB, hD, ?_⟩
    intro a as hszN fuel rest hfuel
    have hpa := sizeExp_pos a
    obtain ⟨f, rfl⟩ : ∃ f, fuel = f + 1 :=
      ⟨fuel - 1, by have := sizeArgs_pos as; simp [sizeArgs] at hfuel; omega⟩
    cases as with
    | nil =>
        simp only [sizeArgs] at hszN hfuel
        have hA1 := hA a (by omega) f (.RPAREN :: rest) (by rfl) (by omega)
        rw [show tokArgs [a] ++ (Tok.RPAREN :: rest) =
          tokExp a ++ (Tok.RPAREN :: rest) from by simp [tokArgs]]
        simp [parseArgs, hA1]
    | cons a2 as2 =>
        have hpa2 := sizeExp_pos a2
        have hpas2 := sizeArgs_pos as2
        simp only [sizeArgs] at hszN hfuel
        have hA1 := hA a (by omega) f
          (.COMMA :: (tokArgs (a2 :: as2) ++ (.RPAREN :: rest)))
          (by rfl) (by omega)
        have hC2 := (ih (sizeArgs (a2 :: as2))
          (by simp only [sizeArgs]; omega)).2.2.2 a2 as2 (le_refl _) f
          rest (by simp only [sizeArgs]; omega)
        rw [show tokArgs (a :: a2 :: as2) ++ (Tok.RPAREN :: rest) =
          tokExp a ++ (.COMMA :: (tokArgs (a2 :: as2) ++
            (Tok.RPAREN :: rest))) from by simp [tokArgs]]
        simp [parseArgs, hA1, hC2]


end ALang
